import Mathlib

/-!
# go-prettyformat: a shallow embedding of `pretty.go`

The Go package renders an arbitrary value as indented text by a reflection
driven recursion (`Format` / `formatPadded`).  This file embeds the reflected
view of a Go value (`Value`, `Ty`, `Kind`) and the rendering functions, and
proves properties of the rendering.

Conventions of the embedding

* A Go call returns a pair `(string, error)` or panics: `Result`.
* `padding` is a Go `int`; it is an `Int` here (the indentation of a value
  nested `d` levels deep is `2 + 2 * d`, far from the machine range).
* A Go `string` is a Lean `String` (well-formed UTF-8 text).
* Library routines the package calls (`fmt.Sprintf`, `strings.Repeat`,
  `sort.Sort`, `reflect`) are modelled next to their use, each with a comment.
  What the library does not fix across its releases (the Unicode tables of
  `strconv.IsPrint`, the routine of `sort.Sort` on more than six elements) is
  the parameter `lib : Library`; `Library.Lawful` states what the library
  documents of it.
* A run-time panic carries its cause (`Panic`).
* What is said of two calls on one value is said of two `Value`s related by
  `Reordered`, since the order in which a map is enumerated is not fixed from
  one call to the next.
* A type is a finite descriptor `Ty`; `typeName` on the types as the run-time
  holds them, which may reach themselves, is `typeNameWithin` on a table of
  `rtype`s.
-/

namespace PrettyFormat

/-! ## Errors and results -/

/-- The five error values declared at the top of `pretty.go`. -/
inductive Error
  | ErrInvalidType
  | ErrArbitraryPointerType
  | ErrFunctionType
  | ErrInterfaceType
  | ErrChanType
  deriving DecidableEq, Repr

/-- The run-time panics the package can raise: calling `Kind()` on the nil
`reflect.Type` of the nil interface (a nil dereference), a failed type
assertion `value.(T)`, `strings.Repeat` with a negative count, and calling
`Interface()` on the zero `reflect.Value` that `MapIndex` returns for a key
it does not find. -/
inductive Panic
  | nilType
  | typeAssertion
  | negativeRepeat
  | zeroValue
  deriving DecidableEq, Repr

/-- Outcome of a call of one of the `format...` functions: the returned pair
`(text, err)` (`err = none` is Go's `nil` error), or a run-time panic. -/
inductive Result
  | ret (text : String) (err : Option Error)
  | panic (cause : Panic)
  deriving DecidableEq, Repr

/-- Outcome of running one of the `for` loops of the package: the loop ran to
its end with state `a`, or its body executed `return text, err`, or it
panicked. -/
inductive Loop (α : Type)
  | next (a : α)
  | exit (text : String) (err : Option Error)
  | panic (cause : Panic)
  deriving Repr

/-! ## Reflection: kinds, types, values -/

/-- The kinds of `reflect.Kind`. -/
inductive Kind
  | Invalid | Bool
  | Int | Int8 | Int16 | Int32 | Int64
  | Uint | Uint8 | Uint16 | Uint32 | Uint64 | Uintptr
  | Float32 | Float64 | Complex64 | Complex128
  | Array | Chan | Func | Interface | Map | Ptr | Slice | String | Struct
  | UnsafePointer
  deriving DecidableEq, Repr

/-- Text of `reflect.Kind.String()`. -/
def kindString : Kind → String
  | .Invalid => "invalid" | .Bool => "bool"
  | .Int => "int" | .Int8 => "int8" | .Int16 => "int16" | .Int32 => "int32"
  | .Int64 => "int64"
  | .Uint => "uint" | .Uint8 => "uint8" | .Uint16 => "uint16"
  | .Uint32 => "uint32" | .Uint64 => "uint64" | .Uintptr => "uintptr"
  | .Float32 => "float32" | .Float64 => "float64"
  | .Complex64 => "complex64" | .Complex128 => "complex128"
  | .Array => "array" | .Chan => "chan" | .Func => "func"
  | .Interface => "interface" | .Map => "map" | .Ptr => "ptr"
  | .Slice => "slice" | .String => "string" | .Struct => "struct"
  | .UnsafePointer => "unsafe.Pointer"

/-- The integer kinds rendered by `formatInt` ... `formatUint64`. -/
inductive IntKind
  | Int | Int8 | Int16 | Int32 | Int64 | Uint | Uint8 | Uint16 | Uint32 | Uint64
  deriving DecidableEq, Repr

/-- The kinds rendered by `formatFloat32` ... `formatComplex128`. -/
inductive FloatKind
  | Float32 | Float64 | Complex64 | Complex128
  deriving DecidableEq, Repr

/-- Kinds without element types. -/
inductive Basic
  | Bool
  | Integer (k : IntKind)
  | Uintptr
  | Float (k : FloatKind)
  | String
  | UnsafePointer
  deriving DecidableEq, Repr

def IntKind.Kind : IntKind → Kind
  | .Int => .Int | .Int8 => .Int8 | .Int16 => .Int16 | .Int32 => .Int32
  | .Int64 => .Int64 | .Uint => .Uint | .Uint8 => .Uint8 | .Uint16 => .Uint16
  | .Uint32 => .Uint32 | .Uint64 => .Uint64

def FloatKind.Kind : FloatKind → Kind
  | .Float32 => .Float32 | .Float64 => .Float64
  | .Complex64 => .Complex64 | .Complex128 => .Complex128

def Basic.Kind : Basic → Kind
  | .Bool => .Bool
  | .Integer k => k.Kind
  | .Uintptr => .Uintptr
  | .Float k => k.Kind
  | .String => .String
  | .UnsafePointer => .UnsafePointer

/-- A type descriptor, `reflect.Type`, with what the package reads of it:
`Kind()`, `Elem()`, `Key()`, `Len()` and, for structs, `Name()`.

`defined` on a basic type tells a user-defined type (`type MyInt int`) from
the predeclared one (`int`): both have kind `int`, but only a value of the
predeclared type passes the type assertion `value.(int)`.

A `Ty` is the finite unfolding of a type along `Elem()` and `Key()`. A type
that reaches itself that way (`type T []T`) has no such unfolding: it is an
`rtype` of a table of types, on which `typeNameWithin` runs `typeName`, and a
value of such a type is outside `Value`. -/
inductive Ty
  | basic (k : Basic) (defined : Bool)
  | array (len : Nat) (elem : Ty)
  | chan (elem : Ty)
  | func
  | interface
  | map (key : Ty) (elem : Ty)
  | ptr (elem : Ty)
  | slice (elem : Ty)
  | struct (name : String)
  deriving DecidableEq, Repr

/-- The method `reflect.Type.Kind()`. -/
def Ty.Kind : Ty → Kind
  | .basic k _ => k.Kind
  | .array _ _ => .Array
  | .chan _ => .Chan
  | .func => .Func
  | .interface => .Interface
  | .map _ _ => .Map
  | .ptr _ => .Ptr
  | .slice _ => .Slice
  | .struct _ => .Struct

/-- A `reflect.StructField`: the package reads `Name`, `PkgPath` (empty
exactly for exported fields) and `Type` (here `Typ`). -/
structure StructField where
  Name : String
  PkgPath : String
  Typ : Ty
  deriving DecidableEq, Repr

/-- A Go value as seen through `reflect`, i.e. the dynamic content of an
`interface{}` argument.

* `absent` is the nil interface: it carries no type.
* Floating-point and complex numbers are represented by the text `%v` prints
  for them; no floating-point arithmetic is modelled.
* `slice` and `map` carry `none` for the nil slice / nil map.  The entries of
  a map are listed in the order `MapKeys()` enumerates them in the call at
  hand, each key with the element the map holds for it.  Another call may
  enumerate them in another order: the same Go value is then another `Value`,
  related to the first by `Reordered`.
* `ptr` carries `none` for a nil pointer.
* `struct` lists the fields in declaration order, each with its descriptor.

Values are finite trees; cyclic pointer graphs are outside the embedding. -/
inductive Value
  | absent
  | bool (defined : Bool) (b : Bool)
  | int (k : IntKind) (defined : Bool) (n : Int)
  | uintptr (defined : Bool) (n : Nat)
  | float (k : FloatKind) (defined : Bool) (text : String)
  | string (defined : Bool) (s : String)
  | unsafePointer (defined : Bool) (addr : Nat)
  | chan (elem : Ty)
  | func
  | array (elem : Ty) (elems : List Value)
  | slice (elem : Ty) (elems : Option (List Value))
  | map (key : Ty) (elem : Ty) (entries : Option (List (Value × Value)))
  | ptr (elem : Ty) (pointee : Option Value)
  | struct (name : String) (fields : List (StructField × Value))

/-- The function `reflect.TypeOf`: the dynamic type of a value, `none` (a nil
`reflect.Type`) for the nil interface.  It never yields an interface type. -/
def TypeOf : Value → Option Ty
  | .absent => none
  | .bool d _ => some (.basic .Bool d)
  | .int k d _ => some (.basic (.Integer k) d)
  | .uintptr d _ => some (.basic .Uintptr d)
  | .float k d _ => some (.basic (.Float k) d)
  | .string d _ => some (.basic .String d)
  | .unsafePointer d _ => some (.basic .UnsafePointer d)
  | .chan e => some (.chan e)
  | .func => some .func
  | .array e elems => some (.array elems.length e)
  | .slice e _ => some (.slice e)
  | .map k e _ => some (.map k e)
  | .ptr e _ => some (.ptr e)
  | .struct name _ => some (.struct name)

/-- The text `%v` prints for a number holds `NaN`: the number is a NaN, or a
complex number with a NaN part. -/
def hasNaN : List Char → Bool
  | [] => false
  | c :: cs => (c == 'N' && cs.take 2 == ['a', 'N']) || hasNaN cs

mutual

/-- Go's `x == x` on the value, as the run-time decides it for a map key: a
NaN is not equal to itself, an array is equal to itself when all its elements
are, a struct when all its fields but the blank ones (`_`) are, exported or
not; pointers and channels are compared by identity, and every other scalar
equals itself. A slice, a map and a function are never a key nor part of one
(the insertion panics), so their case is reached by no key of a Go map. -/
def equalsItself : Value → Bool
  | .float _ _ text => !hasNaN text.data
  | .array _ elems => elemsEqualThemselves elems
  | .struct _ fields => fieldsEqualThemselves fields
  | .absent => true
  | .bool _ _ => true
  | .int _ _ _ => true
  | .uintptr _ _ => true
  | .string _ _ => true
  | .unsafePointer _ _ => true
  | .chan _ => true
  | .func => true
  | .slice _ _ => true
  | .map _ _ _ => true
  | .ptr _ _ => true

def elemsEqualThemselves : List Value → Bool
  | [] => true
  | v :: vs => equalsItself v && elemsEqualThemselves vs

def fieldsEqualThemselves : List (StructField × Value) → Bool
  | [] => true
  | (f, v) :: rest => (f.Name == "_" || equalsItself v) && fieldsEqualThemselves rest

end

/-- The lookup `v.MapIndex(key)` for a key that `v.MapKeys()` listed finds the
entry of the key exactly when the key equals itself: a map holds each key
once, and a key that is not equal to itself (it holds a NaN) is equal to no
key of the map. When the lookup fails `MapIndex` returns the zero
`reflect.Value`. -/
def mapIndexFinds (key : Value) : Bool := equalsItself key

/-! ## Library routines -/

/-- The text `s` written `n` times. -/
def repeatString (s : String) : Nat → String
  | 0 => ""
  | n + 1 => s ++ repeatString s n

/-- The function `strings.Repeat`: panics (`none`) on a negative count. -/
def stringsRepeat (s : String) (count : Int) : Option String :=
  if count < 0 then none else some (repeatString s count.toNat)

/-- Decimal text of an integer, as printed by `%v` and `%d`. -/
def fmtInt (n : Int) : String := toString n

/-- Text of a boolean as printed by `%v`. -/
def fmtBool (b : Bool) : String := if b then "true" else "false"

def hexDigit (n : Nat) : Char := "0123456789abcdef".get ⟨n % 16⟩

/-- Lower-case hexadecimal text of `n`, left-padded with zeros to `width`
digits. -/
def hexPad : Nat → Nat → List Char
  | 0, _ => []
  | width + 1, n => hexPad width (n / 16) ++ [hexDigit n]

/-- One rune of `strconv.Quote` (`appendEscapedRune` with the double quote).
`strconv.IsPrint` is decided here up to U+00FF, as the library does without
its tables; `isPrint` stands for it on the runes from U+0100 on, where the
library looks the rune up in its Unicode tables. -/
def quoteRune (isPrint : Char → Bool) (c : Char) : List Char :=
  if c = '"' ∨ c = '\\' then ['\\', c]
  else if 0x20 ≤ c.toNat ∧ c.toNat ≤ 0x7e then [c]
  else if 0xa1 ≤ c.toNat ∧ c.toNat ≤ 0xff ∧ c.toNat ≠ 0xad then [c]
  else if 0x100 ≤ c.toNat ∧ isPrint c then [c]
  else if c.toNat = 7 then ['\\', 'a']
  else if c.toNat = 8 then ['\\', 'b']
  else if c.toNat = 12 then ['\\', 'f']
  else if c = '\n' then ['\\', 'n']
  else if c = '\r' then ['\\', 'r']
  else if c = '\t' then ['\\', 't']
  else if c.toNat = 11 then ['\\', 'v']
  else if c.toNat < 0x20 ∨ c.toNat = 0x7f then '\\' :: 'x' :: hexPad 2 c.toNat
  else if c.toNat < 0x10000 then '\\' :: 'u' :: hexPad 4 c.toNat
  else '\\' :: 'U' :: hexPad 8 c.toNat

/-- The verb `%q` on a string, i.e. `strconv.Quote`. -/
def fmtQuote (isPrint : Char → Bool) (s : String) : String :=
  ⟨'"' :: (s.data.flatMap (quoteRune isPrint) ++ ['"'])⟩

/-! ## Type names -/

/-- The function `typeName` of `pretty.go` on the finite unfolding of a type,
where its recursion comes to an end. `typeNameWithin` is the function on the
types as the run-time holds them, where it need not; the two agree on every
type that has a finite unfolding (`typeNameWithin_describes`). -/
def typeName : Ty → String
  | .array len elem => "[" ++ toString len ++ "]" ++ typeName elem
  | .map key elem => "map[" ++ typeName key ++ "]" ++ typeName elem
  | .ptr elem => "*" ++ typeName elem
  | .slice elem => "[]" ++ typeName elem
  | .struct name => if name = "" then "(anonymous struct)" else name
  | .interface => "interface\x7b\x7d"
  | t => kindString t.Kind

/-- The function `explicitType` of `pretty.go`. -/
def explicitType (t : Ty) : Bool :=
  match t.Kind with
  | .Array => true
  | .Map => true
  | .Slice => true
  | .Struct => true
  | .Interface => true
  | _ => false

/-- A `reflect.Type` as the run-time holds it, with the answers to the
methods `typeName` calls: `Kind()`, `Name()`, `Len()`, and `Key()` and
`Elem()`, which are types again and are given by their place in the table of
the types of the program. Through `Key` and `Elem` a type can reach itself
(`type T []T`, `type Tree map[string]Tree`), which a `Ty` cannot. -/
structure rtype where
  kind : Kind
  name : String
  len : Nat
  key : Nat
  elem : Nat

/-- The function `typeName` of `pretty.go` on the type at place `t` of the
table `types`, run with room for `depth` nested calls: `none` when the call
at depth `depth` would call `typeName` again. The function returns on `t`
when some depth is enough. -/
def typeNameWithin (types : Nat → rtype) : Nat → Nat → Option String
  | 0, _ => none
  | depth + 1, t =>
    match (types t).kind with
    | .Array =>
      match typeNameWithin types depth (types t).elem with
      | none => none
      | some e => some ("[" ++ toString (types t).len ++ "]" ++ e)
    | .Map =>
      match typeNameWithin types depth (types t).key with
      | none => none
      | some k =>
        match typeNameWithin types depth (types t).elem with
        | none => none
        | some e => some ("map[" ++ k ++ "]" ++ e)
    | .Ptr =>
      match typeNameWithin types depth (types t).elem with
      | none => none
      | some e => some ("*" ++ e)
    | .Slice =>
      match typeNameWithin types depth (types t).elem with
      | none => none
      | some e => some ("[]" ++ e)
    | .Struct => some (if (types t).name = "" then "(anonymous struct)" else (types t).name)
    | .Interface => some "interface\x7b\x7d"
    | k => some (kindString k)

/-- The type at place `n` of the table unfolds to the finite descriptor `t`:
it has the kind of `t` and, where `typeName` reads them, its length, name, key
type and element type. -/
def describes (types : Nat → rtype) : Nat → Ty → Prop
  | n, .basic k _ => (types n).kind = k.Kind
  | n, .array len e =>
    (types n).kind = .Array ∧ (types n).len = len ∧ describes types (types n).elem e
  | n, .chan _ => (types n).kind = .Chan
  | n, .func => (types n).kind = .Func
  | n, .interface => (types n).kind = .Interface
  | n, .map k e =>
    (types n).kind = .Map ∧ describes types (types n).key k ∧ describes types (types n).elem e
  | n, .ptr e => (types n).kind = .Ptr ∧ describes types (types n).elem e
  | n, .slice e => (types n).kind = .Slice ∧ describes types (types n).elem e
  | n, .struct name => (types n).kind = .Struct ∧ (types n).name = name

/-- The number of nested calls `typeName` makes on the descriptor. -/
def Ty.nesting : Ty → Nat
  | .array _ e => e.nesting + 1
  | .map k e => max k.nesting e.nesting + 1
  | .ptr e => e.nesting + 1
  | .slice e => e.nesting + 1
  | _ => 0

/-! ## Map entries and their order -/

/-- The struct `mapEntry` of `pretty.go`. -/
structure mapEntry where
  key : String
  keyType : String
  elem : String
  elemType : String
  deriving DecidableEq, Repr

/-- Go's `<` on strings: lexicographic on the bytes, which on well-formed
UTF-8 text is lexicographic on the code points. -/
def stringLess : List Char → List Char → Bool
  | [], [] => false
  | [], _ :: _ => true
  | _ :: _, [] => false
  | a :: as, b :: bs =>
    if a.toNat < b.toNat then true
    else if b.toNat < a.toNat then false
    else stringLess as bs

/-- The method `mapEntries.Less`, on the two entries themselves. -/
def mapEntries.Less (a b : mapEntry) : Bool := stringLess a.key.data b.key.data

/-- The inner loop of the library's `insertionSort`: the new element moves
left past every element it is `Less` than. `sorted` is the part already in
order, read from the right (nearest neighbour first). -/
def sortInsert (x : mapEntry) : List mapEntry → List mapEntry
  | [] => [x]
  | y :: left => if mapEntries.Less x y then y :: sortInsert x left else x :: y :: left

/-- The library's `insertionSort` (for i, for j > a and Less(j, j-1),
Swap(j, j-1)) on the whole slice. The part already in order is kept reversed
while the elements are taken from left to right. -/
def insertionSort (entries : List mapEntry) : List mapEntry :=
  (entries.foldl (fun done x => sortInsert x done) []).reverse

/-- What the package takes from the Go library and the source does not fix:

* `isPrint` is `strconv.IsPrint` on the runes from U+0100 on, which the
  library decides from its Unicode tables;
* `sortLong` is `sort.Sort` on a slice of more than six elements. Every
  release of the library sorts a slice of up to six elements by
  `insertionSort` alone; above that the routine has changed between releases
  (a pass with gap 6 before `insertionSort`, quicksort, pattern-defeating
  quicksort), and the library documents only that the result is in ascending
  order and that the sort is not guaranteed to be stable. -/
structure Library where
  isPrint : Char → Bool
  sortLong : List mapEntry → List mapEntry

/-- The call `sort.Sort(entries)`. -/
def sortSort (lib : Library) (entries : List mapEntry) : List mapEntry :=
  if entries.length ≤ 6 then insertionSort entries else lib.sortLong entries

/-- What the library documents of `sort.Sort`, for `sortLong`: the result is a
permutation of the slice (the routine only calls `Swap`), it is in ascending
order by `Less`, and it depends on the elements only through the outcomes of
`Less` (the routine sees the data only through `Len`, `Less` and `Swap`), so
that relabelling the elements without changing any comparison relabels the
result. -/
structure Library.Lawful (lib : Library) : Prop where
  perm : ∀ l : List mapEntry, (lib.sortLong l).Perm l
  sorted : ∀ l : List mapEntry,
    (lib.sortLong l).Pairwise (fun a b => mapEntries.Less b a = false)
  natural : ∀ (f : mapEntry → mapEntry) (l : List mapEntry),
    (∀ a ∈ l, ∀ b ∈ l, mapEntries.Less (f a) (f b) = mapEntries.Less a b) →
    lib.sortLong (l.map f) = (lib.sortLong l).map f

/-- A library for the evaluations: no rune from U+0100 on counts as printable
and long slices are sorted by `insertionSort` too, as the releases from 1.19
on do up to twelve elements. -/
def baseLibrary : Library := ⟨fun _ => false, insertionSort⟩

/-- The pass with gap 6 that the releases 1.6 to 1.18 of the library run on a
slice of up to twelve elements before `insertionSort`
(for i := a + 6; i < b; i++: if Less(i, i-6) then Swap(i, i-6)).
`front` holds the elements 0 to 5 and `back` those from 6 on; on such a slice
no index is touched twice, so the pairs are treated side by side. -/
def gapPass : List mapEntry → List mapEntry → List mapEntry × List mapEntry
  | a :: front, b :: back =>
    if mapEntries.Less b a then ((gapPass front back).1.cons b, (gapPass front back).2.cons a)
    else ((gapPass front back).1.cons a, (gapPass front back).2.cons b)
  | front, [] => (front, [])
  | [], back => ([], back)

/-- The routine `sort.Sort` of the releases 1.6 to 1.18 on a slice of seven to
twelve elements: the pass with gap 6, then `insertionSort`. On a longer slice,
where those releases run a quicksort, this definition runs `insertionSort`. -/
def gapSort (entries : List mapEntry) : List mapEntry :=
  if entries.length ≤ 12 then
    insertionSort ((gapPass (entries.take 6) (entries.drop 6)).1 ++
      (gapPass (entries.take 6) (entries.drop 6)).2)
  else insertionSort entries

/-- The library of the releases 1.6 to 1.18, as far as slices of up to twelve
elements go. -/
def releaseLibrary : Library := ⟨fun _ => false, gapSort⟩

/-! ## The formatter -/

/-- The constant `paddingIncrement`. -/
def paddingIncrement : Int := 2

def formatInvalid (_value : Value) (_padding : Int) : Result :=
  .ret "" (some .ErrInvalidType)

/-- The function `formatBool`: the type assertion `value.(bool)` panics unless
the dynamic type is the predeclared `bool`. -/
def formatBool (value : Value) (_padding : Int) : Result :=
  match value with
  | .bool false b => .ret (fmtBool b) none
  | _ => .panic .typeAssertion

/-- The functions `formatInt`, `formatInt8`, ... `formatUint64`, which differ
only in the type `T` of the assertion `value.(T)`; `k` is that type. -/
def formatInteger (k : IntKind) (value : Value) (_padding : Int) : Result :=
  match value with
  | .int k1 false n => if k1 = k then .ret (fmtInt n) none else .panic .typeAssertion
  | _ => .panic .typeAssertion

def formatUintptr (_value : Value) (_padding : Int) : Result :=
  .ret "" (some .ErrArbitraryPointerType)

/-- The functions `formatFloat32`, `formatFloat64`, `formatComplex64` and
`formatComplex128`, with `k` the asserted type. -/
def formatFloat (k : FloatKind) (value : Value) (_padding : Int) : Result :=
  match value with
  | .float k1 false text => if k1 = k then .ret text none else .panic .typeAssertion
  | _ => .panic .typeAssertion

def formatChan (_value : Value) (_padding : Int) : Result :=
  .ret "" (some .ErrChanType)

def formatFunc (_value : Value) (_padding : Int) : Result :=
  .ret "" (some .ErrFunctionType)

def formatInterface (_value : Value) (_padding : Int) : Result :=
  .ret "" (some .ErrInterfaceType)

def formatString (lib : Library) (value : Value) (_padding : Int) : Result :=
  match value with
  | .string false s => .ret (fmtQuote lib.isPrint s) none
  | _ => .panic .typeAssertion

def formatUnsafePointer (_value : Value) (_padding : Int) : Result :=
  .ret "" (some .ErrArbitraryPointerType)

/-- The test made at each child position,
`declared.Kind() == reflect.Interface && !explicitType(reflect.TypeOf(child))`,
with the text it selects: `"(" + typeName(reflect.TypeOf(child)) + ")"` when
the test holds, nothing otherwise. `none` is the panic of calling `Kind()` on
the nil type of an absent child (the right operand is only evaluated when the
left one holds). -/
def annotate (declared : Ty) (child : Value) : Option String :=
  if declared.Kind = .Interface then
    match TypeOf child with
    | none => none
    | some t => if !explicitType t then some ("(" ++ typeName t ++ ")") else some ""
  else some ""

/-- The second loop of `formatMap`, writing one line per sorted entry. -/
def mapEmit (padding : Int) : List mapEntry → String → Option String
  | [], buffer => some buffer
  | entry :: rest, buffer =>
    match stringsRepeat " " padding with
    | none => none
    | some sp =>
      mapEmit padding rest
        (buffer ++ (sp ++ entry.keyType ++ entry.key ++ ": " ++ entry.elemType ++ entry.elem ++ ",\n"))

mutual

/-- The function `formatPadded`. The switch on `reflect.TypeOf(value).Kind()`
is the match on the shape of the value; the bodies of `formatArray`,
`formatMap`, `formatPtr`, `formatSlice` and `formatStruct` stand in their
cases, their loops being `arrayLoop`, `mapLoop`, `sliceLoop`, `structLoop`.
The cases `Invalid`, `Interface` and `default` of the switch are selected by no
value, since `reflect.TypeOf` yields neither kind. -/
def formatPadded (lib : Library) : Value → Int → Result
  | .absent, _ => .panic .nilType
  | .bool d b, padding => formatBool (.bool d b) padding
  | .int k d n, padding => formatInteger k (.int k d n) padding
  | .uintptr d n, padding => formatUintptr (.uintptr d n) padding
  | .float k d t, padding => formatFloat k (.float k d t) padding
  | .string d s, padding => formatString lib (.string d s) padding
  | .unsafePointer d a, padding => formatUnsafePointer (.unsafePointer d a) padding
  | .chan e, padding => formatChan (.chan e) padding
  | .func, padding => formatFunc .func padding
  | .array elemType elems, padding =>
    match arrayLoop lib elemType padding elems
        ("[" ++ toString elems.length ++ "]" ++ typeName elemType ++ "\x7b" ++ "\n") with
    | .panic cause => .panic cause
    | .exit text err => .ret text err
    | .next buffer =>
      match stringsRepeat " " (padding - paddingIncrement) with
      | none => .panic .negativeRepeat
      | some sp => .ret (buffer ++ sp ++ "\x7d") none
  | .map keyType elemType none, _ =>
    .ret (typeName (.map keyType elemType) ++ "\x7b" ++ "\x7d") none
  | .map keyType elemType (some []), _ =>
    .ret (typeName (.map keyType elemType) ++ "\x7b" ++ "\x7d") none
  | .map keyType elemType (some (kv :: kvs)), padding =>
    match mapLoop lib keyType elemType padding (kv :: kvs) [] with
    | .panic cause => .panic cause
    | .exit text err => .ret text err
    | .next entries =>
      match mapEmit padding (sortSort lib entries)
          (typeName (.map keyType elemType) ++ "\x7b" ++ "\n") with
      | none => .panic .negativeRepeat
      | some buffer =>
        match stringsRepeat " " (padding - paddingIncrement) with
        | none => .panic .negativeRepeat
        | some sp => .ret (buffer ++ sp ++ "\x7d") none
  | .ptr _ none, _ => .ret "nil" none
  | .ptr _ (some pointee), padding =>
    match formatPadded lib pointee padding with
    | .panic cause => .panic cause
    | .ret _ (some _) => .ret "" none
    | .ret formattedElem none => .ret ("&" ++ formattedElem) none
  | .slice elemType none, _ => .ret ("[]" ++ typeName elemType ++ "\x7b" ++ "\x7d") none
  | .slice elemType (some []), _ => .ret ("[]" ++ typeName elemType ++ "\x7b" ++ "\x7d") none
  | .slice elemType (some (e :: es)), padding =>
    match sliceLoop lib elemType padding (e :: es)
        ("[]" ++ typeName elemType ++ "\x7b" ++ "\n") with
    | .panic cause => .panic cause
    | .exit text err => .ret text err
    | .next buffer =>
      match stringsRepeat " " (padding - paddingIncrement) with
      | none => .panic .negativeRepeat
      | some sp => .ret (buffer ++ sp ++ "\x7d") none
  | .struct name fields, padding =>
    match structLoop lib padding fields (typeName (.struct name) ++ "\x7b", false) with
    | .panic cause => .panic cause
    | .exit text err => .ret text err
    | .next (buffer, hasExportedFields) =>
      if hasExportedFields then
        match stringsRepeat " " (padding - paddingIncrement) with
        | none => .panic .negativeRepeat
        | some sp => .ret (buffer ++ sp ++ "\x7d") none
      else .ret (buffer ++ "\x7d") none

/-- The loop of `formatArray` over the elements from index `i` on, `buffer`
being what has been written so far. -/
def arrayLoop (lib : Library) (elemType : Ty) (padding : Int) :
    List Value → String → Loop String
  | [], buffer => .next buffer
  | elem :: rest, buffer =>
    match formatPadded lib elem (padding + paddingIncrement) with
    | .panic cause => .panic cause
    | .ret _ (some err) => .exit "" (some err)
    | .ret formattedValue none =>
      match stringsRepeat " " padding with
      | none => .panic .negativeRepeat
      | some sp =>
        match annotate elemType elem with
        | none => .panic .nilType
        | some ann =>
          arrayLoop lib elemType padding rest
            (buffer ++ sp ++ (ann ++ formattedValue ++ ",\n"))

/-- The loop of `formatSlice`. -/
def sliceLoop (lib : Library) (elemType : Ty) (padding : Int) :
    List Value → String → Loop String
  | [], buffer => .next buffer
  | elem :: rest, buffer =>
    match formatPadded lib elem (padding + paddingIncrement) with
    | .panic cause => .panic cause
    | .ret _ (some err) => .exit "" (some err)
    | .ret formattedValue none =>
      match stringsRepeat " " padding with
      | none => .panic .negativeRepeat
      | some sp =>
        match annotate elemType elem with
        | none => .panic .nilType
        | some ann =>
          sliceLoop lib elemType padding rest
            (buffer ++ sp ++ (ann ++ formattedValue ++ ",\n"))

/-- The first loop of `formatMap`, over the keys in the order of `MapKeys()`;
`entries` holds the entries filled in so far. Each key comes with the element
the map holds for it; `elem := v.MapIndex(key)` followed by
`elem.Interface()` yields that element when the lookup finds the key and
panics on the zero `reflect.Value` when it does not (`mapIndexFinds`). -/
def mapLoop (lib : Library) (keyType elemType : Ty) (padding : Int) :
    List (Value × Value) → List mapEntry → Loop (List mapEntry)
  | [], entries => .next entries
  | (key, elem) :: rest, entries =>
    match formatPadded lib key (padding + paddingIncrement) with
    | .panic cause => .panic cause
    | .ret _ (some err) => .exit "" (some err)
    | .ret formattedKey none =>
      match annotate keyType key with
      | none => .panic .nilType
      | some keyAnn =>
        match mapIndexFinds key with
        | false => .panic .zeroValue
        | true =>
          match formatPadded lib elem (padding + paddingIncrement) with
          | .panic cause => .panic cause
          | .ret _ (some err) => .exit "" (some err)
          | .ret formattedElem none =>
            match annotate elemType elem with
            | none => .panic .nilType
            | some elemAnn =>
              mapLoop lib keyType elemType padding rest
                (entries ++ [⟨formattedKey, keyAnn, formattedElem, elemAnn⟩])

/-- The loop of `formatStruct` over the fields in declaration order; the
state is the buffer and `hasExportedFields`. -/
def structLoop (lib : Library) (padding : Int) :
    List (StructField × Value) → String × Bool → Loop (String × Bool)
  | [], state => .next state
  | (field, fieldValue) :: rest, (buffer, hasExportedFields) =>
    if field.PkgPath ≠ "" then
      structLoop lib padding rest (buffer, hasExportedFields)
    else
      match stringsRepeat " " padding with
      | none => .panic .negativeRepeat
      | some sp =>
        match formatPadded lib fieldValue (padding + paddingIncrement) with
        | .panic cause => .panic cause
        | .ret _ (some err) => .exit "" (some err)
        | .ret formattedValue none =>
          match annotate field.Typ fieldValue with
          | none => .panic .nilType
          | some ann =>
            structLoop lib padding rest
              ((if hasExportedFields then buffer else buffer ++ "\n") ++ sp ++
                (field.Name ++ ": " ++ ann ++ formattedValue ++ ",\n"), true)

end

/-- The function `Format`. -/
def Format (lib : Library) (value : Value) : Result :=
  formatPadded lib value paddingIncrement

/-! ## Vocabulary of the statements -/

/-- Indentation of `n` spaces (none when `n` is not positive). -/
def spaces (n : Int) : String := repeatString " " n.toNat

/-- Concatenation of the lines of a body, in order. -/
def joinLines : List String → String
  | [] => ""
  | l :: ls => l ++ joinLines ls

/-- The text a call returned; empty for a panic. -/
def Result.text : Result → String
  | .ret s _ => s
  | .panic _ => ""

/-- The value renders: the call returns a text and the nil error. -/
def Renders (lib : Library) (v : Value) (padding : Int) : Prop :=
  ∃ s, formatPadded lib v padding = .ret s none

/-- The annotation of a child position as the documentation words it:
`(T)` with `T` the name of the concrete type of the child, when the declared
type of the position is an interface and the kind of the concrete type is none
of array, slice, map, struct; nothing otherwise. -/
def typeLabel (declared : Ty) (child : Value) : String :=
  match TypeOf child with
  | none => ""
  | some t =>
    if declared.Kind = .Interface ∧
        t.Kind ≠ .Array ∧ t.Kind ≠ .Slice ∧ t.Kind ≠ .Map ∧ t.Kind ≠ .Struct
    then "(" ++ typeName t ++ ")" else ""

/-- The line of one element of an array or slice written at `padding`. -/
def elemLine (lib : Library) (elemType : Ty) (padding : Int) (elem : Value) : String :=
  spaces padding ++ typeLabel elemType elem ++
    (formatPadded lib elem (padding + 2)).text ++ ",\n"

/-- The entry `formatMap` records for the pair `kv` of a map with key type
`keyType` and element type `elemType` written at `padding`. -/
def entryOf (lib : Library) (keyType elemType : Ty) (padding : Int)
    (kv : Value × Value) : mapEntry :=
  ⟨(formatPadded lib kv.1 (padding + 2)).text, typeLabel keyType kv.1,
   (formatPadded lib kv.2 (padding + 2)).text, typeLabel elemType kv.2⟩

/-- The line of one map entry written at `padding`: the indentation, the key
annotation, the rendered key, a colon and a blank, the element annotation, the
rendered element, a comma and a newline. -/
def entryLine (lib : Library) (keyType elemType : Ty) (padding : Int)
    (kv : Value × Value) : String :=
  spaces padding ++ typeLabel keyType kv.1 ++ (formatPadded lib kv.1 (padding + 2)).text ++
    ": " ++ typeLabel elemType kv.2 ++ (formatPadded lib kv.2 (padding + 2)).text ++ ",\n"

/-- The rendered key text of `a` is at most that of `b`, in Go's order of
strings. -/
def keyLE (lib : Library) (padding : Int) (a b : Value × Value) : Prop :=
  stringLess (formatPadded lib b.1 (padding + 2)).text.data
    (formatPadded lib a.1 (padding + 2)).text.data = false

/-- The line `formatMap` writes for a sorted entry at `padding`. -/
def emittedLine (padding : Int) (entry : mapEntry) : String :=
  spaces padding ++ entry.keyType ++ entry.key ++ ": " ++ entry.elemType ++ entry.elem ++ ",\n"

/-- The field is exported: its `PkgPath` is empty. -/
def exported (fv : StructField × Value) : Bool := decide (fv.1.PkgPath = "")

/-- The line of one exported struct field written at `padding`. -/
def fieldLine (lib : Library) (padding : Int) (fv : StructField × Value) : String :=
  spaces padding ++ fv.1.Name ++ ": " ++ typeLabel fv.1.Typ fv.2 ++
    (formatPadded lib fv.2 (padding + 2)).text ++ ",\n"

/-- The nesting depth after reading the text from depth `d`; `none` when a
closing brace comes at depth 0. -/
def braceScan : List Char → Nat → Option Nat
  | [], d => some d
  | c :: cs, d =>
    if c = '{' then braceScan cs (d + 1)
    else if c = '}' then
      match d with
      | 0 => none
      | d + 1 => braceScan cs d
    else braceScan cs d

/-- The text has no newline. -/
def lineText (s : String) : Bool := s.data.all (fun c => c != '\n')

/-- The braces of the text pair up among themselves: read from depth 0 the
text closes no brace that is not open and ends at depth 0. -/
def pairedText (s : String) : Bool := braceScan s.data 0 == some 0

/-- The struct names in a type descriptor all satisfy `ok`. -/
def cleanTy (ok : String → Bool) : Ty → Bool
  | .array _ e => cleanTy ok e
  | .map k e => cleanTy ok k && cleanTy ok e
  | .ptr e => cleanTy ok e
  | .slice e => cleanTy ok e
  | .struct name => ok name
  | _ => true

mutual

/-- The property `P` holds of the value and of every value `formatPadded`
can reach from it: elements, keys, pointee and the values of exported
fields. -/
def allRendered (P : Value → Bool) : Value → Bool
  | .array t elems => P (.array t elems) && allValues P elems
  | .slice t (some elems) => P (.slice t (some elems)) && allValues P elems
  | .map k t (some kvs) => P (.map k t (some kvs)) && allPairs P kvs
  | .ptr t (some w) => P (.ptr t (some w)) && allRendered P w
  | .struct name fields => P (.struct name fields) && allFields P fields
  | .absent => P .absent
  | .bool d b => P (.bool d b)
  | .int k d n => P (.int k d n)
  | .uintptr d n => P (.uintptr d n)
  | .float k d x => P (.float k d x)
  | .string d x => P (.string d x)
  | .unsafePointer d a => P (.unsafePointer d a)
  | .chan t => P (.chan t)
  | .func => P .func
  | .slice t none => P (.slice t none)
  | .map k t none => P (.map k t none)
  | .ptr t none => P (.ptr t none)

def allValues (P : Value → Bool) : List Value → Bool
  | [] => true
  | v :: vs => allRendered P v && allValues P vs

def allPairs (P : Value → Bool) : List (Value × Value) → Bool
  | [] => true
  | (k, e) :: rest => allRendered P k && allRendered P e && allPairs P rest

def allFields (P : Value → Bool) : List (StructField × Value) → Bool
  | [] => true
  | (f, v) :: rest => (f.PkgPath != "" || allRendered P v) && allFields P rest

end

/-- The texts the embedding leaves open, at one value, all satisfy `ok`: the
text of a floating-point or complex number, the names of the struct types
and the names of the exported fields. -/
def namesNode (ok : String → Bool) : Value → Bool
  | .float _ _ text => ok text
  | .array t _ => cleanTy ok t
  | .slice t _ => cleanTy ok t
  | .map k t _ => cleanTy ok k && cleanTy ok t
  | .ptr t _ => cleanTy ok t
  | .struct name fields =>
    ok name && fields.all (fun fv => fv.1.PkgPath != "" || ok fv.1.Name)
  | _ => true

/-- The names and number texts of the value and of every value rendered with
it satisfy `ok` (see `namesNode`). -/
def Names (ok : String → Bool) (v : Value) : Bool := allRendered (namesNode ok) v

/-- No name and no number text that is rendered holds a newline. This is so
of every Go value: an identifier, the name of a type and the text `%v` prints
for a number are written on one line. -/
def SingleLine (v : Value) : Bool := Names lineText v

/-- The value is not a string whose braces fail to pair up. -/
def pairedNode : Value → Bool
  | .string _ s => pairedText s
  | _ => true

/-- In every string that is rendered the braces pair up among themselves. -/
def PairedStrings (v : Value) : Bool := allRendered pairedNode v

/-- In every text written from the value as it stands (a string, the text of
a number, the name of a struct type or of an exported field) the braces pair
up among themselves; in particular when none of them holds a brace. -/
def Paired (v : Value) : Bool := Names pairedText v && PairedStrings v

/-- The text is a closed fragment: it has as many closing braces as opening
ones and no beginning of it has more closing braces than opening ones. -/
def Closed (s : String) : Prop :=
  s.data.count '{' = s.data.count '}' ∧
    ∀ n : Nat, (s.data.take n).count '}' ≤ (s.data.take n).count '{'

/-- The braces of the text pair up among themselves: read from any depth,
the text ends at that depth. -/
def Balanced (l : List Char) : Prop := ∀ d : Nat, braceScan l d = some d

/-- The text is balanced but for one brace left open. -/
def Opened (l : List Char) : Prop := ∀ d : Nat, braceScan l d = some (d + 1)

/-- The characters are neither braces nor newlines. -/
def Plain (l : List Char) : Prop := ∀ c ∈ l, c ≠ '{' ∧ c ≠ '}' ∧ c ≠ '\n'

/-- The characters are not newlines. -/
def NoNewline (l : List Char) : Prop := ∀ c ∈ l, c ≠ '\n'

/-- The characters are not braces. -/
def NoBrace (l : List Char) : Prop := ∀ c ∈ l, c ≠ '{' ∧ c ≠ '}'

/-- The text with two spaces put in after every newline. -/
def indentMore : List Char → List Char
  | [] => []
  | c :: cs => if c = '\n' then '\n' :: ' ' :: ' ' :: indentMore cs else c :: indentMore cs

/-- The text with two spaces put in after every newline, as a string. -/
def indentText (s : String) : String := ⟨indentMore s.data⟩

/-- The result with its text indented by two more spaces; an error and a
panic are left as they are. -/
def Result.indent : Result → Result
  | .ret s err => .ret (indentText s) err
  | .panic cause => .panic cause

/-- The entry with its rendered key and element indented by two more
spaces. -/
def indentEntry (e : mapEntry) : mapEntry :=
  ⟨indentText e.key, e.keyType, indentText e.elem, e.elemType⟩

/-- Two runs of a loop end the same way (both to the end, both returning the
same text and error, or both with the same panic), with final states related
by `r` when they run to the end. -/
def Loop.Rel {α β : Type} (r : α → β → Prop) : Loop α → Loop β → Prop
  | .next a, .next b => r a b
  | .exit text err, .exit text2 err2 => text = text2 ∧ err = err2
  | .panic cause, .panic cause2 => cause = cause2
  | _, _ => False

/-- The call sites of `formatPadded` in `pretty.go`:
`Calls v p level w q` says that the call `formatPadded(v, p)` can make the
call `formatPadded(w, q)` in the body of the function selected for `v`;
`level` is 1 when `v` is an array, slice, map or struct (the callee gets
`padding+paddingIncrement`) and 0 when it is a pointer (the callee gets
`padding`). -/
inductive Calls : Value → Int → Nat → Value → Int → Prop
  | arrayElem (t : Ty) (elems : List Value) (p : Int) (e : Value) :
      e ∈ elems → Calls (.array t elems) p 1 e (p + paddingIncrement)
  | sliceElem (t : Ty) (elems : List Value) (p : Int) (e : Value) :
      e ∈ elems → Calls (.slice t (some elems)) p 1 e (p + paddingIncrement)
  | mapKey (k t : Ty) (kvs : List (Value × Value)) (p : Int) (kv : Value × Value) :
      kv ∈ kvs → Calls (.map k t (some kvs)) p 1 kv.1 (p + paddingIncrement)
  | mapElem (k t : Ty) (kvs : List (Value × Value)) (p : Int) (kv : Value × Value) :
      kv ∈ kvs → Calls (.map k t (some kvs)) p 1 kv.2 (p + paddingIncrement)
  | pointee (t : Ty) (w : Value) (p : Int) : Calls (.ptr t (some w)) p 0 w p
  | field (name : String) (fields : List (StructField × Value)) (p : Int)
      (fv : StructField × Value) :
      fv ∈ fields → fv.1.PkgPath = "" → Calls (.struct name fields) p 1 fv.2 (p + paddingIncrement)

/-- The calls of `formatPadded` under `Format(root)`: `Nested root levels w q`
says that `formatPadded(w, q)` is the call made by `Format` itself or is
reached from it through call sites, `levels` of them in an array, slice, map
or struct. -/
inductive Nested (root : Value) : Nat → Value → Int → Prop
  | top : Nested root 0 root paddingIncrement
  | call (levels : Nat) (v : Value) (p : Int) (level : Nat) (w : Value) (q : Int) :
      Nested root levels v p → Calls v p level w q → Nested root (levels + level) w q

/-! ## Vocabulary: one value in two calls -/

/-- How one round of the first loop of `formatMap` ends for the pair `kv`:
with the entry it records, or with the return or the panic that ends the
loop. -/
def mapRound (lib : Library) (keyType elemType : Ty) (padding : Int)
    (kv : Value × Value) : Loop mapEntry :=
  match formatPadded lib kv.1 (padding + paddingIncrement) with
  | .panic cause => .panic cause
  | .ret _ (some err) => .exit "" (some err)
  | .ret formattedKey none =>
    match annotate keyType kv.1 with
    | none => .panic .nilType
    | some keyAnn =>
      match mapIndexFinds kv.1 with
      | false => .panic .zeroValue
      | true =>
        match formatPadded lib kv.2 (padding + paddingIncrement) with
        | .panic cause => .panic cause
        | .ret _ (some err) => .exit "" (some err)
        | .ret formattedElem none =>
          match annotate elemType kv.2 with
          | none => .panic .nilType
          | some elemAnn => .next ⟨formattedKey, keyAnn, formattedElem, elemAnn⟩

/-- The loop over rounds that have ended as listed: the entries recorded up
to the first round that returns or panics. -/
def collect : List (Loop mapEntry) → List mapEntry → Loop (List mapEntry)
  | [], entries => .next entries
  | .next e :: rest, entries => collect rest (entries ++ [e])
  | .exit text err :: _, _ => .exit text err
  | .panic cause :: _, _ => .panic cause

/-- Two rounds whose order does not show in the result: when both end the
loop they end it the same way, and when both record an entry under the same
key text they record the same entry. -/
def roundsAgree : Loop mapEntry → Loop mapEntry → Bool
  | .next a, .next b => a.key != b.key || a == b
  | .next _, .exit _ _ => true
  | .next _, .panic _ => true
  | .exit _ _, .next _ => true
  | .panic _, .next _ => true
  | .exit text err, .exit text2 err2 => text == text2 && err == err2
  | .panic cause, .panic cause2 => cause == cause2
  | .exit _ _, .panic _ => false
  | .panic _, .exit _ _ => false

/-- Any two of the rounds agree. -/
def allAgree : List (Loop mapEntry) → Bool
  | [] => true
  | r :: rest => rest.all (roundsAgree r) && allAgree rest

mutual

/-- The result of `formatPadded(v, padding)` is fixed by the value alone: at
every map in a rendered position of the value (the value itself, an element,
a key, a pointee, the value of an exported field, at any depth) any two
entries agree (`roundsAgree`) at the padding the map is rendered at. -/
def determinate (lib : Library) : Value → Int → Bool
  | .array _ elems, p => determinateElems lib (p + paddingIncrement) elems
  | .slice _ (some elems), p => determinateElems lib (p + paddingIncrement) elems
  | .map k t (some kvs), p =>
    determinatePairs lib (p + paddingIncrement) kvs && allAgree (kvs.map (mapRound lib k t p))
  | .ptr _ (some w), p => determinate lib w p
  | .struct _ fields, p => determinateFields lib (p + paddingIncrement) fields
  | .absent, _ => true
  | .bool _ _, _ => true
  | .int _ _ _, _ => true
  | .uintptr _ _, _ => true
  | .float _ _ _, _ => true
  | .string _ _, _ => true
  | .unsafePointer _ _, _ => true
  | .chan _, _ => true
  | .func, _ => true
  | .slice _ none, _ => true
  | .map _ _ none, _ => true
  | .ptr _ none, _ => true

def determinateElems (lib : Library) (q : Int) : List Value → Bool
  | [] => true
  | v :: vs => determinate lib v q && determinateElems lib q vs

def determinatePairs (lib : Library) (q : Int) : List (Value × Value) → Bool
  | [] => true
  | (k, e) :: rest => determinate lib k q && determinate lib e q && determinatePairs lib q rest

def determinateFields (lib : Library) (q : Int) : List (StructField × Value) → Bool
  | [] => true
  | (f, v) :: rest => (f.PkgPath != "" || determinate lib v q) && determinateFields lib q rest

end

mutual

/-- The two values are one Go value seen in two calls: they differ at most in
the order in which the entries of the maps in them, at any depth, are
enumerated by `MapKeys()`. -/
inductive Reordered : Value → Value → Prop
  | same (v : Value) : Reordered v v
  | array (t : Ty) (elems elems2 : List Value) :
      ReorderedElems elems elems2 → Reordered (.array t elems) (.array t elems2)
  | slice (t : Ty) (elems elems2 : List Value) :
      ReorderedElems elems elems2 → Reordered (.slice t (some elems)) (.slice t (some elems2))
  | map (k t : Ty) (kvs shuffled kvs2 : List (Value × Value)) :
      kvs.Perm shuffled → ReorderedPairs shuffled kvs2 →
      Reordered (.map k t (some kvs)) (.map k t (some kvs2))
  | ptr (t : Ty) (w w2 : Value) : Reordered w w2 → Reordered (.ptr t (some w)) (.ptr t (some w2))
  | struct (name : String) (fields fields2 : List (StructField × Value)) :
      ReorderedFields fields fields2 → Reordered (.struct name fields) (.struct name fields2)

/-- Elements related one by one. -/
inductive ReorderedElems : List Value → List Value → Prop
  | nil : ReorderedElems [] []
  | cons (v v2 : Value) (vs vs2 : List Value) :
      Reordered v v2 → ReorderedElems vs vs2 → ReorderedElems (v :: vs) (v2 :: vs2)

/-- Entries related one by one, key with key and element with element. -/
inductive ReorderedPairs : List (Value × Value) → List (Value × Value) → Prop
  | nil : ReorderedPairs [] []
  | cons (kv kv2 : Value × Value) (rest rest2 : List (Value × Value)) :
      Reordered kv.1 kv2.1 → Reordered kv.2 kv2.2 → ReorderedPairs rest rest2 →
      ReorderedPairs (kv :: rest) (kv2 :: rest2)

/-- Fields related one by one: the same field, with related values. -/
inductive ReorderedFields :
    List (StructField × Value) → List (StructField × Value) → Prop
  | nil : ReorderedFields [] []
  | cons (f : StructField) (v v2 : Value) (rest rest2 : List (StructField × Value)) :
      Reordered v v2 → ReorderedFields rest rest2 →
      ReorderedFields ((f, v) :: rest) ((f, v2) :: rest2)

end

/-- The ends of two runs of the loop coincide up to the order of the entries
recorded. -/
def sameEnd : Loop (List mapEntry) → Loop (List mapEntry) → Prop :=
  Loop.Rel (fun a b => a.Perm b)

/-- What `formatMap` does after its first loop has ended as `run`. -/
def mapFinish (lib : Library) (keyType elemType : Ty) (padding : Int) :
    Loop (List mapEntry) → Result
  | .panic cause => .panic cause
  | .exit text err => .ret text err
  | .next entries =>
    match mapEmit padding (sortSort lib entries)
        (typeName (.map keyType elemType) ++ "\x7b" ++ "\n") with
    | none => .panic .negativeRepeat
    | some buffer =>
      match stringsRepeat " " (padding - paddingIncrement) with
      | none => .panic .negativeRepeat
      | some sp => .ret (buffer ++ sp ++ "\x7d") none

/-! ## Basic facts -/

theorem stringsRepeat_spaces {n : Int} (h : 0 ≤ n) : stringsRepeat " " n = some (spaces n) := by
  unfold stringsRepeat spaces
  rw [if_neg (not_lt.mpr h)]

theorem typeOf_kind_ne_interface {v : Value} {t : Ty} (h : TypeOf v = some t) :
    t.Kind ≠ .Interface := by
  cases v <;> simp [TypeOf] at h <;> subst h <;> simp [Ty.Kind]
  all_goals first
    | (rename_i k _ _; cases k <;> simp [Basic.Kind, IntKind.Kind, FloatKind.Kind])
    | simp [Basic.Kind]

theorem typeOf_of_ret {lib : Library} {v : Value} {p : Int} {s : String}
    {e : Option Error} (h : formatPadded lib v p = .ret s e) : ∃ t, TypeOf v = some t := by
  cases v <;> simp [TypeOf]
  simp [formatPadded] at h

theorem annotate_eq {declared : Ty} {child : Value} {t : Ty} (h : TypeOf child = some t) :
    annotate declared child = some (typeLabel declared child) := by
  have hi := typeOf_kind_ne_interface h
  unfold annotate typeLabel
  rw [h]
  by_cases hd : declared.Kind = .Interface
  · simp only [hd, if_true, true_and]
    cases hk : t.Kind <;> simp [explicitType, hk]
    exact absurd hk hi
  · simp [hd]

theorem annotate_of_ret {lib : Library} {v : Value} {p : Int} {s : String}
    {e : Option Error} (declared : Ty) (h : formatPadded lib v p = .ret s e) :
    annotate declared v = some (typeLabel declared v) := by
  obtain ⟨t, ht⟩ := typeOf_of_ret h
  exact annotate_eq ht

theorem joinLines_append (xs ys : List String) :
    joinLines (xs ++ ys) = joinLines xs ++ joinLines ys := by
  induction xs with
  | nil => simp [joinLines]
  | cons x xs ih => simp [joinLines, ih, String.append_assoc]

theorem sliceLoop_renders (lib : Library) (elemType : Ty) {p : Int} (hp : 0 ≤ p) :
    ∀ (elems : List Value) (buffer : String),
      (∀ e ∈ elems, Renders lib e (p + 2)) →
      sliceLoop lib elemType p elems buffer =
        .next (buffer ++ joinLines (elems.map (elemLine lib elemType p))) := by
  intro elems
  induction elems with
  | nil => intro buffer _; simp [sliceLoop, joinLines]
  | cons e es ih =>
    intro buffer h
    obtain ⟨s, hs⟩ := h e (List.mem_cons_self _ _)
    have hs2 : formatPadded lib e (p + paddingIncrement) = .ret s none := hs
    rw [sliceLoop, hs2]
    simp only [stringsRepeat_spaces hp, annotate_of_ret elemType hs]
    rw [ih _ (fun x hx => h x (List.mem_cons_of_mem _ hx))]
    simp [joinLines, elemLine, hs, Result.text, String.append_assoc]

theorem arrayLoop_renders (lib : Library) (elemType : Ty) {p : Int} (hp : 0 ≤ p) :
    ∀ (elems : List Value) (buffer : String),
      (∀ e ∈ elems, Renders lib e (p + 2)) →
      arrayLoop lib elemType p elems buffer =
        .next (buffer ++ joinLines (elems.map (elemLine lib elemType p))) := by
  intro elems
  induction elems with
  | nil => intro buffer _; simp [arrayLoop, joinLines]
  | cons e es ih =>
    intro buffer h
    obtain ⟨s, hs⟩ := h e (List.mem_cons_self _ _)
    have hs2 : formatPadded lib e (p + paddingIncrement) = .ret s none := hs
    rw [arrayLoop, hs2]
    simp only [stringsRepeat_spaces hp, annotate_of_ret elemType hs]
    rw [ih _ (fun x hx => h x (List.mem_cons_of_mem _ hx))]
    simp [joinLines, elemLine, hs, Result.text, String.append_assoc]

/-! ## The order of strings and the sort -/

theorem stringLess_irrefl : ∀ a : List Char, stringLess a a = false
  | [] => rfl
  | a :: as => by simp [stringLess, stringLess_irrefl as]

theorem stringLess_asymm : ∀ a b : List Char, stringLess a b = true → stringLess b a = false
  | [], [], h => by simp [stringLess] at h
  | [], _ :: _, _ => rfl
  | _ :: _, [], h => by simp [stringLess] at h
  | a :: as, b :: bs, h => by
    unfold stringLess at h ⊢
    by_cases h1 : a.toNat < b.toNat
    · simp [Nat.lt_asymm h1, h1]
    · by_cases h2 : b.toNat < a.toNat
      · simp [h1, h2] at h
      · simp only [h1, h2, if_false] at h ⊢
        exact stringLess_asymm as bs h

theorem stringLess_trans : ∀ a b c : List Char,
    stringLess a b = true → stringLess b c = true → stringLess a c = true
  | [], _, [], _, h2 => by cases ‹List Char› <;> simp [stringLess] at h2
  | [], _, _ :: _, _, _ => rfl
  | _ :: _, [], _, h1, _ => by simp [stringLess] at h1
  | _ :: _, _ :: _, [], _, h2 => by simp [stringLess] at h2
  | a :: as, b :: bs, c :: cs, h1, h2 => by
    unfold stringLess at h1 h2 ⊢
    by_cases hab : a.toNat < b.toNat
    · by_cases hbc : b.toNat < c.toNat
      · simp [Nat.lt_trans hab hbc]
      · by_cases hcb : c.toNat < b.toNat
        · simp [hbc, hcb] at h2
        · have : b.toNat = c.toNat := by omega
          simp [this ▸ hab]
    · by_cases hba : b.toNat < a.toNat
      · simp [hab, hba] at h1
      · have hab2 : a.toNat = b.toNat := by omega
        simp only [hab, hba, if_false] at h1
        by_cases hbc : b.toNat < c.toNat
        · simp [hab2, hbc]
        · by_cases hcb : c.toNat < b.toNat
          · simp [hbc, hcb] at h2
          · simp only [hbc, hcb, if_false] at h2
            have hac : ¬ a.toNat < c.toNat := by omega
            have hca : ¬ c.toNat < a.toNat := by omega
            simp only [hac, hca, if_false]
            exact stringLess_trans as bs cs h1 h2

theorem stringLess_trichotomy : ∀ a b : List Char,
    stringLess a b = false → stringLess b a = false → a = b
  | [], [], _, _ => rfl
  | [], _ :: _, h, _ => by simp [stringLess] at h
  | _ :: _, [], _, h => by simp [stringLess] at h
  | a :: as, b :: bs, h1, h2 => by
    unfold stringLess at h1 h2
    by_cases hab : a.toNat < b.toNat
    · simp [hab] at h1
    · by_cases hba : b.toNat < a.toNat
      · simp [hba] at h2
      · simp only [hab, hba, if_false] at h1 h2
        have hn : a.toNat = b.toNat := by omega
        have hc : a = b := by
          apply Char.ext
          apply UInt32.ext
          exact hn
        rw [hc, stringLess_trichotomy as bs h1 h2]

/-- Not-less is transitive: the order of strings is total. -/
theorem stringLess_false_trans (a b c : List Char)
    (h1 : stringLess a b = false) (h2 : stringLess b c = false) : stringLess a c = false := by
  by_contra h
  have hac : stringLess a c = true := by simpa using h
  by_cases hba : stringLess b a = true
  · have := stringLess_trans b a c hba hac
    simp [this] at h2
  · have hab : a = b := stringLess_trichotomy a b h1 (by simpa using hba)
    subst hab
    simp [hac] at h2

theorem sortInsert_perm (x : mapEntry) : ∀ l : List mapEntry, (sortInsert x l).Perm (x :: l)
  | [] => List.Perm.refl _
  | y :: left => by
    unfold sortInsert
    split
    · exact ((sortInsert_perm x left).cons y).trans (List.Perm.swap x y left)
    · exact List.Perm.refl _

theorem sortFold_perm : ∀ (l done : List mapEntry),
    (l.foldl (fun done x => sortInsert x done) done).Perm (l ++ done)
  | [], done => List.Perm.refl _
  | x :: xs, done => by
    simp only [List.foldl_cons, List.cons_append]
    exact (sortFold_perm xs (sortInsert x done)).trans
      (((sortInsert_perm x done).append_left xs).trans List.perm_middle)

theorem insertionSort_perm (l : List mapEntry) : (insertionSort l).Perm l := by
  unfold insertionSort
  exact (List.reverse_perm _).trans (by simpa using sortFold_perm l [])

theorem sortSort_perm {lib : Library} (hlib : lib.Lawful) (l : List mapEntry) :
    (sortSort lib l).Perm l := by
  unfold sortSort
  split
  · exact insertionSort_perm l
  · exact hlib.perm l

theorem sortInsert_desc (x : mapEntry) : ∀ l : List mapEntry,
    l.Pairwise (fun a b => mapEntries.Less a b = false) →
    (sortInsert x l).Pairwise (fun a b => mapEntries.Less a b = false)
  | [], _ => by simp [sortInsert]
  | y :: left, h => by
    rw [List.pairwise_cons] at h
    unfold sortInsert
    split
    · rename_i hxy
      rw [List.pairwise_cons]
      refine ⟨?_, sortInsert_desc x left h.2⟩
      intro z hz
      rcases List.mem_cons.mp ((sortInsert_perm x left).mem_iff.mp hz) with rfl | hz
      · exact stringLess_asymm _ _ hxy
      · exact h.1 z hz
    · rename_i hxy
      have hxy2 : mapEntries.Less x y = false := by simpa using hxy
      rw [List.pairwise_cons]
      refine ⟨?_, List.pairwise_cons.mpr h⟩
      intro z hz
      rcases List.mem_cons.mp hz with rfl | hz
      · exact hxy2
      · exact stringLess_false_trans _ _ _ hxy2 (h.1 z hz)

theorem sortFold_desc : ∀ (l done : List mapEntry),
    done.Pairwise (fun a b => mapEntries.Less a b = false) →
    (l.foldl (fun done x => sortInsert x done) done).Pairwise
      (fun a b => mapEntries.Less a b = false)
  | [], _, h => h
  | x :: xs, done, h => sortFold_desc xs _ (sortInsert_desc x done h)

theorem insertionSort_sorted (l : List mapEntry) :
    (insertionSort l).Pairwise (fun a b => mapEntries.Less b a = false) := by
  unfold insertionSort
  rw [List.pairwise_reverse]
  exact sortFold_desc l [] List.Pairwise.nil

/-- The sort leaves the entries in ascending order of their keys. -/
theorem sortSort_sorted {lib : Library} (hlib : lib.Lawful) (l : List mapEntry) :
    (sortSort lib l).Pairwise (fun a b => mapEntries.Less b a = false) := by
  unfold sortSort
  split
  · exact insertionSort_sorted l
  · exact hlib.sorted l

theorem sortInsert_map (f : mapEntry → mapEntry) (x : mapEntry) :
    ∀ done : List mapEntry,
      (∀ y ∈ done, mapEntries.Less (f x) (f y) = mapEntries.Less x y) →
      sortInsert (f x) (done.map f) = (sortInsert x done).map f
  | [], _ => rfl
  | y :: left, h => by
    simp only [List.map_cons, sortInsert, h y (List.mem_cons_self _ _)]
    split
    · simp only [List.map_cons]
      rw [sortInsert_map f x left (fun z hz => h z (List.mem_cons_of_mem _ hz))]
    · rfl

theorem sortFold_map (f : mapEntry → mapEntry) : ∀ (l done : List mapEntry),
    (∀ a ∈ l ++ done, ∀ b ∈ l ++ done, mapEntries.Less (f a) (f b) = mapEntries.Less a b) →
    (l.map f).foldl (fun done x => sortInsert x done) (done.map f) =
      (l.foldl (fun done x => sortInsert x done) done).map f
  | [], _, _ => rfl
  | x :: xs, done, h => by
    simp only [List.map_cons, List.foldl_cons]
    rw [sortInsert_map f x done (fun y hy =>
      h x (by simp) y (by simp [hy]))]
    apply sortFold_map f xs (sortInsert x done)
    intro a ha b hb
    have hm : ∀ c, c ∈ xs ++ sortInsert x done → c ∈ x :: xs ++ done := by
      intro c hc
      rcases List.mem_append.mp hc with hc | hc
      · simp [hc]
      · rcases List.mem_cons.mp ((sortInsert_perm x done).mem_iff.mp hc) with rfl | hc
        · simp
        · simp [hc]
    exact h a (hm a ha) b (hm b hb)

/-- Relabelling the entries without changing a comparison relabels the result
of the insertion sort. -/
theorem insertionSort_map (f : mapEntry → mapEntry) (l : List mapEntry)
    (h : ∀ a ∈ l, ∀ b ∈ l, mapEntries.Less (f a) (f b) = mapEntries.Less a b) :
    insertionSort (l.map f) = (insertionSort l).map f := by
  unfold insertionSort
  have := sortFold_map f l [] (by simpa using h)
  simp only [List.map_nil] at this
  rw [this, List.map_reverse]

theorem baseLibrary_lawful : baseLibrary.Lawful :=
  ⟨insertionSort_perm, insertionSort_sorted, insertionSort_map⟩

/-- A permutation of the image of a list is the image of a permutation. -/
theorem perm_map_pullback {α β : Type} (f : α → β) {l₁ l₂ : List β} (h : l₁.Perm l₂) :
    ∀ l : List α, l.map f = l₁ → ∃ l0 : List α, l0.Perm l ∧ l0.map f = l₂ := by
  induction h with
  | nil => intro l hl; exact ⟨l, List.Perm.refl _, hl⟩
  | cons x _ ih =>
    intro l hl
    cases l with
    | nil => simp at hl
    | cons a l =>
      simp only [List.map_cons, List.cons.injEq] at hl
      obtain ⟨l0, hp, hm⟩ := ih l hl.2
      exact ⟨a :: l0, hp.cons a, by simp [hm, hl.1]⟩
  | swap x y t =>
    intro l hl
    match l, hl with
    | a :: b :: l, hl =>
      simp only [List.map_cons, List.cons.injEq] at hl
      exact ⟨b :: a :: l, List.Perm.swap a b l, by simp [hl.1, hl.2.1, hl.2.2]⟩
  | trans _ _ ih1 ih2 =>
    intro l hl
    obtain ⟨l1, hp1, hm1⟩ := ih1 l hl
    obtain ⟨l2, hp2, hm2⟩ := ih2 l1 hm1
    exact ⟨l2, hp2.trans hp1, hm2⟩

theorem mapLoop_renders (lib : Library) (keyType elemType : Ty) (p : Int) :
    ∀ (kvs : List (Value × Value)) (entries : List mapEntry),
      (∀ kv ∈ kvs, Renders lib kv.1 (p + 2) ∧ Renders lib kv.2 (p + 2)) →
      (∀ kv ∈ kvs, mapIndexFinds kv.1 = true) →
      mapLoop lib keyType elemType p kvs entries =
        .next (entries ++ kvs.map (entryOf lib keyType elemType p)) := by
  intro kvs
  induction kvs with
  | nil => intro entries _ _; simp [mapLoop]
  | cons kv kvs ih =>
    intro entries h hfound
    obtain ⟨k, e⟩ := kv
    obtain ⟨⟨sk, hk⟩, ⟨se, he⟩⟩ := h (k, e) (List.mem_cons_self _ _)
    have hf : mapIndexFinds k = true := hfound (k, e) (List.mem_cons_self _ _)
    have hk2 : formatPadded lib k (p + paddingIncrement) = .ret sk none := hk
    have he2 : formatPadded lib e (p + paddingIncrement) = .ret se none := he
    simp only [] at hk he
    rw [mapLoop, hk2]
    simp only [annotate_of_ret keyType hk, hf, he2, annotate_of_ret elemType he]
    rw [ih _ (fun x hx => h x (List.mem_cons_of_mem _ hx))
      (fun x hx => hfound x (List.mem_cons_of_mem _ hx))]
    simp [entryOf, hk, he, Result.text]

theorem mapEmit_eq {p : Int} (hp : 0 ≤ p) : ∀ (es : List mapEntry) (buffer : String),
    mapEmit p es buffer = some (buffer ++ joinLines (es.map (fun entry =>
      spaces p ++ entry.keyType ++ entry.key ++ ": " ++ entry.elemType ++ entry.elem ++ ",\n")))
  | [], buffer => by simp [mapEmit, joinLines]
  | e :: es, buffer => by
    rw [mapEmit]
    simp only [stringsRepeat_spaces hp]
    rw [mapEmit_eq hp es]
    simp [joinLines, String.append_assoc]

theorem structLoop_filter (lib : Library) (p : Int) :
    ∀ (fields : List (StructField × Value)) (state : String × Bool),
      structLoop lib p fields state = structLoop lib p (fields.filter exported) state := by
  intro fields
  induction fields with
  | nil => intro state; rfl
  | cons fv rest ih =>
    intro state
    obtain ⟨f, v⟩ := fv
    obtain ⟨buffer, has⟩ := state
    by_cases hf : f.PkgPath = ""
    · have hx : exported (f, v) = true := by simp [exported, hf]
      rw [List.filter_cons_of_pos hx, structLoop, structLoop]
      simp only [hf, ne_eq, not_true_eq_false, if_false]
      cases stringsRepeat " " p with
      | none => rfl
      | some sp =>
        cases formatPadded lib v (p + paddingIncrement) with
        | panic => rfl
        | ret text err =>
          cases err with
          | some e => rfl
          | none =>
            cases annotate f.Typ v with
            | none => rfl
            | some ann => exact ih _
    · have hx : ¬ (exported (f, v) = true) := by simp [exported, hf]
      rw [List.filter_cons_of_neg hx, structLoop]
      simp only [ne_eq, hf, not_false_eq_true, if_true]
      exact ih _

theorem structLoop_renders_true (lib : Library) {p : Int} (hp : 0 ≤ p) :
    ∀ (fields : List (StructField × Value)) (buffer : String),
      (∀ fv ∈ fields, fv.1.PkgPath = "") →
      (∀ fv ∈ fields, Renders lib fv.2 (p + 2)) →
      structLoop lib p fields (buffer, true) =
        .next (buffer ++ joinLines (fields.map (fieldLine lib p)), true) := by
  intro fields
  induction fields with
  | nil => intro buffer _ _; simp [structLoop, joinLines]
  | cons fv rest ih =>
    intro buffer hex hok
    obtain ⟨f, v⟩ := fv
    have hf : f.PkgPath = "" := hex (f, v) (List.mem_cons_self _ _)
    obtain ⟨s, hs⟩ := hok (f, v) (List.mem_cons_self _ _)
    have hs2 : formatPadded lib v (p + paddingIncrement) = .ret s none := hs
    simp only [] at hs
    rw [structLoop]
    simp only [hf, ne_eq, not_true_eq_false, if_false, stringsRepeat_spaces hp, hs2,
      annotate_of_ret f.Typ hs, if_true]
    rw [ih _ (fun x hx => hex x (List.mem_cons_of_mem _ hx))
      (fun x hx => hok x (List.mem_cons_of_mem _ hx))]
    simp [joinLines, fieldLine, hs, Result.text, String.append_assoc]

theorem structLoop_renders (lib : Library) {p : Int} (hp : 0 ≤ p)
    (fv : StructField × Value) (rest : List (StructField × Value)) (buffer : String)
    (hex : ∀ x ∈ fv :: rest, x.1.PkgPath = "")
    (hok : ∀ x ∈ fv :: rest, Renders lib x.2 (p + 2)) :
    structLoop lib p (fv :: rest) (buffer, false) =
      .next (buffer ++ "\n" ++ joinLines ((fv :: rest).map (fieldLine lib p)), true) := by
  obtain ⟨f, v⟩ := fv
  have hf : f.PkgPath = "" := hex (f, v) (List.mem_cons_self _ _)
  obtain ⟨s, hs⟩ := hok (f, v) (List.mem_cons_self _ _)
  have hs2 : formatPadded lib v (p + paddingIncrement) = .ret s none := hs
  simp only [] at hs
  rw [structLoop]
  simp only [hf, ne_eq, not_true_eq_false, if_false, stringsRepeat_spaces hp, hs2,
    annotate_of_ret f.Typ hs]
  rw [structLoop_renders_true lib hp _ _ (fun x hx => hex x (List.mem_cons_of_mem _ hx))
    (fun x hx => hok x (List.mem_cons_of_mem _ hx))]
  simp [joinLines, fieldLine, hs, Result.text, String.append_assoc]

theorem formatPadded_struct_filter (lib : Library) (name : String)
    (fields : List (StructField × Value)) (p : Int) :
    formatPadded lib (.struct name fields) p =
      formatPadded lib (.struct name (fields.filter exported)) p := by
  rw [formatPadded, formatPadded, structLoop_filter]

theorem typeLabel_eq {declared : Ty} {child : Value} {t : Ty} (h : TypeOf child = some t) :
    typeLabel declared child =
      if declared.Kind = .Interface ∧
          t.Kind ≠ .Array ∧ t.Kind ≠ .Slice ∧ t.Kind ≠ .Map ∧ t.Kind ≠ .Struct
      then "(" ++ typeName t ++ ")" else "" := by
  unfold typeLabel
  rw [h]

theorem structLoop_hidden (lib : Library) (p : Int) :
    ∀ (fields : List (StructField × Value)) (state : String × Bool),
      (∀ fv ∈ fields, fv.1.PkgPath ≠ "") →
      structLoop lib p fields state = .next state := by
  intro fields
  induction fields with
  | nil => intro state _; rfl
  | cons fv rest ih =>
    intro state h
    obtain ⟨f, v⟩ := fv
    obtain ⟨buffer, has⟩ := state
    have hf : f.PkgPath ≠ "" := h (f, v) (List.mem_cons_self _ _)
    rw [structLoop]
    simp only [hf, ne_eq, not_false_eq_true, if_true]
    exact ih _ (fun x hx => h x (List.mem_cons_of_mem _ hx))

theorem arrayLoop_exit (lib : Library) (elemType : Ty) (p : Int) :
    ∀ (elems : List Value) (buffer text : String) (err : Option Error),
      arrayLoop lib elemType p elems buffer = .exit text err → text = "" ∧ err ≠ none := by
  intro elems
  induction elems with
  | nil => intro buffer text err h; simp [arrayLoop] at h
  | cons e es ih =>
    intro buffer text err h
    rw [arrayLoop] at h
    split at h
    · simp at h
    · simp only [Loop.exit.injEq] at h
      exact ⟨h.1.symm, by rw [← h.2]; simp⟩
    · split at h
      · simp at h
      · split at h
        · simp at h
        · exact ih _ _ _ h

theorem sliceLoop_exit (lib : Library) (elemType : Ty) (p : Int) :
    ∀ (elems : List Value) (buffer text : String) (err : Option Error),
      sliceLoop lib elemType p elems buffer = .exit text err → text = "" ∧ err ≠ none := by
  intro elems
  induction elems with
  | nil => intro buffer text err h; simp [sliceLoop] at h
  | cons e es ih =>
    intro buffer text err h
    rw [sliceLoop] at h
    split at h
    · simp at h
    · simp only [Loop.exit.injEq] at h
      exact ⟨h.1.symm, by rw [← h.2]; simp⟩
    · split at h
      · simp at h
      · split at h
        · simp at h
        · exact ih _ _ _ h

theorem mapLoop_exit (lib : Library) (keyType elemType : Ty) (p : Int) :
    ∀ (kvs : List (Value × Value)) (entries : List mapEntry) (text : String)
      (err : Option Error),
      mapLoop lib keyType elemType p kvs entries = .exit text err → text = "" ∧ err ≠ none := by
  intro kvs
  induction kvs with
  | nil => intro entries text err h; simp [mapLoop] at h
  | cons kv rest ih =>
    intro entries text err h
    obtain ⟨k, e⟩ := kv
    rw [mapLoop] at h
    split at h
    · simp at h
    · simp only [Loop.exit.injEq] at h
      exact ⟨h.1.symm, by rw [← h.2]; simp⟩
    · split at h
      · simp at h
      · split at h
        · simp at h
        · split at h
          · simp at h
          · simp only [Loop.exit.injEq] at h
            exact ⟨h.1.symm, by rw [← h.2]; simp⟩
          · split at h
            · simp at h
            · exact ih _ _ _ h

theorem structLoop_exit (lib : Library) (p : Int) :
    ∀ (fields : List (StructField × Value)) (state : String × Bool) (text : String)
      (err : Option Error),
      structLoop lib p fields state = .exit text err → text = "" ∧ err ≠ none := by
  intro fields
  induction fields with
  | nil => intro state text err h; simp [structLoop] at h
  | cons fv rest ih =>
    intro state text err h
    obtain ⟨f, v⟩ := fv
    obtain ⟨buffer, has⟩ := state
    rw [structLoop] at h
    split at h
    · exact ih _ _ _ h
    · split at h
      · simp at h
      · split at h
        · simp at h
        · simp only [Loop.exit.injEq] at h
          exact ⟨h.1.symm, by rw [← h.2]; simp⟩
        · split at h
          · simp at h
          · exact ih _ _ _ h

theorem gapPass_perm : ∀ front back : List mapEntry,
    ((gapPass front back).1 ++ (gapPass front back).2).Perm (front ++ back)
  | a :: front, b :: back => by
    have ih := gapPass_perm front back
    have h2 : (front ++ b :: back).Perm (b :: (front ++ back)) := List.perm_middle
    rw [gapPass]
    split
    · have h1 : ((gapPass front back).1 ++ a :: (gapPass front back).2).Perm
          (a :: (front ++ back)) := List.perm_middle.trans (ih.cons a)
      exact (h1.cons b).trans ((List.Perm.swap a b _).trans (h2.symm.cons a))
    · have h1 : ((gapPass front back).1 ++ b :: (gapPass front back).2).Perm
          (b :: (front ++ back)) := List.perm_middle.trans (ih.cons b)
      exact (h1.trans h2.symm).cons a
  | [], [] => by simp [gapPass]
  | a :: front, [] => by simp [gapPass]
  | [], b :: back => by simp [gapPass]

theorem gapPass_map (f : mapEntry → mapEntry) : ∀ front back : List mapEntry,
    (∀ a ∈ front ++ back, ∀ b ∈ front ++ back,
      mapEntries.Less (f a) (f b) = mapEntries.Less a b) →
    gapPass (front.map f) (back.map f) =
      ((gapPass front back).1.map f, (gapPass front back).2.map f)
  | a :: front, b :: back, h => by
    have ih := gapPass_map f front back (fun x hx y hy =>
      h x (by simp at hx ⊢; tauto) y (by simp at hy ⊢; tauto))
    simp only [List.map_cons]
    rw [gapPass, gapPass, ih, h b (by simp) a (by simp)]
    split <;> simp
  | [], [], _ => by simp [gapPass]
  | a :: front, [], _ => by simp [gapPass]
  | [], b :: back, _ => by simp [gapPass]

theorem gapSort_perm (l : List mapEntry) : (gapSort l).Perm l := by
  unfold gapSort
  split
  · refine (insertionSort_perm _).trans ((gapPass_perm _ _).trans ?_)
    rw [List.take_append_drop]
  · exact insertionSort_perm l

theorem gapSort_sorted (l : List mapEntry) :
    (gapSort l).Pairwise (fun a b => mapEntries.Less b a = false) := by
  unfold gapSort
  split <;> exact insertionSort_sorted _

theorem gapSort_map (f : mapEntry → mapEntry) (l : List mapEntry)
    (h : ∀ a ∈ l, ∀ b ∈ l, mapEntries.Less (f a) (f b) = mapEntries.Less a b) :
    gapSort (l.map f) = (gapSort l).map f := by
  unfold gapSort
  have hp := gapPass_perm (l.take 6) (l.drop 6)
  rw [List.take_append_drop] at hp
  simp only [List.length_map]
  split
  · rw [← List.map_take, ← List.map_drop, gapPass_map f _ _ (by
      rw [List.take_append_drop]; exact h), ← List.map_append]
    exact insertionSort_map f _ (fun a ha b hb =>
      h a (hp.mem_iff.mp ha) b (hp.mem_iff.mp hb))
  · exact insertionSort_map f l h

theorem releaseLibrary_lawful : releaseLibrary.Lawful :=
  ⟨gapSort_perm, gapSort_sorted, gapSort_map⟩

theorem sortInsert_filter (x : mapEntry) (k : String) : ∀ done : List mapEntry,
    (sortInsert x done).filter (fun e => decide (e.key = k)) =
      (x :: done).filter (fun e => decide (e.key = k))
  | [] => rfl
  | y :: left => by
    unfold sortInsert
    split
    · rename_i hxy
      have hne : x.key ≠ y.key := by
        intro heq
        have := stringLess_irrefl y.key.data
        simp [mapEntries.Less, heq, this] at hxy
      have ih := sortInsert_filter x k left
      by_cases hy : y.key = k
      · have hx : ¬ x.key = k := fun hx => hne (hx.trans hy.symm)
        simp [List.filter_cons, hy, hx, ih]
      · simp [List.filter_cons, hy, ih]
    · rfl

theorem sortFold_filter (k : String) : ∀ (l done : List mapEntry),
    (l.foldl (fun done x => sortInsert x done) done).filter (fun e => decide (e.key = k)) =
      (l.filter (fun e => decide (e.key = k))).reverse ++
        done.filter (fun e => decide (e.key = k))
  | [], done => by simp
  | x :: xs, done => by
    simp only [List.foldl_cons]
    rw [sortFold_filter k xs, sortInsert_filter]
    by_cases hx : x.key = k <;> simp [List.filter_cons, hx]

/-- The insertion sort is stable: the entries with a given key keep their
order. -/
theorem insertionSort_stable (k : String) (l : List mapEntry) :
    (insertionSort l).filter (fun e => decide (e.key = k)) =
      l.filter (fun e => decide (e.key = k)) := by
  unfold insertionSort
  rw [List.filter_reverse, sortFold_filter]
  simp

/-- The shape of the result for a map all of whose keys and elements render:
the header, the lines of the sorted entries, the closing brace. -/
theorem map_layout (lib : Library) (keyType elemType : Ty) (kv : Value × Value)
    (rest : List (Value × Value)) {p : Int} (hp : 2 ≤ p)
    (hok : ∀ x ∈ kv :: rest, Renders lib x.1 (p + 2) ∧ Renders lib x.2 (p + 2))
    (hfound : ∀ x ∈ kv :: rest, mapIndexFinds x.1 = true) :
    formatPadded lib (.map keyType elemType (some (kv :: rest))) p =
      .ret (typeName (.map keyType elemType) ++ "\x7b\n" ++
        joinLines ((sortSort lib ((kv :: rest).map (entryOf lib keyType elemType p))).map
          (emittedLine p)) ++ spaces (p - 2) ++ "\x7d") none := by
  have hp0 : (0 : Int) ≤ p := by omega
  have hp2 : (0 : Int) ≤ p - paddingIncrement := by simp [paddingIncrement]; omega
  rw [formatPadded, mapLoop_renders lib keyType elemType p _ _ hok hfound]
  simp only [List.nil_append, mapEmit_eq hp0, stringsRepeat_spaces hp2]
  delta emittedLine
  simp [paddingIncrement, String.append_assoc]

/-- Induction on values: a property of every scalar, function and channel
that passes from the elements, keys, pointee and field values to the array,
slice, map, pointer and struct holding them is a property of every value. -/
theorem value_induction {P : Value → Prop}
    (absent : P .absent) (bool : ∀ d b, P (.bool d b)) (int : ∀ k d n, P (.int k d n))
    (uintptr : ∀ d n, P (.uintptr d n)) (float : ∀ k d x, P (.float k d x))
    (string : ∀ d x, P (.string d x)) (unsafePointer : ∀ d a, P (.unsafePointer d a))
    (chan : ∀ t, P (.chan t)) (func : P .func)
    (array : ∀ t elems, (∀ e ∈ elems, P e) → P (.array t elems))
    (sliceNil : ∀ t, P (.slice t none))
    (slice : ∀ t elems, (∀ e ∈ elems, P e) → P (.slice t (some elems)))
    (mapNil : ∀ k t, P (.map k t none))
    (map : ∀ k t entries, (∀ kv ∈ entries, P kv.1 ∧ P kv.2) → P (.map k t (some entries)))
    (ptrNil : ∀ t, P (.ptr t none))
    (ptr : ∀ t w, P w → P (.ptr t (some w)))
    (struct : ∀ name fields, (∀ fv ∈ fields, P fv.2) → P (.struct name fields)) :
    ∀ v, P v := by
  suffices h : ∀ n, ∀ v, sizeOf v = n → P v from fun v => h _ v rfl
  intro n
  induction n using Nat.strong_induction_on with
  | _ n ih =>
    intro v hn
    subst hn
    cases v with
    | absent => exact absent
    | bool d b => exact bool d b
    | int k d n => exact int k d n
    | uintptr d n => exact uintptr d n
    | float k d x => exact float k d x
    | string d x => exact string d x
    | unsafePointer d a => exact unsafePointer d a
    | chan t => exact chan t
    | func => exact func
    | array t elems =>
      refine array t elems (fun e he => ih _ ?_ e rfl)
      have := List.sizeOf_lt_of_mem he
      simp only [Value.array.sizeOf_spec]
      omega
    | slice t elems =>
      cases elems with
      | none => exact sliceNil t
      | some l =>
        refine slice t l (fun e he => ih _ ?_ e rfl)
        have := List.sizeOf_lt_of_mem he
        simp only [Value.slice.sizeOf_spec, Option.some.sizeOf_spec]
        omega
    | map k t entries =>
      cases entries with
      | none => exact mapNil k t
      | some l =>
        refine map k t l (fun kv hkv => ?_)
        have h1 := List.sizeOf_lt_of_mem hkv
        obtain ⟨a, b⟩ := kv
        simp only [Prod.mk.sizeOf_spec] at h1
        constructor
        · refine ih _ ?_ a rfl
          simp only [Value.map.sizeOf_spec, Option.some.sizeOf_spec]
          omega
        · refine ih _ ?_ b rfl
          simp only [Value.map.sizeOf_spec, Option.some.sizeOf_spec]
          omega
    | ptr t pointee =>
      cases pointee with
      | none => exact ptrNil t
      | some w =>
        refine ptr t w (ih _ ?_ w rfl)
        simp only [Value.ptr.sizeOf_spec, Option.some.sizeOf_spec]
        omega
    | struct name fields =>
      refine struct name fields (fun fv hfv => ?_)
      have h1 := List.sizeOf_lt_of_mem hfv
      obtain ⟨f, w⟩ := fv
      simp only [Prod.mk.sizeOf_spec] at h1
      refine ih _ ?_ w rfl
      simp only [Value.struct.sizeOf_spec]
      omega

theorem stringsRepeat_ne_none {n : Int} (h : 0 ≤ n) : stringsRepeat " " n ≠ none := by
  rw [stringsRepeat_spaces h]
  simp

theorem mapEmit_ne_none {p : Int} (hp : 0 ≤ p) (es : List mapEntry) (buffer : String) :
    mapEmit p es buffer ≠ none := by
  rw [mapEmit_eq hp]
  simp

theorem arrayLoop_repeat_safe (lib : Library) (elemType : Ty) {p : Int} (hp : 0 ≤ p) :
    ∀ (elems : List Value) (buffer : String),
      (∀ e ∈ elems, formatPadded lib e (p + paddingIncrement) ≠ .panic .negativeRepeat) →
      arrayLoop lib elemType p elems buffer ≠ .panic .negativeRepeat := by
  intro elems
  induction elems with
  | nil => intro buffer _; simp [arrayLoop]
  | cons e es ih =>
    intro buffer h hc
    have he := h e (List.mem_cons_self _ _)
    rw [arrayLoop] at hc
    split at hc
    · rename_i cause heq
      simp only [Loop.panic.injEq] at hc
      exact he (hc ▸ heq)
    · simp at hc
    · split at hc
      · rename_i hr
        exact stringsRepeat_ne_none hp hr
      · split at hc
        · simp at hc
        · exact ih _ (fun x hx => h x (List.mem_cons_of_mem _ hx)) hc

theorem sliceLoop_repeat_safe (lib : Library) (elemType : Ty) {p : Int} (hp : 0 ≤ p) :
    ∀ (elems : List Value) (buffer : String),
      (∀ e ∈ elems, formatPadded lib e (p + paddingIncrement) ≠ .panic .negativeRepeat) →
      sliceLoop lib elemType p elems buffer ≠ .panic .negativeRepeat := by
  intro elems
  induction elems with
  | nil => intro buffer _; simp [sliceLoop]
  | cons e es ih =>
    intro buffer h hc
    have he := h e (List.mem_cons_self _ _)
    rw [sliceLoop] at hc
    split at hc
    · rename_i cause heq
      simp only [Loop.panic.injEq] at hc
      exact he (hc ▸ heq)
    · simp at hc
    · split at hc
      · rename_i hr
        exact stringsRepeat_ne_none hp hr
      · split at hc
        · simp at hc
        · exact ih _ (fun x hx => h x (List.mem_cons_of_mem _ hx)) hc

theorem mapLoop_repeat_safe (lib : Library) (keyType elemType : Ty) (p : Int) :
    ∀ (kvs : List (Value × Value)) (entries : List mapEntry),
      (∀ kv ∈ kvs, formatPadded lib kv.1 (p + paddingIncrement) ≠ .panic .negativeRepeat ∧
        formatPadded lib kv.2 (p + paddingIncrement) ≠ .panic .negativeRepeat) →
      mapLoop lib keyType elemType p kvs entries ≠ .panic .negativeRepeat := by
  intro kvs
  induction kvs with
  | nil => intro entries _; simp [mapLoop]
  | cons kv rest ih =>
    intro entries h hc
    obtain ⟨k, e⟩ := kv
    have hke := h (k, e) (List.mem_cons_self _ _)
    rw [mapLoop] at hc
    split at hc
    · rename_i cause heq
      simp only [Loop.panic.injEq] at hc
      exact hke.1 (hc ▸ heq)
    · simp at hc
    · split at hc
      · simp at hc
      · split at hc
        · simp at hc
        · split at hc
          · rename_i cause heq
            simp only [Loop.panic.injEq] at hc
            exact hke.2 (hc ▸ heq)
          · simp at hc
          · split at hc
            · simp at hc
            · exact ih _ (fun x hx => h x (List.mem_cons_of_mem _ hx)) hc

theorem structLoop_repeat_safe (lib : Library) {p : Int} (hp : 0 ≤ p) :
    ∀ (fields : List (StructField × Value)) (state : String × Bool),
      (∀ fv ∈ fields, formatPadded lib fv.2 (p + paddingIncrement) ≠ .panic .negativeRepeat) →
      structLoop lib p fields state ≠ .panic .negativeRepeat := by
  intro fields
  induction fields with
  | nil => intro state _; simp [structLoop]
  | cons fv rest ih =>
    intro state h hc
    obtain ⟨f, v⟩ := fv
    obtain ⟨buffer, has⟩ := state
    have hv := h (f, v) (List.mem_cons_self _ _)
    rw [structLoop] at hc
    split at hc
    · exact ih _ (fun x hx => h x (List.mem_cons_of_mem _ hx)) hc
    · split at hc
      · rename_i hr
        exact stringsRepeat_ne_none hp hr
      · split at hc
        · rename_i cause heq
          simp only [Loop.panic.injEq] at hc
          exact hv (hc ▸ heq)
        · simp at hc
        · split at hc
          · simp at hc
          · exact ih _ (fun x hx => h x (List.mem_cons_of_mem _ hx)) hc

/-- From a padding of at least 2 no call of `strings.Repeat` gets a negative
count, at any depth. -/
theorem formatPadded_repeat_safe (lib : Library) :
    ∀ (v : Value) (p : Int), 2 ≤ p → formatPadded lib v p ≠ .panic .negativeRepeat := by
  intro v
  induction v using value_induction with
  | absent => intro p _; simp [formatPadded]
  | bool d b => intro p _; cases d <;> simp [formatPadded, formatBool]
  | int k d n => intro p _; cases d <;> simp [formatPadded, formatInteger]
  | uintptr d n => intro p _; simp [formatPadded, formatUintptr]
  | float k d x => intro p _; cases d <;> simp [formatPadded, formatFloat]
  | string d x => intro p _; cases d <;> simp [formatPadded, formatString]
  | unsafePointer d a => intro p _; simp [formatPadded, formatUnsafePointer]
  | chan t => intro p _; simp [formatPadded, formatChan]
  | func => intro p _; simp [formatPadded, formatFunc]
  | array t elems ih =>
    intro p hp hc
    have hp2 : (2 : Int) ≤ p + paddingIncrement := by simp [paddingIncrement]; omega
    have hl := arrayLoop_repeat_safe lib t (by omega : (0 : Int) ≤ p) elems
      ("[" ++ toString elems.length ++ "]" ++ typeName t ++ "\x7b" ++ "\n")
      (fun e he => ih e he _ hp2)
    rw [formatPadded] at hc
    split at hc
    · rename_i cause heq
      simp only [Result.panic.injEq] at hc
      exact hl (hc ▸ heq)
    · simp at hc
    · split at hc
      · rename_i hr
        exact stringsRepeat_ne_none (by simp [paddingIncrement]; omega) hr
      · simp at hc
  | sliceNil t => intro p _; simp [formatPadded]
  | slice t elems ih =>
    intro p hp hc
    have hp2 : (2 : Int) ≤ p + paddingIncrement := by simp [paddingIncrement]; omega
    cases elems with
    | nil => simp [formatPadded] at hc
    | cons x xs =>
      have hl := sliceLoop_repeat_safe lib t (by omega : (0 : Int) ≤ p) (x :: xs)
        ("[]" ++ typeName t ++ "\x7b" ++ "\n") (fun e he => ih e he _ hp2)
      rw [formatPadded] at hc
      split at hc
      · rename_i cause heq
        simp only [Result.panic.injEq] at hc
        exact hl (hc ▸ heq)
      · simp at hc
      · split at hc
        · rename_i hr
          exact stringsRepeat_ne_none (by simp [paddingIncrement]; omega) hr
        · simp at hc
  | mapNil k t => intro p _; simp [formatPadded]
  | map k t entries ih =>
    intro p hp hc
    have hp2 : (2 : Int) ≤ p + paddingIncrement := by simp [paddingIncrement]; omega
    cases entries with
    | nil => simp [formatPadded] at hc
    | cons x xs =>
      have hl := mapLoop_repeat_safe lib k t p (x :: xs) []
        (fun kv hkv => ⟨(ih kv hkv).1 _ hp2, (ih kv hkv).2 _ hp2⟩)
      rw [formatPadded] at hc
      split at hc
      · rename_i cause heq
        simp only [Result.panic.injEq] at hc
        exact hl (hc ▸ heq)
      · simp at hc
      · split at hc
        · rename_i hr
          exact mapEmit_ne_none (by omega) _ _ hr
        · split at hc
          · rename_i hr
            exact stringsRepeat_ne_none (by simp [paddingIncrement]; omega) hr
          · simp at hc
  | ptrNil t => intro p _; simp [formatPadded]
  | ptr t w ih =>
    intro p hp hc
    rw [formatPadded] at hc
    split at hc
    · rename_i cause heq
      simp only [Result.panic.injEq] at hc
      exact ih p hp (hc ▸ heq)
    · simp at hc
    · simp at hc
  | struct name fields ih =>
    intro p hp hc
    have hp2 : (2 : Int) ≤ p + paddingIncrement := by simp [paddingIncrement]; omega
    have hl := structLoop_repeat_safe lib (by omega : (0 : Int) ≤ p) fields
      (typeName (.struct name) ++ "\x7b", false) (fun fv hfv => ih fv hfv _ hp2)
    rw [formatPadded] at hc
    split at hc
    · rename_i cause heq
      simp only [Result.panic.injEq] at hc
      exact hl (hc ▸ heq)
    · simp at hc
    · split at hc
      · split at hc
        · rename_i hr
          exact stringsRepeat_ne_none (by simp [paddingIncrement]; omega) hr
        · simp at hc
      · simp at hc

theorem calls_padding {v w : Value} {p q : Int} {level : Nat} (h : Calls v p level w q) :
    q = p + 2 * level := by
  cases h <;> simp [paddingIncrement]

theorem nested_padding {root w : Value} {levels : Nat} {q : Int}
    (h : Nested root levels w q) : q = 2 + 2 * levels := by
  induction h with
  | top => simp [paddingIncrement]
  | call levels v p level w q _ hc ih =>
    rw [calls_padding hc, ih]
    push_cast
    ring

/-! ## Texts: braces -/

theorem braceScan_append (a b : List Char) :
    ∀ d : Nat, braceScan (a ++ b) d = (braceScan a d).bind (braceScan b) := by
  induction a with
  | nil => intro d; rfl
  | cons c cs ih =>
    intro d
    simp only [List.cons_append, braceScan]
    split
    · exact ih _
    · split
      · cases d with
        | zero => rfl
        | succ d => exact ih _
      · exact ih _

theorem Balanced.append {a b : List Char} (ha : Balanced a) (hb : Balanced b) :
    Balanced (a ++ b) := by
  intro d
  rw [braceScan_append, ha d]
  exact hb d

theorem Opened.extend {a b : List Char} (ha : Opened a) (hb : Balanced b) :
    Opened (a ++ b) := by
  intro d
  rw [braceScan_append, ha d]
  exact hb (d + 1)

theorem Balanced.opened {a b : List Char} (ha : Balanced a) (hb : Opened b) :
    Opened (a ++ b) := by
  intro d
  rw [braceScan_append, ha d]
  exact hb d

theorem Opened.close {a : List Char} (ha : Opened a) : Balanced (a ++ ['}']) := by
  intro d
  rw [braceScan_append, ha d]
  rfl

theorem opened_brace : Opened ['{'] := fun _ => rfl

theorem balanced_nil : Balanced [] := fun _ => rfl

theorem balanced_of_noBrace {l : List Char} (h : ∀ c ∈ l, c ≠ '{' ∧ c ≠ '}') : Balanced l := by
  induction l with
  | nil => exact balanced_nil
  | cons c cs ih =>
    intro d
    have hc := h c (List.mem_cons_self _ _)
    simp only [braceScan, hc.1, hc.2, if_false]
    exact ih (fun x hx => h x (List.mem_cons_of_mem _ hx)) d

theorem balanced_of_plain {l : List Char} (h : ∀ c ∈ l, c ≠ '{' ∧ c ≠ '}' ∧ c ≠ '\n') :
    Balanced l :=
  balanced_of_noBrace (fun c hc => ⟨(h c hc).1, (h c hc).2.1⟩)

/-- The depth read by `braceScan` counts the braces: the scan succeeds only if
no beginning of the text closes more than `d` braces beyond those it opens. -/
theorem braceScan_count : ∀ (l : List Char) (d e : Nat), braceScan l d = some e →
    d + l.count '{' = e + l.count '}' ∧
      ∀ n : Nat, (l.take n).count '}' ≤ d + (l.take n).count '{'
  | [], d, e, h => by
    simp only [braceScan, Option.some.injEq] at h
    simp [h]
  | c :: cs, d, e, h => by
    simp only [braceScan] at h
    by_cases h1 : c = '{'
    · subst h1
      simp only [if_true] at h
      obtain ⟨hc, hp⟩ := braceScan_count cs (d + 1) e h
      refine ⟨by simp [List.count_cons] at hc ⊢; omega, fun n => ?_⟩
      cases n with
      | zero => simp
      | succ n =>
        have := hp n
        simp [List.take_succ_cons, List.count_cons] at this ⊢
        omega
    · by_cases h2 : c = '}'
      · subst h2
        simp only [h1, if_false, if_true] at h
        cases d with
        | zero => simp at h
        | succ d =>
          simp only at h
          obtain ⟨hc, hp⟩ := braceScan_count cs d e h
          refine ⟨by simp [List.count_cons] at hc ⊢; omega, fun n => ?_⟩
          cases n with
          | zero => simp
          | succ n =>
            have := hp n
            simp [List.take_succ_cons, List.count_cons] at this ⊢
            omega
      · simp only [h1, h2, if_false] at h
        obtain ⟨hc, hp⟩ := braceScan_count cs d e h
        have e1 : ('{' == c) = false := by simpa using Ne.symm h1
        have e2 : ('}' == c) = false := by simpa using Ne.symm h2
        refine ⟨by simp [List.count_cons, e1, e2, h1, h2] at hc ⊢; omega, fun n => ?_⟩
        cases n with
        | zero => simp
        | succ n =>
          have := hp n
          simp [List.take_succ_cons, List.count_cons, e1, e2, h1, h2] at this ⊢
          omega

theorem closed_of_balanced {s : String} (h : Balanced s.data) : Closed s := by
  obtain ⟨hc, hp⟩ := braceScan_count s.data 0 0 (h 0)
  exact ⟨by omega, fun n => by simpa using hp n⟩

/-! ## Texts: what the scalars and the type names are made of -/

theorem Plain.join {a b : List Char} (ha : Plain a) (hb : Plain b) : Plain (a ++ b) := by
  intro c hc
  rcases List.mem_append.mp hc with h | h
  · exact ha c h
  · exact hb c h

theorem Plain.noNewline {l : List Char} (h : Plain l) : NoNewline l :=
  fun c hc => (h c hc).2.2

theorem Plain.noBrace {l : List Char} (h : Plain l) : NoBrace l :=
  fun c hc => ⟨(h c hc).1, (h c hc).2.1⟩

theorem Plain.balanced {l : List Char} (h : Plain l) : Balanced l :=
  balanced_of_noBrace h.noBrace

theorem NoNewline.glue {a b : List Char} (ha : NoNewline a) (hb : NoNewline b) :
    NoNewline (a ++ b) := by
  intro c hc
  rcases List.mem_append.mp hc with h | h
  · exact ha c h
  · exact hb c h

theorem NoBrace.pair {a b : List Char} (ha : NoBrace a) (hb : NoBrace b) :
    NoBrace (a ++ b) := by
  intro c hc
  rcases List.mem_append.mp hc with h | h
  · exact ha c h
  · exact hb c h

theorem digitChar_plain (n : Nat) :
    Nat.digitChar n ≠ '{' ∧ Nat.digitChar n ≠ '}' ∧ Nat.digitChar n ≠ '\n' := by
  by_cases h : n < 16
  · interval_cases n <;> decide
  · have h16 : 16 ≤ n := by omega
    have e : Nat.digitChar n = '*' := by
      unfold Nat.digitChar
      iterate 16 rw [if_neg (by omega)]
    rw [e]
    decide

theorem toDigitsCore_plain : ∀ (fuel n : Nat) (acc : List Char),
    Plain acc → Plain (Nat.toDigitsCore 10 fuel n acc)
  | 0, _, _, h => h
  | fuel + 1, n, acc, h => by
    have hd : Plain (Nat.digitChar (n % 10) :: acc) := by
      intro c hc
      rcases List.mem_cons.mp hc with rfl | hc
      · exact digitChar_plain _
      · exact h c hc
    simp only [Nat.toDigitsCore]
    split
    · exact hd
    · exact toDigitsCore_plain fuel _ _ hd

theorem natText_plain (n : Nat) : Plain (toString n).data :=
  toDigitsCore_plain _ _ _ (fun _ h => absurd h (List.not_mem_nil _))

theorem fmtInt_plain (n : Int) : Plain (fmtInt n).data := by
  cases n with
  | ofNat m => exact natText_plain m
  | negSucc m =>
    show Plain ("-" ++ toString (m + 1)).data
    rw [String.data_append]
    exact Plain.join (by intro c hc; simp at hc; subst hc; decide) (natText_plain _)

theorem fmtBool_plain (b : Bool) : Plain (fmtBool b).data := by
  cases b <;> (intro c hc; simp [fmtBool] at hc; rcases hc with rfl | rfl | rfl | rfl | rfl <;>
    decide)

theorem kindString_plain (k : Kind) : Plain (kindString k).data := by
  intro c hc
  have : (kindString k).data.all (fun c => c != '{' && c != '}' && c != '\n') = true := by
    cases k <;> decide
  simpa [and_assoc] using List.all_eq_true.mp this c hc

theorem repeatString_plain : ∀ n : Nat, Plain (repeatString " " n).data
  | 0 => fun _ h => absurd h (List.not_mem_nil _)
  | n + 1 => by
    show Plain (" " ++ repeatString " " n).data
    rw [String.data_append]
    exact Plain.join (by intro c hc; simp at hc; subst hc; decide) (repeatString_plain n)

theorem spaces_plain (n : Int) : Plain (spaces n).data := repeatString_plain _

theorem hexDigit_plain (n : Nat) :
    hexDigit n ≠ '{' ∧ hexDigit n ≠ '}' ∧ hexDigit n ≠ '\n' := by
  unfold hexDigit
  have h : n % 16 < 16 := Nat.mod_lt _ (by decide)
  generalize n % 16 = m at h
  interval_cases m <;> decide

theorem hexPad_plain : ∀ (width n : Nat), Plain (hexPad width n)
  | 0, _ => fun _ h => absurd h (List.not_mem_nil _)
  | width + 1, n => by
    rw [hexPad]
    exact Plain.join (hexPad_plain width _)
      (by intro c hc; simp at hc; subst hc; exact hexDigit_plain n)

/-- Each character `strconv.Quote` writes for a rune is the rune itself or a
character of an escape sequence. -/
theorem quoteRune_chars (isPrint : Char → Bool) (c x : Char)
    (hx : x ∈ quoteRune isPrint c) : x = c ∨ (x ≠ '{' ∧ x ≠ '}' ∧ x ≠ '\n') := by
  unfold quoteRune at hx
  by_cases h0 : c = '"' ∨ c = '\\'
  · rw [if_pos h0] at hx
    rcases List.mem_cons.mp hx with rfl | hx
    · exact Or.inr (by decide)
    · exact Or.inl (List.mem_singleton.mp hx)
  · rw [if_neg h0] at hx
    by_cases h1 : 0x20 ≤ c.toNat ∧ c.toNat ≤ 0x7e
    · rw [if_pos h1] at hx
      exact Or.inl (List.mem_singleton.mp hx)
    · rw [if_neg h1] at hx
      by_cases h2 : 0xa1 ≤ c.toNat ∧ c.toNat ≤ 0xff ∧ c.toNat ≠ 0xad
      · rw [if_pos h2] at hx
        exact Or.inl (List.mem_singleton.mp hx)
      · rw [if_neg h2] at hx
        by_cases h3 : 0x100 ≤ c.toNat ∧ isPrint c = true
        · rw [if_pos h3] at hx
          exact Or.inl (List.mem_singleton.mp hx)
        · rw [if_neg h3] at hx
          by_cases h4 : c.toNat = 7
          · rw [if_pos h4] at hx
            rcases List.mem_cons.mp hx with rfl | hx
            · exact Or.inr (by decide)
            · rw [List.mem_singleton.mp hx]
              exact Or.inr (by decide)
          · rw [if_neg h4] at hx
            by_cases h5 : c.toNat = 8
            · rw [if_pos h5] at hx
              rcases List.mem_cons.mp hx with rfl | hx
              · exact Or.inr (by decide)
              · rw [List.mem_singleton.mp hx]
                exact Or.inr (by decide)
            · rw [if_neg h5] at hx
              by_cases h6 : c.toNat = 12
              · rw [if_pos h6] at hx
                rcases List.mem_cons.mp hx with rfl | hx
                · exact Or.inr (by decide)
                · rw [List.mem_singleton.mp hx]
                  exact Or.inr (by decide)
              · rw [if_neg h6] at hx
                by_cases h7 : c = '\n'
                · rw [if_pos h7] at hx
                  rcases List.mem_cons.mp hx with rfl | hx
                  · exact Or.inr (by decide)
                  · rw [List.mem_singleton.mp hx]
                    exact Or.inr (by decide)
                · rw [if_neg h7] at hx
                  by_cases h8 : c = '\r'
                  · rw [if_pos h8] at hx
                    rcases List.mem_cons.mp hx with rfl | hx
                    · exact Or.inr (by decide)
                    · rw [List.mem_singleton.mp hx]
                      exact Or.inr (by decide)
                  · rw [if_neg h8] at hx
                    by_cases h9 : c = '\t'
                    · rw [if_pos h9] at hx
                      rcases List.mem_cons.mp hx with rfl | hx
                      · exact Or.inr (by decide)
                      · rw [List.mem_singleton.mp hx]
                        exact Or.inr (by decide)
                    · rw [if_neg h9] at hx
                      by_cases h10 : c.toNat = 11
                      · rw [if_pos h10] at hx
                        rcases List.mem_cons.mp hx with rfl | hx
                        · exact Or.inr (by decide)
                        · rw [List.mem_singleton.mp hx]
                          exact Or.inr (by decide)
                      · rw [if_neg h10] at hx
                        by_cases h11 : c.toNat < 0x20 ∨ c.toNat = 0x7f
                        · rw [if_pos h11] at hx
                          rcases List.mem_cons.mp hx with rfl | hx
                          · exact Or.inr (by decide)
                          · rcases List.mem_cons.mp hx with rfl | hx
                            · exact Or.inr (by decide)
                            · exact Or.inr (hexPad_plain _ _ x hx)
                        · rw [if_neg h11] at hx
                          by_cases h12 : c.toNat < 0x10000
                          · rw [if_pos h12] at hx
                            rcases List.mem_cons.mp hx with rfl | hx
                            · exact Or.inr (by decide)
                            · rcases List.mem_cons.mp hx with rfl | hx
                              · exact Or.inr (by decide)
                              · exact Or.inr (hexPad_plain _ _ x hx)
                          · rw [if_neg h12] at hx
                            rcases List.mem_cons.mp hx with rfl | hx
                            · exact Or.inr (by decide)
                            · rcases List.mem_cons.mp hx with rfl | hx
                              · exact Or.inr (by decide)
                              · exact Or.inr (hexPad_plain _ _ x hx)

theorem quoteRune_newline (isPrint : Char → Bool) : quoteRune isPrint '\n' = ['\\', 'n'] := rfl

theorem quoteRune_noNewline (isPrint : Char → Bool) (c : Char) :
    NoNewline (quoteRune isPrint c) := by
  intro x hx hn
  rcases quoteRune_chars isPrint c x hx with h | h
  · rw [← h, hn, quoteRune_newline] at hx
    subst hn
    simp at hx
  · exact h.2.2 hn

theorem quoteRune_noBrace (isPrint : Char → Bool) (c : Char) (h1 : c ≠ '{') (h2 : c ≠ '}') :
    NoBrace (quoteRune isPrint c) := by
  intro x hx
  rcases quoteRune_chars isPrint c x hx with h | h
  · rw [h]; exact ⟨h1, h2⟩
  · exact ⟨h.1, h.2.1⟩

theorem fmtQuote_data (isPrint : Char → Bool) (s : String) :
    (fmtQuote isPrint s).data = '"' :: (s.data.flatMap (quoteRune isPrint) ++ ['"']) := rfl

theorem fmtQuote_noNewline (isPrint : Char → Bool) (s : String) :
    NoNewline (fmtQuote isPrint s).data := by
  intro x hx
  rw [fmtQuote_data] at hx
  simp only [List.mem_cons, List.mem_append, List.mem_flatMap, List.mem_singleton,
    List.not_mem_nil, or_false] at hx
  rcases hx with rfl | ⟨c, _, hc⟩ | rfl
  · decide
  · exact quoteRune_noNewline isPrint c x hc
  · decide

theorem braceScan_shift : ∀ (l : List Char) (d e : Nat), braceScan l d = some e →
    ∀ k : Nat, braceScan l (d + k) = some (e + k)
  | [], d, e, h, k => by
    simp only [braceScan, Option.some.injEq] at h ⊢
    omega
  | c :: cs, d, e, h, k => by
    by_cases hc : c = '{'
    · simp only [braceScan, hc, if_true] at h ⊢
      have := braceScan_shift cs (d + 1) e h k
      rwa [show d + 1 + k = d + k + 1 by omega] at this
    · by_cases hc2 : c = '}'
      · cases d with
        | zero => simp [braceScan, hc, hc2] at h
        | succ d =>
          simp only [braceScan, hc, hc2, if_true, if_false] at h
          have := braceScan_shift cs d e h k
          rw [show d + 1 + k = d + k + 1 by omega]
          simp only [braceScan, hc, hc2, if_true, if_false]
          exact this
      · simp only [braceScan, hc, hc2, if_false] at h ⊢
        exact braceScan_shift cs d e h k

theorem balanced_of_pairedText {s : String} (h : pairedText s = true) : Balanced s.data := by
  intro d
  have h0 : braceScan s.data 0 = some 0 := by simpa [pairedText] using h
  simpa using braceScan_shift s.data 0 0 h0 d

theorem noNewline_of_lineText {s : String} (h : lineText s = true) : NoNewline s.data := by
  intro c hc
  have := List.all_eq_true.mp h c hc
  simpa using this

theorem braceScan_noBrace {a : List Char} (ha : NoBrace a) (b : List Char) (d : Nat) :
    braceScan (a ++ b) d = braceScan b d := by
  rw [braceScan_append, balanced_of_noBrace ha d]
  rfl

theorem braceScan_quote (isPrint : Char → Bool) : ∀ (l : List Char) (d : Nat),
    braceScan (l.flatMap (quoteRune isPrint)) d = braceScan l d
  | [], _ => rfl
  | c :: cs, d => by
    rw [List.flatMap_cons]
    by_cases h1 : c = '{'
    · subst h1
      show braceScan ('{' :: cs.flatMap (quoteRune isPrint)) d = _
      simp only [braceScan, if_true]
      exact braceScan_quote isPrint cs (d + 1)
    · by_cases h2 : c = '}'
      · subst h2
        show braceScan ('}' :: cs.flatMap (quoteRune isPrint)) d = _
        cases d with
        | zero => simp [braceScan]
        | succ d =>
          simp only [braceScan, if_true]
          rw [if_neg (by decide)]
          exact braceScan_quote isPrint cs d
      · rw [braceScan_noBrace (quoteRune_noBrace isPrint c h1 h2), braceScan_quote isPrint cs d]
        simp only [braceScan, h1, h2, if_false]

theorem fmtQuote_balanced (isPrint : Char → Bool) (s : String) (h : Balanced s.data) :
    Balanced (fmtQuote isPrint s).data := by
  intro d
  rw [fmtQuote_data]
  show braceScan (['"'] ++ (s.data.flatMap (quoteRune isPrint) ++ ['"'])) d = some d
  rw [braceScan_noBrace (by intro c hc; simp at hc; subst hc; decide), braceScan_append,
    braceScan_quote, h d]
  rfl

theorem typeName_noNewline : ∀ t : Ty, cleanTy lineText t = true → NoNewline (typeName t).data
  | .array n e, h => by
    have ih := typeName_noNewline e (by simpa [cleanTy] using h)
    show NoNewline ("[" ++ toString n ++ "]" ++ typeName e).data
    simp only [String.data_append]
    exact (NoNewline.glue (NoNewline.glue (by intro c hc; simp at hc; subst hc; decide)
      (natText_plain n).noNewline) (by intro c hc; simp at hc; subst hc; decide)).glue ih
  | .map k e, h => by
    have hk : cleanTy lineText k = true ∧ cleanTy lineText e = true := by simpa [cleanTy] using h
    have ih1 := typeName_noNewline k hk.1
    have ih2 := typeName_noNewline e hk.2
    show NoNewline ("map[" ++ typeName k ++ "]" ++ typeName e).data
    simp only [String.data_append]
    exact (NoNewline.glue (NoNewline.glue
      (by intro c hc; simp at hc; rcases hc with rfl | rfl | rfl | rfl <;> decide) ih1)
      (by intro c hc; simp at hc; subst hc; decide)).glue ih2
  | .ptr e, h => by
    have ih := typeName_noNewline e (by simpa [cleanTy] using h)
    show NoNewline ("*" ++ typeName e).data
    simp only [String.data_append]
    exact NoNewline.glue (by intro c hc; simp at hc; subst hc; decide) ih
  | .slice e, h => by
    have ih := typeName_noNewline e (by simpa [cleanTy] using h)
    show NoNewline ("[]" ++ typeName e).data
    simp only [String.data_append]
    exact NoNewline.glue (by intro c hc; simp at hc; rcases hc with rfl | rfl <;> decide) ih
  | .struct name, h => by
    show NoNewline (if name = "" then "(anonymous struct)" else name).data
    split
    · intro c hc
      have : ("(anonymous struct)" : String).data.all (fun c => c != '\n') = true := by decide
      simpa using List.all_eq_true.mp this c hc
    · exact noNewline_of_lineText (by simpa [cleanTy] using h)
  | .interface, _ => by
    intro c hc
    have : (typeName .interface).data.all (fun c => c != '\n') = true := by decide
    simpa using List.all_eq_true.mp this c hc
  | .basic b d, _ => (kindString_plain _).noNewline
  | .chan e, _ => (kindString_plain _).noNewline
  | .func, _ => (kindString_plain _).noNewline

theorem typeName_balanced : ∀ t : Ty, cleanTy pairedText t = true → Balanced (typeName t).data
  | .array n e, h => by
    have ih := typeName_balanced e (by simpa [cleanTy] using h)
    show Balanced ("[" ++ toString n ++ "]" ++ typeName e).data
    simp only [String.data_append]
    exact (Balanced.append (Balanced.append (balanced_of_noBrace
      (by intro c hc; simp at hc; subst hc; decide))
      (natText_plain n).balanced) (balanced_of_noBrace
        (by intro c hc; simp at hc; subst hc; decide))).append ih
  | .map k e, h => by
    have hk : cleanTy pairedText k = true ∧ cleanTy pairedText e = true := by simpa [cleanTy] using h
    have ih1 := typeName_balanced k hk.1
    have ih2 := typeName_balanced e hk.2
    show Balanced ("map[" ++ typeName k ++ "]" ++ typeName e).data
    simp only [String.data_append]
    exact (Balanced.append (Balanced.append (balanced_of_noBrace
      (by intro c hc; simp at hc; rcases hc with rfl | rfl | rfl | rfl <;> decide)) ih1)
      (balanced_of_noBrace (by intro c hc; simp at hc; subst hc; decide))).append ih2
  | .ptr e, h => by
    have ih := typeName_balanced e (by simpa [cleanTy] using h)
    show Balanced ("*" ++ typeName e).data
    simp only [String.data_append]
    exact Balanced.append (balanced_of_noBrace
      (by intro c hc; simp at hc; subst hc; decide)) ih
  | .slice e, h => by
    have ih := typeName_balanced e (by simpa [cleanTy] using h)
    show Balanced ("[]" ++ typeName e).data
    simp only [String.data_append]
    exact Balanced.append (balanced_of_noBrace
      (by intro c hc; simp at hc; rcases hc with rfl | rfl <;> decide)) ih
  | .struct name, h => by
    show Balanced (if name = "" then "(anonymous struct)" else name).data
    split
    · apply balanced_of_noBrace
      intro c hc
      have : ("(anonymous struct)" : String).data.all (fun c => c != '{' && c != '}') = true := by
        decide
      simpa using List.all_eq_true.mp this c hc
    · exact balanced_of_pairedText (by simpa [cleanTy] using h)
  | .interface, _ => by
    intro d
    rfl
  | .basic b d, _ => (kindString_plain _).balanced
  | .chan e, _ => (kindString_plain _).balanced
  | .func, _ => (kindString_plain _).balanced

/-! ## Values and the texts written from them as they stand -/

theorem allRendered_node (P : Value → Bool) (v : Value) (h : allRendered P v = true) :
    P v = true := by
  cases v with
  | slice t elems => cases elems <;> simp [allRendered] at h <;> simp [h]
  | map k t kvs => cases kvs <;> simp [allRendered] at h <;> simp [h]
  | ptr t w => cases w <;> simp [allRendered] at h <;> simp [h]
  | array t elems => simp [allRendered] at h; simp [h]
  | struct name fields => simp [allRendered] at h; simp [h]
  | _ => simpa [allRendered] using h

theorem allValues_iff (P : Value → Bool) : ∀ l : List Value,
    allValues P l = true ↔ ∀ e ∈ l, allRendered P e = true
  | [] => by simp [allValues]
  | v :: vs => by simp [allValues, allValues_iff P vs]

theorem allPairs_iff (P : Value → Bool) : ∀ l : List (Value × Value),
    allPairs P l = true ↔ ∀ kv ∈ l, allRendered P kv.1 = true ∧ allRendered P kv.2 = true
  | [] => by simp [allPairs]
  | (k, e) :: rest => by simp [allPairs, allPairs_iff P rest, and_assoc]

theorem allFields_iff (P : Value → Bool) : ∀ l : List (StructField × Value),
    allFields P l = true ↔ ∀ fv ∈ l, fv.1.PkgPath = "" → allRendered P fv.2 = true
  | [] => by simp [allFields]
  | (f, v) :: rest => by
    simp only [allFields, Bool.and_eq_true, Bool.or_eq_true, bne_iff_ne, ne_eq,
      allFields_iff P rest, List.mem_cons, forall_eq_or_imp]
    constructor
    · rintro ⟨h1, h2⟩
      exact ⟨fun hf => h1.resolve_left (fun hn => hn hf), h2⟩
    · rintro ⟨h1, h2⟩
      refine ⟨?_, h2⟩
      by_cases hf : f.PkgPath = ""
      · exact Or.inr (h1 hf)
      · exact Or.inl hf

theorem cleanTy_typeOf {ok : String → Bool} {v : Value} {t : Ty}
    (hw : namesNode ok v = true) (ht : TypeOf v = some t) : cleanTy ok t = true := by
  cases v <;> simp only [TypeOf, Option.some.injEq, reduceCtorEq] at ht <;> subst ht <;>
    simp_all [namesNode, cleanTy]

theorem annotate_balanced {declared : Ty} {child : Value} {ann : String}
    (hw : Names pairedText child = true) (h : annotate declared child = some ann) :
    Balanced ann.data := by
  have hn := allRendered_node _ _ hw
  unfold annotate at h
  split at h
  · split at h
    · simp at h
    · rename_i t ht
      have hc := cleanTy_typeOf hn ht
      split at h
      · simp only [Option.some.injEq] at h
        subst h
        simp only [String.data_append]
        exact (Balanced.append (Balanced.append (balanced_of_noBrace
            (by intro c hc; simp at hc; subst hc; decide)) (typeName_balanced t hc))
            (balanced_of_noBrace (by intro c hc; simp at hc; subst hc; decide)))
      · simp only [Option.some.injEq] at h
        subst h
        exact balanced_nil
  · simp only [Option.some.injEq] at h
    subst h
    exact balanced_nil

theorem annotate_noNewline {declared : Ty} {child : Value} {ann : String}
    (hw : Names lineText child = true) (h : annotate declared child = some ann) :
    NoNewline ann.data := by
  have hn := allRendered_node _ _ hw
  unfold annotate at h
  split at h
  · split at h
    · simp at h
    · rename_i t ht
      have hc := cleanTy_typeOf hn ht
      split at h
      · simp only [Option.some.injEq] at h
        subst h
        simp only [String.data_append]
        exact (NoNewline.glue (NoNewline.glue (by intro c hc; simp at hc; subst hc; decide)
            (typeName_noNewline t hc)) (by intro c hc; simp at hc; subst hc; decide))
      · simp only [Option.some.injEq] at h
        subst h
        exact fun _ hc => absurd hc (List.not_mem_nil _)
  · simp only [Option.some.injEq] at h
    subst h
    exact fun _ hc => absurd hc (List.not_mem_nil _)

theorem stringsRepeat_plain {n : Int} {sp : String} (h : stringsRepeat " " n = some sp) :
    Plain sp.data := by
  unfold stringsRepeat at h
  split at h
  · simp at h
  · simp only [Option.some.injEq] at h
    subst h
    exact repeatString_plain _

theorem balanced_lineEnd : Balanced (",\n" : String).data := fun _ => rfl

theorem balanced_colon : Balanced (": " : String).data := fun _ => rfl

theorem balanced_newline : Balanced ("\n" : String).data := fun _ => rfl

theorem wf_array {ok : String → Bool} {t : Ty} {elems : List Value} (h : Names ok (.array t elems) = true) :
    cleanTy ok t = true ∧ ∀ e ∈ elems, Names ok e = true := by
  simp only [Names, allRendered, Bool.and_eq_true, namesNode, allValues_iff] at h
  exact h

theorem wf_slice {ok : String → Bool} {t : Ty} {elems : Option (List Value)}
    (h : Names ok (.slice t elems) = true) :
    cleanTy ok t = true ∧ ∀ l, elems = some l → ∀ e ∈ l, Names ok e = true := by
  cases elems with
  | none =>
    simp only [Names, allRendered, namesNode] at h
    exact ⟨h, fun l hl => by simp at hl⟩
  | some l =>
    simp only [Names, allRendered, Bool.and_eq_true, namesNode, allValues_iff] at h
    exact ⟨h.1, fun l2 hl => by cases hl; exact h.2⟩

theorem wf_map {ok : String → Bool} {k t : Ty} {kvs : Option (List (Value × Value))}
    (h : Names ok (.map k t kvs) = true) :
    (cleanTy ok k = true ∧ cleanTy ok t = true) ∧
      ∀ l, kvs = some l → ∀ kv ∈ l, Names ok kv.1 = true ∧ Names ok kv.2 = true := by
  cases kvs with
  | none =>
    simp only [Names, allRendered, namesNode, Bool.and_eq_true] at h
    exact ⟨h, fun l hl => by simp at hl⟩
  | some l =>
    simp only [Names, allRendered, Bool.and_eq_true, namesNode, allPairs_iff] at h
    exact ⟨h.1, fun l2 hl => by cases hl; exact h.2⟩

theorem wf_ptr {ok : String → Bool} {t : Ty} {w : Value} (h : Names ok (.ptr t (some w)) = true) :
    cleanTy ok t = true ∧ Names ok w = true := by
  simp only [Names, allRendered, Bool.and_eq_true, namesNode] at h
  exact h

theorem wf_struct {ok : String → Bool} {name : String} {fields : List (StructField × Value)}
    (h : Names ok (.struct name fields) = true) :
    ok name = true ∧
      ∀ fv ∈ fields, fv.1.PkgPath = "" → ok fv.1.Name = true ∧ Names ok fv.2 = true := by
  simp only [Names, allRendered, Bool.and_eq_true, namesNode, allFields_iff,
    List.all_eq_true, Bool.or_eq_true, bne_iff_ne, ne_eq] at h
  refine ⟨h.1.1, fun fv hfv hpk => ⟨?_, h.2 fv hfv hpk⟩⟩
  exact (h.1.2 fv hfv).resolve_left (fun hn => hn hpk)

theorem bf_array {t : Ty} {elems : List Value} (h : PairedStrings (.array t elems) = true) :
    ∀ e ∈ elems, PairedStrings e = true := by
  simp only [PairedStrings, allRendered, Bool.and_eq_true, pairedNode, allValues_iff] at h
  exact h.2

theorem bf_slice {t : Ty} {l : List Value} (h : PairedStrings (.slice t (some l)) = true) :
    ∀ e ∈ l, PairedStrings e = true := by
  simp only [PairedStrings, allRendered, Bool.and_eq_true, pairedNode, allValues_iff] at h
  exact h.2

theorem bf_map {k t : Ty} {l : List (Value × Value)}
    (h : PairedStrings (.map k t (some l)) = true) :
    ∀ kv ∈ l, PairedStrings kv.1 = true ∧ PairedStrings kv.2 = true := by
  simp only [PairedStrings, allRendered, Bool.and_eq_true, pairedNode, allPairs_iff] at h
  exact h.2

theorem bf_ptr {t : Ty} {w : Value} (h : PairedStrings (.ptr t (some w)) = true) :
    PairedStrings w = true := by
  simp only [PairedStrings, allRendered, Bool.and_eq_true, pairedNode] at h
  exact h.2

theorem bf_struct {name : String} {fields : List (StructField × Value)}
    (h : PairedStrings (.struct name fields) = true) :
    ∀ fv ∈ fields, fv.1.PkgPath = "" → PairedStrings fv.2 = true := by
  simp only [PairedStrings, allRendered, Bool.and_eq_true, pairedNode, allFields_iff] at h
  exact h.2

/-! ## Closed fragments -/

theorem arrayLoop_opened (lib : Library) (elemType : Ty) (p : Int) :
    ∀ (elems : List Value) (buffer result : String),
      (∀ e ∈ elems, Names pairedText e = true ∧
        ∀ q s, formatPadded lib e q = .ret s none → Balanced s.data) →
      Opened buffer.data →
      arrayLoop lib elemType p elems buffer = .next result → Opened result.data := by
  intro elems
  induction elems with
  | nil =>
    intro buffer result _ hb h
    simp only [arrayLoop, Loop.next.injEq] at h
    exact h ▸ hb
  | cons e es ih =>
    intro buffer result hall hb h
    obtain ⟨hw, hg⟩ := hall e (List.mem_cons_self _ _)
    rw [arrayLoop] at h
    split at h
    · simp at h
    · simp at h
    · rename_i text hf
      split at h
      · simp at h
      · rename_i sp hsp
        split at h
        · simp at h
        · rename_i ann ha
          refine ih _ _ (fun x hx => hall x (List.mem_cons_of_mem _ hx)) ?_ h
          simp only [String.data_append]
          exact (hb.extend (stringsRepeat_plain hsp).balanced).extend
            (((annotate_balanced hw ha).append (hg _ _ hf)).append balanced_lineEnd)

theorem sliceLoop_opened (lib : Library) (elemType : Ty) (p : Int) :
    ∀ (elems : List Value) (buffer result : String),
      (∀ e ∈ elems, Names pairedText e = true ∧
        ∀ q s, formatPadded lib e q = .ret s none → Balanced s.data) →
      Opened buffer.data →
      sliceLoop lib elemType p elems buffer = .next result → Opened result.data := by
  intro elems
  induction elems with
  | nil =>
    intro buffer result _ hb h
    simp only [sliceLoop, Loop.next.injEq] at h
    exact h ▸ hb
  | cons e es ih =>
    intro buffer result hall hb h
    obtain ⟨hw, hg⟩ := hall e (List.mem_cons_self _ _)
    rw [sliceLoop] at h
    split at h
    · simp at h
    · simp at h
    · rename_i text hf
      split at h
      · simp at h
      · rename_i sp hsp
        split at h
        · simp at h
        · rename_i ann ha
          refine ih _ _ (fun x hx => hall x (List.mem_cons_of_mem _ hx)) ?_ h
          simp only [String.data_append]
          exact (hb.extend (stringsRepeat_plain hsp).balanced).extend
            (((annotate_balanced hw ha).append (hg _ _ hf)).append balanced_lineEnd)

/-- The four texts of the entry have their braces paired. -/
theorem mapLoop_entries (lib : Library) (keyType elemType : Ty) (p : Int) :
    ∀ (kvs : List (Value × Value)) (entries result : List mapEntry),
      (∀ kv ∈ kvs, (Names pairedText kv.1 = true ∧
          ∀ q s, formatPadded lib kv.1 q = .ret s none → Balanced s.data) ∧
        (Names pairedText kv.2 = true ∧
          ∀ q s, formatPadded lib kv.2 q = .ret s none → Balanced s.data)) →
      (∀ e ∈ entries, Balanced e.key.data ∧ Balanced e.keyType.data ∧
        Balanced e.elem.data ∧ Balanced e.elemType.data) →
      mapLoop lib keyType elemType p kvs entries = .next result →
      ∀ e ∈ result, Balanced e.key.data ∧ Balanced e.keyType.data ∧
        Balanced e.elem.data ∧ Balanced e.elemType.data := by
  intro kvs
  induction kvs with
  | nil =>
    intro entries result _ he h
    simp only [mapLoop, Loop.next.injEq] at h
    exact h ▸ he
  | cons kv rest ih =>
    intro entries result hall he h
    obtain ⟨k, v⟩ := kv
    obtain ⟨⟨hwk, hgk⟩, ⟨hwv, hgv⟩⟩ := hall (k, v) (List.mem_cons_self _ _)
    rw [mapLoop] at h
    split at h
    · simp at h
    · simp at h
    · rename_i ktext hk
      split at h
      · simp at h
      · rename_i kann hka
        split at h
        · simp at h
        · split at h
          · simp at h
          · simp at h
          · rename_i vtext hv
            split at h
            · simp at h
            · rename_i vann hva
              refine ih _ _ (fun x hx => hall x (List.mem_cons_of_mem _ hx)) ?_ h
              intro e hmem
              rcases List.mem_append.mp hmem with hmem | hmem
              · exact he e hmem
              · rw [List.mem_singleton.mp hmem]
                exact ⟨hgk _ _ hk, (annotate_balanced hwk hka), hgv _ _ hv,
                  (annotate_balanced hwv hva)⟩

theorem mapEmit_opened (p : Int) : ∀ (es : List mapEntry) (buffer result : String),
    (∀ e ∈ es, Balanced e.key.data ∧ Balanced e.keyType.data ∧
      Balanced e.elem.data ∧ Balanced e.elemType.data) →
    Opened buffer.data → mapEmit p es buffer = some result → Opened result.data
  | [], buffer, result, _, hb, h => by
    simp only [mapEmit, Option.some.injEq] at h
    exact h ▸ hb
  | e :: es, buffer, result, hall, hb, h => by
    obtain ⟨h1, h2, h3, h4⟩ := hall e (List.mem_cons_self _ _)
    rw [mapEmit] at h
    split at h
    · simp at h
    · rename_i sp hsp
      refine mapEmit_opened p es _ _ (fun x hx => hall x (List.mem_cons_of_mem _ hx)) ?_ h
      simp only [String.data_append]
      exact hb.extend ((((((stringsRepeat_plain hsp).balanced.append h2).append h1).append
        balanced_colon).append h4).append h3 |>.append balanced_lineEnd)

theorem structLoop_opened (lib : Library) (p : Int) :
    ∀ (fields : List (StructField × Value)) (state result : String × Bool),
      (∀ fv ∈ fields, fv.1.PkgPath = "" → pairedText fv.1.Name = true ∧
        Names pairedText fv.2 = true ∧
        ∀ q s, formatPadded lib fv.2 q = .ret s none → Balanced s.data) →
      Opened state.1.data →
      structLoop lib p fields state = .next result → Opened result.1.data := by
  intro fields
  induction fields with
  | nil =>
    intro state result _ hb h
    simp only [structLoop, Loop.next.injEq] at h
    exact h ▸ hb
  | cons fv rest ih =>
    intro state result hall hb h
    obtain ⟨f, v⟩ := fv
    obtain ⟨buffer, has⟩ := state
    rw [structLoop] at h
    split at h
    · exact ih _ _ (fun x hx => hall x (List.mem_cons_of_mem _ hx)) hb h
    · rename_i hpk
      have hpk2 : f.PkgPath = "" := by simpa using hpk
      obtain ⟨hname, hw, hg⟩ := hall (f, v) (List.mem_cons_self _ _) hpk2
      split at h
      · simp at h
      · rename_i sp hsp
        split at h
        · simp at h
        · simp at h
        · rename_i text hf
          split at h
          · simp at h
          · rename_i ann ha
            refine ih _ _ (fun x hx => hall x (List.mem_cons_of_mem _ hx)) ?_ h
            have hb2 : Opened (if has = true then buffer else buffer ++ "\n").data := by
              split
              · exact hb
              · rw [String.data_append]
                exact Opened.extend hb balanced_newline
            simp only [String.data_append]
            exact (hb2.extend (stringsRepeat_plain hsp).balanced).extend
              (((((balanced_of_pairedText hname).append balanced_colon).append
                (annotate_balanced hw ha)).append (hg _ _ hf)).append balanced_lineEnd)

theorem opened_header {h : String} (hb : Balanced h.data) : Opened (h ++ "\x7b").data := by
  rw [String.data_append]
  exact hb.opened opened_brace

theorem opened_header_line {h : String} (hb : Balanced h.data) :
    Opened (h ++ "\x7b" ++ "\n").data := by
  rw [String.data_append]
  exact (opened_header hb).extend balanced_newline

theorem balanced_closing {buffer sp : String} {n : Int} (hb : Opened buffer.data)
    (hsp : stringsRepeat " " n = some sp) : Balanced (buffer ++ sp ++ "\x7d").data := by
  simp only [String.data_append]
  exact (hb.extend (stringsRepeat_plain hsp).balanced).close

/-- When the braces pair up within every text written from the value as it
stands, what `formatPadded` returns without error has its braces paired. -/
theorem formatPadded_balanced (lib : Library) (hlib : lib.Lawful) :
    ∀ v : Value, Names pairedText v = true → PairedStrings v = true →
      ∀ (p : Int) (s : String), formatPadded lib v p = .ret s none → Balanced s.data := by
  intro v
  induction v using value_induction with
  | absent => intro _ _ p s h; simp [formatPadded] at h
  | bool d b =>
    intro _ _ p s h
    cases d <;> simp [formatPadded, formatBool] at h
    exact h ▸ (fmtBool_plain b).balanced
  | int k d n =>
    intro _ _ p s h
    cases d <;> simp [formatPadded, formatInteger] at h
    exact h ▸ (fmtInt_plain n).balanced
  | uintptr d n => intro _ _ p s h; simp [formatPadded, formatUintptr] at h
  | float k d x =>
    intro hw _ p s h
    cases d <;> simp [formatPadded, formatFloat] at h
    have hx : pairedText x = true := by simpa [Names, allRendered, namesNode] using hw
    exact h ▸ balanced_of_pairedText hx
  | string d x =>
    intro _ hb p s h
    cases d <;> simp [formatPadded, formatString] at h
    have hx : pairedText x = true := by
      simpa [PairedStrings, allRendered, pairedNode] using hb
    exact h ▸ fmtQuote_balanced lib.isPrint x (balanced_of_pairedText hx)
  | unsafePointer d a => intro _ _ p s h; simp [formatPadded, formatUnsafePointer] at h
  | chan t => intro _ _ p s h; simp [formatPadded, formatChan] at h
  | func => intro _ _ p s h; simp [formatPadded, formatFunc] at h
  | array t elems ih =>
    intro hw hb p s h
    obtain ⟨ht, hwe⟩ := wf_array hw
    have hbe := bf_array hb
    rw [formatPadded] at h
    split at h
    · simp at h
    · rename_i text err hl
      have := (arrayLoop_exit lib t p _ _ _ _ hl).2
      simp only [Result.ret.injEq] at h
      exact absurd h.2 this
    · rename_i buffer hl
      split at h
      · simp at h
      · rename_i sp hsp
        simp only [Result.ret.injEq, and_true] at h
        subst h
        refine balanced_closing (arrayLoop_opened lib t p elems _ _
          (fun e he => ⟨hwe e he, ih e he (hwe e he) (hbe e he)⟩) ?_ hl) hsp
        exact opened_header_line (typeName_balanced (.array elems.length t) ht)
  | sliceNil t =>
    intro hw _ p s h
    simp only [formatPadded, Result.ret.injEq, and_true] at h
    subst h
    rw [String.data_append]
    exact (opened_header (typeName_balanced (.slice t) (wf_slice hw).1)).close
  | slice t elems ih =>
    intro hw hb p s h
    obtain ⟨ht, hwe⟩ := wf_slice hw
    cases elems with
    | nil =>
      simp only [formatPadded, Result.ret.injEq, and_true] at h
      subst h
      rw [String.data_append]
      exact (opened_header (typeName_balanced (.slice t) ht)).close
    | cons x xs =>
      have hbe := bf_slice hb
      rw [formatPadded] at h
      split at h
      · simp at h
      · rename_i text err hl
        have := (sliceLoop_exit lib t p _ _ _ _ hl).2
        simp only [Result.ret.injEq] at h
        exact absurd h.2 this
      · rename_i buffer hl
        split at h
        · simp at h
        · rename_i sp hsp
          simp only [Result.ret.injEq, and_true] at h
          subst h
          refine balanced_closing (sliceLoop_opened lib t p (x :: xs) _ _
            (fun e he => ⟨hwe _ rfl e he, ih e he (hwe _ rfl e he) (hbe e he)⟩) ?_ hl) hsp
          exact opened_header_line (typeName_balanced (.slice t) ht)
  | mapNil k t =>
    intro hw _ p s h
    simp only [formatPadded, Result.ret.injEq, and_true] at h
    subst h
    rw [String.data_append]
    exact (opened_header (typeName_balanced (.map k t)
      (by simpa [cleanTy] using (wf_map hw).1))).close
  | map k t entries ih =>
    intro hw hb p s h
    obtain ⟨ht, hwe⟩ := wf_map hw
    have htm : cleanTy pairedText (.map k t) = true := by simpa [cleanTy] using ht
    cases entries with
    | nil =>
      simp only [formatPadded, Result.ret.injEq, and_true] at h
      subst h
      rw [String.data_append]
      exact (opened_header (typeName_balanced (.map k t) htm)).close
    | cons x xs =>
      have hbe := bf_map hb
      rw [formatPadded] at h
      split at h
      · simp at h
      · rename_i text err hl
        have := (mapLoop_exit lib k t p _ _ _ _ hl).2
        simp only [Result.ret.injEq] at h
        exact absurd h.2 this
      · rename_i es hl
        have hes := mapLoop_entries lib k t p (x :: xs) [] es
          (fun kv hkv => ⟨⟨(hwe _ rfl kv hkv).1,
              (ih kv hkv).1 (hwe _ rfl kv hkv).1 (hbe kv hkv).1⟩,
            ⟨(hwe _ rfl kv hkv).2, (ih kv hkv).2 (hwe _ rfl kv hkv).2 (hbe kv hkv).2⟩⟩)
          (fun e he => absurd he (List.not_mem_nil _)) hl
        split at h
        · simp at h
        · rename_i buffer hm
          split at h
          · simp at h
          · rename_i sp hsp
            simp only [Result.ret.injEq, and_true] at h
            subst h
            refine balanced_closing (mapEmit_opened p _ _ _
              (fun e he => hes e ((sortSort_perm hlib es).mem_iff.mp he)) ?_ hm) hsp
            exact opened_header_line (typeName_balanced (.map k t) htm)
  | ptrNil t =>
    intro _ _ p s h
    simp only [formatPadded, Result.ret.injEq, and_true] at h
    subst h
    exact fun _ => rfl
  | ptr t w ih =>
    intro hw hb p s h
    rw [formatPadded] at h
    split at h
    · simp at h
    · simp only [Result.ret.injEq, and_true] at h
      subst h
      exact balanced_nil
    · rename_i text hf
      simp only [Result.ret.injEq, and_true] at h
      subst h
      rw [String.data_append]
      exact Balanced.append (fun _ => rfl) (ih (wf_ptr hw).2 (bf_ptr hb) p _ hf)
  | struct name fields ih =>
    intro hw hb p s h
    obtain ⟨hn, hwf⟩ := wf_struct hw
    have hbf := bf_struct hb
    have hopen : Opened (typeName (.struct name) ++ "\x7b").data :=
      opened_header (typeName_balanced (.struct name) (by simpa [cleanTy] using hn))
    rw [formatPadded] at h
    split at h
    · simp at h
    · rename_i text err hl
      have := (structLoop_exit lib p _ _ _ _ hl).2
      simp only [Result.ret.injEq] at h
      exact absurd h.2 this
    · rename_i buffer has hl
      have hres := structLoop_opened lib p fields _ _
        (fun fv hfv hpk => ⟨(hwf fv hfv hpk).1, (hwf fv hfv hpk).2,
          ih fv hfv (hwf fv hfv hpk).2 (hbf fv hfv hpk)⟩) hopen hl
      split at h
      · split at h
        · simp at h
        · rename_i sp hsp
          simp only [Result.ret.injEq, and_true] at h
          subst h
          exact balanced_closing hres hsp
      · simp only [Result.ret.injEq, and_true] at h
        subst h
        rw [String.data_append]
        exact Opened.close hres

/-! ## Texts: indentation -/

theorem indentMore_append : ∀ a b : List Char,
    indentMore (a ++ b) = indentMore a ++ indentMore b
  | [], _ => rfl
  | c :: cs, b => by
    simp only [List.cons_append, indentMore]
    split <;> simp [indentMore_append cs b]

theorem indentMore_noNewline : ∀ l : List Char, NoNewline l → indentMore l = l
  | [], _ => rfl
  | c :: cs, h => by
    have hc : c ≠ '\n' := h c (List.mem_cons_self _ _)
    simp only [indentMore, hc, if_false]
    rw [indentMore_noNewline cs (fun x hx => h x (List.mem_cons_of_mem _ hx))]

theorem toNat_ne {a b : Char} (h : a ≠ b) : a.toNat ≠ b.toNat := by
  intro hn
  apply h
  apply Char.ext
  apply UInt32.ext
  exact hn

theorem stringLess_cons_ne {a b : Char} (h : a ≠ b) (as bs as2 bs2 : List Char) :
    stringLess (a :: as) (b :: bs) = stringLess (a :: as2) (b :: bs2) := by
  have hn := toNat_ne h
  simp only [stringLess]
  by_cases h1 : a.toNat < b.toNat
  · simp [h1]
  · have h2 : b.toNat < a.toNat := by omega
    simp [h1, h2]

theorem stringLess_cons_same (a : Char) (as bs : List Char) :
    stringLess (a :: as) (a :: bs) = stringLess as bs := by
  simp [stringLess]

/-- Putting two spaces after every newline of two texts does not change which
of them is less. -/
theorem stringLess_indentMore : ∀ a b : List Char,
    stringLess (indentMore a) (indentMore b) = stringLess a b
  | [], [] => rfl
  | [], b :: bs => by
    simp only [indentMore]
    split <;> rfl
  | a :: as, [] => by
    simp only [indentMore]
    split <;> rfl
  | a :: as, b :: bs => by
    have ih := stringLess_indentMore as bs
    by_cases hab : a = b
    · subst hab
      simp only [indentMore]
      split
      · simp only [stringLess_cons_same, ih]
      · simp only [stringLess_cons_same, ih]
    · simp only [indentMore]
      split
      · rename_i ha
        split
        · rename_i hb
          exact absurd (ha.trans hb.symm) hab
        · exact stringLess_cons_ne (ha ▸ hab) _ _ _ _ |>.trans (by rw [ha])
      · split
        · rename_i hb
          exact stringLess_cons_ne (hb ▸ hab) _ _ _ _ |>.trans (by rw [hb])
        · exact stringLess_cons_ne hab _ _ _ _

theorem indentText_append (a b : String) :
    indentText (a ++ b) = indentText a ++ indentText b := by
  apply String.ext
  simp [indentText, String.data_append, indentMore_append]

theorem indentText_noNewline {s : String} (h : NoNewline s.data) : indentText s = s := by
  apply String.ext
  simp [indentText, indentMore_noNewline _ h]

theorem indentText_empty : indentText "" = "" := rfl

theorem indentText_lineEnd : indentText ",\n" = ",\n" ++ "  " := by decide

theorem indentText_newline : indentText "\n" = "\n" ++ "  " := by decide

theorem indentEntry_less (a b : mapEntry) :
    mapEntries.Less (indentEntry a) (indentEntry b) = mapEntries.Less a b := by
  simp only [mapEntries.Less, indentEntry, indentText]
  exact stringLess_indentMore _ _

/-- Relabelling the entries without changing a comparison relabels the result
of `sort.Sort`. -/
theorem sortSort_map {lib : Library} (hlib : lib.Lawful) (f : mapEntry → mapEntry)
    (l : List mapEntry)
    (h : ∀ a ∈ l, ∀ b ∈ l, mapEntries.Less (f a) (f b) = mapEntries.Less a b) :
    sortSort lib (l.map f) = (sortSort lib l).map f := by
  unfold sortSort
  simp only [List.length_map]
  split
  · exact insertionSort_map f l h
  · exact hlib.natural f l h

theorem spaces_add_two {p : Int} (hp : 0 ≤ p) : spaces (p + 2) = "  " ++ spaces p := by
  unfold spaces
  have : (p + 2).toNat = p.toNat + 1 + 1 := by omega
  rw [this]
  show " " ++ (" " ++ repeatString " " p.toNat) = "  " ++ repeatString " " p.toNat
  rw [← String.append_assoc]
  rfl

theorem indentText_spaces (n : Int) : indentText (spaces n) = spaces n :=
  indentText_noNewline (spaces_plain n).noNewline

/-! ## Two spaces deeper -/

theorem padding_shift (p : Int) : p + 2 + paddingIncrement = p + paddingIncrement + 2 := by
  unfold paddingIncrement
  omega

theorem indentText_colon : indentText ": " = ": " := by decide

theorem line_indent {buffer buffer2 ann text : String} {p : Int} (hp : 0 ≤ p)
    (hb : indentText buffer = buffer2 ++ "  ") (ha : NoNewline ann.data) :
    indentText (buffer ++ spaces p ++ (ann ++ text ++ ",\n")) =
      buffer2 ++ spaces (p + 2) ++ (ann ++ indentText text ++ ",\n") ++ "  " := by
  simp only [indentText_append, hb, indentText_spaces, indentText_noNewline ha,
    indentText_lineEnd, spaces_add_two hp, String.append_assoc]

theorem arrayLoop_indent (lib : Library) (elemType : Ty) {p : Int} (hp : 0 ≤ p) :
    ∀ (elems : List Value) (buffer buffer2 : String),
      (∀ e ∈ elems, Names lineText e = true ∧
        formatPadded lib e (p + paddingIncrement + 2) =
          (formatPadded lib e (p + paddingIncrement)).indent) →
      indentText buffer = buffer2 ++ "  " →
      Loop.Rel (fun r r2 => indentText r = r2 ++ "  ")
        (arrayLoop lib elemType p elems buffer) (arrayLoop lib elemType (p + 2) elems buffer2) := by
  intro elems
  induction elems with
  | nil => intro buffer buffer2 _ hb; exact hb
  | cons e es ih =>
    intro buffer buffer2 hall hb
    obtain ⟨hw, hsh⟩ := hall e (List.mem_cons_self _ _)
    rw [arrayLoop, arrayLoop, padding_shift, hsh]
    cases hfe : formatPadded lib e (p + paddingIncrement) with
    | panic c => exact rfl
    | ret text err =>
      cases err with
      | some er => exact ⟨rfl, rfl⟩
      | none =>
        simp only [Result.indent, stringsRepeat_spaces hp,
          stringsRepeat_spaces (by omega : (0 : Int) ≤ p + 2)]
        cases ha : annotate elemType e with
        | none => exact rfl
        | some ann =>
          exact ih _ _ (fun x hx => hall x (List.mem_cons_of_mem _ hx))
            (line_indent hp hb (annotate_noNewline hw ha))

theorem sliceLoop_indent (lib : Library) (elemType : Ty) {p : Int} (hp : 0 ≤ p) :
    ∀ (elems : List Value) (buffer buffer2 : String),
      (∀ e ∈ elems, Names lineText e = true ∧
        formatPadded lib e (p + paddingIncrement + 2) =
          (formatPadded lib e (p + paddingIncrement)).indent) →
      indentText buffer = buffer2 ++ "  " →
      Loop.Rel (fun r r2 => indentText r = r2 ++ "  ")
        (sliceLoop lib elemType p elems buffer) (sliceLoop lib elemType (p + 2) elems buffer2) := by
  intro elems
  induction elems with
  | nil => intro buffer buffer2 _ hb; exact hb
  | cons e es ih =>
    intro buffer buffer2 hall hb
    obtain ⟨hw, hsh⟩ := hall e (List.mem_cons_self _ _)
    rw [sliceLoop, sliceLoop, padding_shift, hsh]
    cases hfe : formatPadded lib e (p + paddingIncrement) with
    | panic c => exact rfl
    | ret text err =>
      cases err with
      | some er => exact ⟨rfl, rfl⟩
      | none =>
        simp only [Result.indent, stringsRepeat_spaces hp,
          stringsRepeat_spaces (by omega : (0 : Int) ≤ p + 2)]
        cases ha : annotate elemType e with
        | none => exact rfl
        | some ann =>
          exact ih _ _ (fun x hx => hall x (List.mem_cons_of_mem _ hx))
            (line_indent hp hb (annotate_noNewline hw ha))

theorem mapLoop_indent (lib : Library) (keyType elemType : Ty) (p : Int) :
    ∀ (kvs : List (Value × Value)) (entries : List mapEntry),
      (∀ kv ∈ kvs,
        formatPadded lib kv.1 (p + paddingIncrement + 2) =
          (formatPadded lib kv.1 (p + paddingIncrement)).indent ∧
        formatPadded lib kv.2 (p + paddingIncrement + 2) =
          (formatPadded lib kv.2 (p + paddingIncrement)).indent) →
      Loop.Rel (fun r r2 => r2 = r.map indentEntry)
        (mapLoop lib keyType elemType p kvs entries)
        (mapLoop lib keyType elemType (p + 2) kvs (entries.map indentEntry)) := by
  intro kvs
  induction kvs with
  | nil => intro entries _; exact rfl
  | cons kv rest ih =>
    intro entries hall
    obtain ⟨k, v⟩ := kv
    obtain ⟨hk, hv⟩ := hall (k, v) (List.mem_cons_self _ _)
    simp only at hk hv
    rw [mapLoop, mapLoop, padding_shift, hk, hv]
    cases hfk : formatPadded lib k (p + paddingIncrement) with
    | panic c => exact rfl
    | ret ktext err =>
      cases err with
      | some er => exact ⟨rfl, rfl⟩
      | none =>
        simp only [Result.indent]
        cases hka : annotate keyType k with
        | none => exact rfl
        | some kann =>
          simp only
          cases hfound : mapIndexFinds k with
          | false => exact rfl
          | true =>
            simp only
            cases hfv : formatPadded lib v (p + paddingIncrement) with
            | panic c => exact rfl
            | ret vtext err =>
              cases err with
              | some er => exact ⟨rfl, rfl⟩
              | none =>
                simp only
                cases hva : annotate elemType v with
                | none => exact rfl
                | some vann =>
                  have := ih (entries ++ [⟨ktext, kann, vtext, vann⟩])
                    (fun x hx => hall x (List.mem_cons_of_mem _ hx))
                  simpa [indentEntry] using this

theorem mapLoop_annotations (lib : Library) (keyType elemType : Ty) (p : Int) :
    ∀ (kvs : List (Value × Value)) (entries result : List mapEntry),
      (∀ kv ∈ kvs, Names lineText kv.1 = true ∧ Names lineText kv.2 = true) →
      (∀ e ∈ entries, NoNewline e.keyType.data ∧ NoNewline e.elemType.data) →
      mapLoop lib keyType elemType p kvs entries = .next result →
      ∀ e ∈ result, NoNewline e.keyType.data ∧ NoNewline e.elemType.data := by
  intro kvs
  induction kvs with
  | nil =>
    intro entries result _ he h
    simp only [mapLoop, Loop.next.injEq] at h
    exact h ▸ he
  | cons kv rest ih =>
    intro entries result hall he h
    obtain ⟨k, v⟩ := kv
    obtain ⟨hwk, hwv⟩ := hall (k, v) (List.mem_cons_self _ _)
    rw [mapLoop] at h
    split at h
    · simp at h
    · simp at h
    · split at h
      · simp at h
      · rename_i kann hka
        split at h
        · simp at h
        · split at h
          · simp at h
          · simp at h
          · split at h
            · simp at h
            · rename_i vann hva
              refine ih _ _ (fun x hx => hall x (List.mem_cons_of_mem _ hx)) ?_ h
              intro e hmem
              rcases List.mem_append.mp hmem with hmem | hmem
              · exact he e hmem
              · rw [List.mem_singleton.mp hmem]
                exact ⟨(annotate_noNewline hwk hka), (annotate_noNewline hwv hva)⟩

theorem mapEmit_indent {p : Int} (hp : 0 ≤ p) : ∀ (es : List mapEntry) (buffer buffer2 : String),
    (∀ e ∈ es, NoNewline e.keyType.data ∧ NoNewline e.elemType.data) →
    indentText buffer = buffer2 ++ "  " →
    ∃ r r2, mapEmit p es buffer = some r ∧
      mapEmit (p + 2) (es.map indentEntry) buffer2 = some r2 ∧ indentText r = r2 ++ "  "
  | [], buffer, buffer2, _, hb => ⟨buffer, buffer2, rfl, rfl, hb⟩
  | e :: es, buffer, buffer2, hall, hb => by
    obtain ⟨h1, h2⟩ := hall e (List.mem_cons_self _ _)
    simp only [List.map_cons, mapEmit, stringsRepeat_spaces hp,
      stringsRepeat_spaces (by omega : (0 : Int) ≤ p + 2)]
    refine mapEmit_indent hp es _ _ (fun x hx => hall x (List.mem_cons_of_mem _ hx)) ?_
    simp only [indentEntry, indentText_append, hb, indentText_spaces, indentText_noNewline h1,
      indentText_noNewline h2, indentText_lineEnd, indentText_colon, spaces_add_two hp,
      String.append_assoc]

theorem structLoop_indent (lib : Library) {p : Int} (hp : 0 ≤ p) :
    ∀ (fields : List (StructField × Value)) (buffer buffer2 : String) (has : Bool),
      (∀ fv ∈ fields, fv.1.PkgPath = "" → lineText fv.1.Name = true ∧
        Names lineText fv.2 = true ∧
        formatPadded lib fv.2 (p + paddingIncrement + 2) =
          (formatPadded lib fv.2 (p + paddingIncrement)).indent) →
      (if has = true then indentText buffer = buffer2 ++ "  "
        else buffer2 = buffer ∧ indentText buffer = buffer) →
      Loop.Rel (fun r r2 => r2.2 = r.2 ∧
          if r.2 = true then indentText r.1 = r2.1 ++ "  "
          else r2.1 = r.1 ∧ indentText r.1 = r.1)
        (structLoop lib p fields (buffer, has)) (structLoop lib (p + 2) fields (buffer2, has)) := by
  intro fields
  induction fields with
  | nil => intro buffer buffer2 has _ hb; exact ⟨rfl, hb⟩
  | cons fv rest ih =>
    intro buffer buffer2 has hall hb
    obtain ⟨f, v⟩ := fv
    rw [structLoop, structLoop]
    by_cases hpk : f.PkgPath = ""
    · obtain ⟨hname, hw, hsh⟩ := hall (f, v) (List.mem_cons_self _ _) hpk
      simp only at hsh
      simp only [hpk, ne_eq, not_true_eq_false, if_false, stringsRepeat_spaces hp,
        stringsRepeat_spaces (by omega : (0 : Int) ≤ p + 2)]
      rw [padding_shift, hsh]
      cases hfe : formatPadded lib v (p + paddingIncrement) with
      | panic c => exact rfl
      | ret text err =>
        cases err with
        | some er => exact ⟨rfl, rfl⟩
        | none =>
          simp only [Result.indent]
          cases ha : annotate f.Typ v with
          | none => exact rfl
          | some ann =>
            refine ih _ _ true (fun x hx => hall x (List.mem_cons_of_mem _ hx)) ?_
            have hann := (annotate_noNewline hw ha)
            have hnm := (noNewline_of_lineText hname)
            cases has with
            | true =>
              simp only [if_true] at hb ⊢
              simp only [indentText_append, hb, indentText_spaces, indentText_noNewline hann,
                indentText_noNewline hnm, indentText_lineEnd, indentText_colon,
                spaces_add_two hp, String.append_assoc]
            | false =>
              simp only [Bool.false_eq_true, if_false, if_true] at hb ⊢
              simp only [indentText_append, hb.1, hb.2, indentText_spaces,
                indentText_noNewline hann, indentText_noNewline hnm, indentText_lineEnd,
                indentText_colon, indentText_newline, spaces_add_two hp, String.append_assoc]
    · simp only [ne_eq, hpk, not_false_eq_true, if_true]
      exact ih _ _ has (fun x hx => hall x (List.mem_cons_of_mem _ hx)) hb

theorem indentText_brace : indentText "\x7d" = "\x7d" := by decide

theorem header_noNewline {h : String} (hh : NoNewline h.data) : NoNewline (h ++ "\x7b").data := by
  rw [String.data_append]
  exact hh.glue (by intro c hc; simp at hc; subst hc; decide)

theorem header_indent {h : String} (hh : NoNewline h.data) :
    indentText (h ++ "\x7b" ++ "\n") = h ++ "\x7b" ++ "\n" ++ "  " := by
  rw [indentText_append, indentText_noNewline (header_noNewline hh), indentText_newline]
  simp only [String.append_assoc]

theorem closing_indent {r r2 : String} {p : Int} (hp : 2 ≤ p)
    (h : indentText r = r2 ++ "  ") :
    indentText (r ++ spaces (p - paddingIncrement) ++ "\x7d") =
      r2 ++ spaces (p + 2 - paddingIncrement) ++ "\x7d" := by
  have e : p + 2 - paddingIncrement = p - paddingIncrement + 2 := by
    unfold paddingIncrement; omega
  have h0 : (0 : Int) ≤ p - paddingIncrement := by unfold paddingIncrement; omega
  rw [e, spaces_add_two h0]
  simp only [indentText_append, h, indentText_spaces, indentText_brace, String.append_assoc]

theorem empty_body_indent {h : String} (hh : NoNewline h.data) :
    indentText (h ++ "\x7b" ++ "\x7d") = h ++ "\x7b" ++ "\x7d" := by
  rw [indentText_append, indentText_noNewline (header_noNewline hh), indentText_brace]

/-- When no name and no number text holds a newline, rendering at a padding
two greater gives the same error or panic, or the same text with two spaces
put in after every newline. -/
theorem formatPadded_indent (lib : Library) (hlib : lib.Lawful) :
    ∀ v : Value, Names lineText v = true → ∀ p : Int, 2 ≤ p →
      formatPadded lib v (p + 2) = (formatPadded lib v p).indent := by
  intro v
  induction v using value_induction with
  | absent => intro _ p _; simp [formatPadded, Result.indent]
  | bool d b =>
    intro _ p _
    cases d <;> simp [formatPadded, formatBool, Result.indent]
    exact (indentText_noNewline (fmtBool_plain b).noNewline).symm
  | int k d n =>
    intro _ p _
    cases d <;> simp [formatPadded, formatInteger, Result.indent]
    exact (indentText_noNewline (fmtInt_plain n).noNewline).symm
  | uintptr d n => intro _ p _; simp [formatPadded, formatUintptr, Result.indent, indentText_empty]
  | float k d x =>
    intro hw p _
    have hx : lineText x = true := by simpa [Names, allRendered, namesNode] using hw
    cases d <;> simp [formatPadded, formatFloat, Result.indent]
    exact (indentText_noNewline (noNewline_of_lineText hx)).symm
  | string d x =>
    intro _ p _
    cases d <;> simp [formatPadded, formatString, Result.indent]
    exact (indentText_noNewline (fmtQuote_noNewline lib.isPrint x)).symm
  | unsafePointer d a =>
    intro _ p _; simp [formatPadded, formatUnsafePointer, Result.indent, indentText_empty]
  | chan t => intro _ p _; simp [formatPadded, formatChan, Result.indent, indentText_empty]
  | func => intro _ p _; simp [formatPadded, formatFunc, Result.indent, indentText_empty]
  | array t elems ih =>
    intro hw p hp
    obtain ⟨ht, hwe⟩ := wf_array hw
    have hp2 : (2 : Int) ≤ p + paddingIncrement := by unfold paddingIncrement; omega
    have hl := arrayLoop_indent lib t (by omega : (0 : Int) ≤ p) elems _ _
      (fun e he => ⟨hwe e he, ih e he (hwe e he) _ hp2⟩)
      (header_indent (typeName_noNewline (.array elems.length t) ht))
    rw [formatPadded, formatPadded]
    cases h1 : arrayLoop lib t p elems (typeName (.array elems.length t) ++ "\x7b" ++ "\n") <;>
      cases h2 : arrayLoop lib t (p + 2) elems
        (typeName (.array elems.length t) ++ "\x7b" ++ "\n") <;>
      rw [h1, h2] at hl <;> simp only [Loop.Rel] at hl
    · rename_i r r2
      have e1 : arrayLoop lib t p elems
          ("[" ++ toString elems.length ++ "]" ++ typeName t ++ "\x7b" ++ "\n") = .next r := h1
      have e2 : arrayLoop lib t (p + 2) elems
          ("[" ++ toString elems.length ++ "]" ++ typeName t ++ "\x7b" ++ "\n") = .next r2 := h2
      simp only [e1, e2,
        stringsRepeat_spaces (by unfold paddingIncrement; omega : (0 : Int) ≤ p - paddingIncrement),
        stringsRepeat_spaces
          (by unfold paddingIncrement; omega : (0 : Int) ≤ p + 2 - paddingIncrement),
        Result.indent, closing_indent hp hl]
    · rename_i text err text2 err2
      have e1 : arrayLoop lib t p elems
          ("[" ++ toString elems.length ++ "]" ++ typeName t ++ "\x7b" ++ "\n") =
            .exit text err := h1
      have e2 : arrayLoop lib t (p + 2) elems
          ("[" ++ toString elems.length ++ "]" ++ typeName t ++ "\x7b" ++ "\n") =
            .exit text2 err2 := h2
      have ht0 := (arrayLoop_exit lib t p _ _ _ _ h1).1
      simp only [e1, e2, Result.indent, ← hl.1, ← hl.2, ht0, indentText_empty]
    · rename_i c c2
      have e1 : arrayLoop lib t p elems
          ("[" ++ toString elems.length ++ "]" ++ typeName t ++ "\x7b" ++ "\n") = .panic c := h1
      have e2 : arrayLoop lib t (p + 2) elems
          ("[" ++ toString elems.length ++ "]" ++ typeName t ++ "\x7b" ++ "\n") = .panic c2 := h2
      simp only [e1, e2, Result.indent, hl]
  | sliceNil t =>
    intro hw p _
    simp only [formatPadded, Result.indent]
    rw [show "[]" ++ typeName t = typeName (.slice t) from rfl,
      empty_body_indent (typeName_noNewline (.slice t) (wf_slice hw).1)]
  | slice t elems ih =>
    intro hw p hp
    obtain ⟨ht, hwe⟩ := wf_slice hw
    cases elems with
    | nil =>
      simp only [formatPadded, Result.indent]
      rw [show "[]" ++ typeName t = typeName (.slice t) from rfl,
        empty_body_indent (typeName_noNewline (.slice t) ht)]
    | cons x xs =>
      have hp2 : (2 : Int) ≤ p + paddingIncrement := by unfold paddingIncrement; omega
      have hl := sliceLoop_indent lib t (by omega : (0 : Int) ≤ p) (x :: xs) _ _
        (fun e he => ⟨hwe _ rfl e he, ih e he (hwe _ rfl e he) _ hp2⟩)
        (header_indent (typeName_noNewline (.slice t) ht))
      rw [formatPadded, formatPadded]
      cases h1 : sliceLoop lib t p (x :: xs) (typeName (.slice t) ++ "\x7b" ++ "\n") <;>
        cases h2 : sliceLoop lib t (p + 2) (x :: xs) (typeName (.slice t) ++ "\x7b" ++ "\n") <;>
        rw [h1, h2] at hl <;> simp only [Loop.Rel] at hl
      · rename_i r r2
        have e1 : sliceLoop lib t p (x :: xs) ("[]" ++ typeName t ++ "\x7b" ++ "\n") =
            .next r := h1
        have e2 : sliceLoop lib t (p + 2) (x :: xs) ("[]" ++ typeName t ++ "\x7b" ++ "\n") =
            .next r2 := h2
        simp only [e1, e2,
          stringsRepeat_spaces
            (by unfold paddingIncrement; omega : (0 : Int) ≤ p - paddingIncrement),
          stringsRepeat_spaces
            (by unfold paddingIncrement; omega : (0 : Int) ≤ p + 2 - paddingIncrement),
          Result.indent, closing_indent hp hl]
      · rename_i text err text2 err2
        have e1 : sliceLoop lib t p (x :: xs) ("[]" ++ typeName t ++ "\x7b" ++ "\n") =
            .exit text err := h1
        have e2 : sliceLoop lib t (p + 2) (x :: xs) ("[]" ++ typeName t ++ "\x7b" ++ "\n") =
            .exit text2 err2 := h2
        have ht0 := (sliceLoop_exit lib t p _ _ _ _ h1).1
        simp only [e1, e2, Result.indent, ← hl.1, ← hl.2, ht0, indentText_empty]
      · rename_i c c2
        have e1 : sliceLoop lib t p (x :: xs) ("[]" ++ typeName t ++ "\x7b" ++ "\n") =
            .panic c := h1
        have e2 : sliceLoop lib t (p + 2) (x :: xs) ("[]" ++ typeName t ++ "\x7b" ++ "\n") =
            .panic c2 := h2
        simp only [e1, e2, Result.indent, hl]
  | mapNil k t =>
    intro hw p _
    simp only [formatPadded, Result.indent]
    rw [empty_body_indent (typeName_noNewline (.map k t)
      (by simpa [cleanTy] using (wf_map hw).1))]
  | map k t entries ih =>
    intro hw p hp
    obtain ⟨ht, hwe⟩ := wf_map hw
    have htm : cleanTy lineText (.map k t) = true := by simpa [cleanTy] using ht
    cases entries with
    | nil =>
      simp only [formatPadded, Result.indent]
      rw [empty_body_indent (typeName_noNewline (.map k t) htm)]
    | cons x xs =>
      have hp2 : (2 : Int) ≤ p + paddingIncrement := by unfold paddingIncrement; omega
      have hl := mapLoop_indent lib k t p (x :: xs) []
        (fun kv hkv => ⟨(ih kv hkv).1 (hwe _ rfl kv hkv).1 _ hp2,
          (ih kv hkv).2 (hwe _ rfl kv hkv).2 _ hp2⟩)
      simp only [List.map_nil] at hl
      rw [formatPadded, formatPadded]
      cases h1 : mapLoop lib k t p (x :: xs) [] <;>
        cases h2 : mapLoop lib k t (p + 2) (x :: xs) [] <;>
        rw [h1, h2] at hl <;> simp only [Loop.Rel] at hl
      · rename_i es es2
        subst hl
        have hann := mapLoop_annotations lib k t p (x :: xs) [] es
          (fun kv hkv => hwe _ rfl kv hkv) (fun e he => absurd he (List.not_mem_nil _)) h1
        obtain ⟨r, r2, hr, hr2, hrel⟩ := mapEmit_indent (by omega : (0 : Int) ≤ p)
          (sortSort lib es) _ _
          (fun e he => hann e ((sortSort_perm hlib es).mem_iff.mp he))
          (header_indent (typeName_noNewline (.map k t) htm))
        simp only [sortSort_map hlib indentEntry es (fun a _ b _ => indentEntry_less a b),
          hr, hr2,
          stringsRepeat_spaces
            (by unfold paddingIncrement; omega : (0 : Int) ≤ p - paddingIncrement),
          stringsRepeat_spaces
            (by unfold paddingIncrement; omega : (0 : Int) ≤ p + 2 - paddingIncrement),
          Result.indent, closing_indent hp hrel]
      · rename_i text err text2 err2
        have ht0 := (mapLoop_exit lib k t p _ _ _ _ h1).1
        simp only [Result.indent, ← hl.1, ← hl.2, ht0, indentText_empty]
      · rename_i c c2
        simp only [Result.indent, hl]
  | ptrNil t => intro _ p _; simp only [formatPadded, Result.indent]; rfl
  | ptr t w ih =>
    intro hw p hp
    rw [formatPadded, formatPadded, ih (wf_ptr hw).2 p hp]
    cases formatPadded lib w p with
    | panic c => rfl
    | ret text err =>
      cases err with
      | some er => simp only [Result.indent, indentText_empty]
      | none =>
        simp only [Result.indent, indentText_append]
        rfl
  | struct name fields ih =>
    intro hw p hp
    obtain ⟨hn, hwf⟩ := wf_struct hw
    have hp2 : (2 : Int) ≤ p + paddingIncrement := by unfold paddingIncrement; omega
    have hh : NoNewline (typeName (.struct name) ++ "\x7b").data :=
      header_noNewline (typeName_noNewline (.struct name) (by simpa [cleanTy] using hn))
    have hl := structLoop_indent lib (by omega : (0 : Int) ≤ p) fields
      (typeName (.struct name) ++ "\x7b") (typeName (.struct name) ++ "\x7b") false
      (fun fv hfv hpk => ⟨(hwf fv hfv hpk).1, (hwf fv hfv hpk).2,
        ih fv hfv (hwf fv hfv hpk).2 _ hp2⟩)
      (by rw [if_neg (by simp)]; exact ⟨rfl, indentText_noNewline hh⟩)
    rw [formatPadded, formatPadded]
    cases h1 : structLoop lib p fields (typeName (.struct name) ++ "\x7b", false) <;>
      cases h2 : structLoop lib (p + 2) fields (typeName (.struct name) ++ "\x7b", false) <;>
      rw [h1, h2] at hl <;> simp only [Loop.Rel] at hl
    · rename_i st st2
      obtain ⟨r, has⟩ := st
      obtain ⟨r2, has2⟩ := st2
      obtain ⟨hhas, hrel⟩ := hl
      simp only at hhas hrel
      subst hhas
      cases has2 with
      | true =>
        simp only [if_true] at hrel
        simp only [if_true,
          stringsRepeat_spaces
            (by unfold paddingIncrement; omega : (0 : Int) ≤ p - paddingIncrement),
          stringsRepeat_spaces
            (by unfold paddingIncrement; omega : (0 : Int) ≤ p + 2 - paddingIncrement),
          Result.indent, closing_indent hp hrel]
      | false =>
        simp only [Bool.false_eq_true, if_false] at hrel ⊢
        simp only [Result.indent, indentText_append, hrel.1, hrel.2, indentText_brace]
    · rename_i text err text2 err2
      have ht0 := (structLoop_exit lib p _ _ _ _ h1).1
      simp only [Result.indent, ← hl.1, ← hl.2, ht0, indentText_empty]
    · rename_i c c2
      simp only [Result.indent, hl]

/-! ## One value in two calls -/

theorem reorderedElems_length : ∀ (l l2 : List Value), ReorderedElems l l2 → l.length = l2.length
  | [], _, h => by cases h; rfl
  | _ :: vs, _, h => by
    cases h with
    | cons _ v2 _ vs2 _ ht => simp [reorderedElems_length vs vs2 ht]

theorem reordered_typeOf {v v2 : Value} (h : Reordered v v2) : TypeOf v = TypeOf v2 := by
  cases h with
  | same => rfl
  | array t l l2 hl => simp [TypeOf, reorderedElems_length l l2 hl]
  | slice => rfl
  | map => rfl
  | ptr => rfl
  | struct => rfl

theorem reordered_annotate {v v2 : Value} (h : Reordered v v2) (declared : Ty) :
    annotate declared v = annotate declared v2 := by
  unfold annotate
  rw [reordered_typeOf h]

theorem reordered_equalsItself : ∀ v : Value, ∀ v2, Reordered v v2 →
    equalsItself v = equalsItself v2 := by
  intro v
  induction v using value_induction with
  | array t elems ih =>
    intro v2 h
    cases h with
    | same => rfl
    | array _ _ elems2 hl =>
      simp only [equalsItself]
      clear t
      induction elems generalizing elems2 with
      | nil => cases hl; rfl
      | cons e es ihl =>
        cases hl with
        | cons _ e2 _ es2 he hes =>
          simp only [elemsEqualThemselves]
          rw [ih e (List.mem_cons_self _ _) e2 he,
            ihl (fun x hx => ih x (List.mem_cons_of_mem _ hx)) es2 hes]
  | struct name fields ih =>
    intro v2 h
    cases h with
    | same => rfl
    | struct _ _ fields2 hl =>
      simp only [equalsItself]
      clear name
      induction fields generalizing fields2 with
      | nil => cases hl; rfl
      | cons fv rest ihl =>
        cases hl with
        | cons f w w2 _ rest2 hw hrest =>
          simp only [fieldsEqualThemselves]
          rw [ih (f, w) (List.mem_cons_self _ _) w2 hw,
            ihl (fun x hx => ih x (List.mem_cons_of_mem _ hx)) rest2 hrest]
  | slice t elems ih => intro v2 h; cases h <;> rfl
  | map k t entries ih => intro v2 h; cases h <;> rfl
  | ptr t w ih => intro v2 h; cases h <;> rfl
  | _ => intro v2 h; cases h; rfl

theorem mapLoop_collect (lib : Library) (keyType elemType : Ty) (p : Int) :
    ∀ (kvs : List (Value × Value)) (entries : List mapEntry),
      mapLoop lib keyType elemType p kvs entries =
        collect (kvs.map (mapRound lib keyType elemType p)) entries := by
  intro kvs
  induction kvs with
  | nil => intro entries; rfl
  | cons kv rest ih =>
    intro entries
    obtain ⟨k, e⟩ := kv
    rw [mapLoop, List.map_cons, mapRound]
    simp only
    cases formatPadded lib k (p + paddingIncrement) with
    | panic c => rfl
    | ret ktext err =>
      cases err with
      | some er => rfl
      | none =>
        simp only
        cases annotate keyType k with
        | none => rfl
        | some kann =>
          simp only
          cases mapIndexFinds k with
          | false => rfl
          | true =>
            simp only
            cases formatPadded lib e (p + paddingIncrement) with
            | panic c => rfl
            | ret vtext err =>
              cases err with
              | some er => rfl
              | none =>
                simp only
                cases annotate elemType e with
                | none => rfl
                | some vann => exact ih _

theorem roundsAgree_symm (a b : Loop mapEntry) : roundsAgree a b = roundsAgree b a := by
  cases a <;> cases b <;> simp only [roundsAgree] <;> rw [Bool.eq_iff_iff] <;>
    simp only [Bool.or_eq_true, Bool.and_eq_true, bne_iff_ne, beq_iff_eq, ne_eq]
  · exact ⟨fun h => h.imp (fun h h2 => h h2.symm) Eq.symm,
      fun h => h.imp (fun h h2 => h h2.symm) Eq.symm⟩
  · exact ⟨fun h => ⟨h.1.symm, h.2.symm⟩, fun h => ⟨h.1.symm, h.2.symm⟩⟩
  · exact ⟨Eq.symm, Eq.symm⟩

theorem allAgree_iff (l : List (Loop mapEntry)) :
    allAgree l = true ↔ l.Pairwise (fun a b => roundsAgree a b = true) := by
  induction l with
  | nil => simp [allAgree]
  | cons r rest ih =>
    simp only [allAgree, Bool.and_eq_true, List.all_eq_true, ih, List.pairwise_cons]

theorem allAgree_perm {l l2 : List (Loop mapEntry)} (h : l.Perm l2)
    (ha : allAgree l = true) : allAgree l2 = true := by
  rw [allAgree_iff] at ha ⊢
  exact (h.pairwise_iff (fun {a b} hab => by rw [roundsAgree_symm]; exact hab)).mp ha

theorem sameEnd_trans {a b c : Loop (List mapEntry)} (h1 : sameEnd a b) (h2 : sameEnd b c) :
    sameEnd a c := by
  cases a <;> cases b <;> cases c <;> simp only [sameEnd, Loop.Rel] at h1 h2 ⊢
  · exact h1.trans h2
  · exact ⟨h1.1.trans h2.1, h1.2.trans h2.2⟩
  · exact h1.trans h2

theorem collect_acc : ∀ (rs : List (Loop mapEntry)) (entries entries2 : List mapEntry),
    entries.Perm entries2 → sameEnd (collect rs entries) (collect rs entries2)
  | [], _, _, h => h
  | .next e :: rest, _, _, h => by
    simp only [collect]
    exact collect_acc rest _ _ (h.append_right _)
  | .exit _ _ :: _, _, _, _ => ⟨rfl, rfl⟩
  | .panic _ :: _, _, _, _ => rfl

theorem collect_perm {rs rs2 : List (Loop mapEntry)} (h : rs.Perm rs2) :
    allAgree rs = true → ∀ entries entries2 : List mapEntry, entries.Perm entries2 →
      sameEnd (collect rs entries) (collect rs2 entries2) := by
  induction h with
  | nil => intro _ entries entries2 he; exact he
  | cons x hp ih =>
    intro ha entries entries2 he
    simp only [allAgree, Bool.and_eq_true] at ha
    cases x with
    | next e => exact ih ha.2 _ _ (he.append_right _)
    | exit t er => exact ⟨rfl, rfl⟩
    | panic c => exact rfl
  | swap x y l =>
    intro ha entries entries2 he
    simp only [allAgree, Bool.and_eq_true, List.all_cons] at ha
    have hxy := ha.1.1
    cases x <;> cases y <;> simp only [collect]
    · apply collect_acc
      simp only [List.append_assoc]
      refine he.append ?_
      exact List.Perm.swap _ _ _
    · exact ⟨rfl, rfl⟩
    · exact rfl
    · exact ⟨rfl, rfl⟩
    · simp only [roundsAgree, Bool.and_eq_true, beq_iff_eq] at hxy
      exact ⟨hxy.1, hxy.2⟩
    · simp [roundsAgree] at hxy
    · exact rfl
    · simp [roundsAgree] at hxy
    · simp only [roundsAgree, beq_iff_eq] at hxy
      exact hxy
  | trans h1 h2 ih1 ih2 =>
    intro ha entries entries2 he
    exact sameEnd_trans (ih1 ha entries entries2 he)
      (ih2 (allAgree_perm h1 ha) entries2 entries2 (List.Perm.refl _))

theorem collect_next : ∀ (rs : List (Loop mapEntry)) (entries result : List mapEntry),
    collect rs entries = .next result →
      ∃ es : List mapEntry, rs = es.map Loop.next ∧ result = entries ++ es
  | [], entries, result, h => by
    simp only [collect, Loop.next.injEq] at h
    exact ⟨[], rfl, by simp [h]⟩
  | .next e :: rest, entries, result, h => by
    simp only [collect] at h
    obtain ⟨es, h1, h2⟩ := collect_next rest _ _ h
    exact ⟨e :: es, by simp [h1], by simp [h2]⟩
  | .exit _ _ :: _, _, _, h => by simp [collect] at h
  | .panic _ :: _, _, _, h => by simp [collect] at h

/-- In a list in ascending order of key, of which a second list in ascending
order is a permutation, the two lists coincide when entries of equal key are
equal. -/
theorem sorted_perm_unique : ∀ (s s2 : List mapEntry), s.Perm s2 →
    s.Pairwise (fun a b => mapEntries.Less b a = false) →
    s2.Pairwise (fun a b => mapEntries.Less b a = false) →
    (∀ a ∈ s, ∀ b ∈ s, a.key = b.key → a = b) → s = s2
  | [], s2, hp, _, _, _ => (List.nil_perm.mp hp).symm
  | a :: t, [], hp, _, _, _ => absurd (List.perm_nil.mp hp) (List.cons_ne_nil _ _)
  | a :: t, b :: t2, hp, h1, h2, htie => by
    have hab : a = b := by
      by_cases hne : a = b
      · exact hne
      · have hb : b ∈ a :: t := hp.mem_iff.mpr (List.mem_cons_self _ _)
        have ha : a ∈ b :: t2 := hp.mem_iff.mp (List.mem_cons_self _ _)
        have hb2 : b ∈ t := by
          rcases List.mem_cons.mp hb with h | h
          · exact absurd h.symm hne
          · exact h
        have ha2 : a ∈ t2 := by
          rcases List.mem_cons.mp ha with h | h
          · exact absurd h hne
          · exact h
        have hba : mapEntries.Less b a = false := (List.pairwise_cons.mp h1).1 b hb2
        have hab : mapEntries.Less a b = false := (List.pairwise_cons.mp h2).1 a ha2
        exact htie a (List.mem_cons_self _ _) b hb
          (String.ext (stringLess_trichotomy _ _ hab hba))
    subst hab
    rw [sorted_perm_unique t t2 (List.Perm.cons_inv hp) (List.pairwise_cons.mp h1).2
      (List.pairwise_cons.mp h2).2
      (fun x hx y hy => htie x (List.mem_cons_of_mem _ hx) y (List.mem_cons_of_mem _ hy))]

/-- Entries of which those of equal key are equal are sorted to the same list
whatever order they come in. -/
theorem sortSort_perm_ties {lib : Library} (hlib : lib.Lawful) {l l2 : List mapEntry}
    (hp : l.Perm l2) (htie : ∀ a ∈ l, ∀ b ∈ l, a.key = b.key → a = b) :
    sortSort lib l = sortSort lib l2 := by
  apply sorted_perm_unique _ _
    (((sortSort_perm hlib l).trans hp).trans (sortSort_perm hlib l2).symm)
    (sortSort_sorted hlib l) (sortSort_sorted hlib l2)
  intro a ha b hb
  exact htie a ((sortSort_perm hlib l).mem_iff.mp ha) b ((sortSort_perm hlib l).mem_iff.mp hb)

theorem allAgree_ties {es : List mapEntry} (h : allAgree (es.map Loop.next) = true) :
    ∀ a ∈ es, ∀ b ∈ es, a.key = b.key → a = b := by
  rw [allAgree_iff, List.pairwise_map] at h
  have h2 : es.Pairwise (fun a b => a.key = b.key → a = b) := by
    refine h.imp ?_
    intro a b hab hk
    simp only [roundsAgree, Bool.or_eq_true, bne_iff_ne, ne_eq, beq_iff_eq] at hab
    exact hab.resolve_left (fun hn => hn hk)
  intro a ha b hb
  have hsymm : Symmetric (fun a b : mapEntry => a.key = b.key → a = b) :=
    fun x y hxy hk => (hxy hk.symm).symm
  exact List.Pairwise.forall_of_forall hsymm (fun x _ _ => rfl) h2 ha hb

theorem arrayLoop_reordered (lib : Library) (t : Ty) (p : Int) :
    ∀ (es es2 : List Value) (buffer : String), ReorderedElems es es2 →
      (∀ e ∈ es, ∀ v2 q, Reordered e v2 → determinate lib e q = true →
        formatPadded lib e q = formatPadded lib v2 q) →
      determinateElems lib (p + paddingIncrement) es = true →
      arrayLoop lib t p es buffer = arrayLoop lib t p es2 buffer := by
  intro es
  induction es with
  | nil => intro es2 buffer h _ _; cases h; rfl
  | cons e rest ih =>
    intro es2 buffer h hfix hdet
    cases h with
    | cons _ e2 _ rest2 he hrest =>
      simp only [determinateElems, Bool.and_eq_true] at hdet
      rw [arrayLoop, arrayLoop, ← hfix e (List.mem_cons_self _ _) e2 _ he hdet.1,
        ← reordered_annotate he]
      cases formatPadded lib e (p + paddingIncrement) with
      | panic c => rfl
      | ret text err =>
        cases err with
        | some er => rfl
        | none =>
          simp only
          cases stringsRepeat " " p with
          | none => rfl
          | some sp =>
            simp only
            cases annotate t e with
            | none => rfl
            | some ann =>
              exact ih _ _ hrest (fun x hx => hfix x (List.mem_cons_of_mem _ hx)) hdet.2

theorem sliceLoop_reordered (lib : Library) (t : Ty) (p : Int) :
    ∀ (es es2 : List Value) (buffer : String), ReorderedElems es es2 →
      (∀ e ∈ es, ∀ v2 q, Reordered e v2 → determinate lib e q = true →
        formatPadded lib e q = formatPadded lib v2 q) →
      determinateElems lib (p + paddingIncrement) es = true →
      sliceLoop lib t p es buffer = sliceLoop lib t p es2 buffer := by
  intro es
  induction es with
  | nil => intro es2 buffer h _ _; cases h; rfl
  | cons e rest ih =>
    intro es2 buffer h hfix hdet
    cases h with
    | cons _ e2 _ rest2 he hrest =>
      simp only [determinateElems, Bool.and_eq_true] at hdet
      rw [sliceLoop, sliceLoop, ← hfix e (List.mem_cons_self _ _) e2 _ he hdet.1,
        ← reordered_annotate he]
      cases formatPadded lib e (p + paddingIncrement) with
      | panic c => rfl
      | ret text err =>
        cases err with
        | some er => rfl
        | none =>
          simp only
          cases stringsRepeat " " p with
          | none => rfl
          | some sp =>
            simp only
            cases annotate t e with
            | none => rfl
            | some ann =>
              exact ih _ _ hrest (fun x hx => hfix x (List.mem_cons_of_mem _ hx)) hdet.2

theorem structLoop_reordered (lib : Library) (p : Int) :
    ∀ (fs fs2 : List (StructField × Value)) (state : String × Bool), ReorderedFields fs fs2 →
      (∀ fv ∈ fs, ∀ v2 q, Reordered fv.2 v2 → determinate lib fv.2 q = true →
        formatPadded lib fv.2 q = formatPadded lib v2 q) →
      determinateFields lib (p + paddingIncrement) fs = true →
      structLoop lib p fs state = structLoop lib p fs2 state := by
  intro fs
  induction fs with
  | nil => intro fs2 state h _ _; cases h; rfl
  | cons fv rest ih =>
    intro fs2 state h hfix hdet
    obtain ⟨buffer, has⟩ := state
    cases h with
    | cons f w w2 _ rest2 hw hrest =>
      simp only [determinateFields, Bool.and_eq_true, Bool.or_eq_true, bne_iff_ne, ne_eq] at hdet
      rw [structLoop, structLoop]
      by_cases hf : f.PkgPath = ""
      · have hd : determinate lib w (p + paddingIncrement) = true :=
          hdet.1.resolve_left (fun hn => hn hf)
        simp only [hf, ne_eq, not_true_eq_false, if_false]
        rw [← hfix (f, w) (List.mem_cons_self _ _) w2 _ hw hd, ← reordered_annotate hw]
        cases stringsRepeat " " p with
        | none => rfl
        | some sp =>
          simp only
          cases formatPadded lib w (p + paddingIncrement) with
          | panic c => rfl
          | ret text err =>
            cases err with
            | some er => rfl
            | none =>
              simp only
              cases annotate f.Typ w with
              | none => rfl
              | some ann =>
                exact ih _ _ hrest (fun x hx => hfix x (List.mem_cons_of_mem _ hx)) hdet.2
      · simp only [hf, ne_eq, not_false_eq_true, if_true]
        exact ih _ _ hrest (fun x hx => hfix x (List.mem_cons_of_mem _ hx)) hdet.2

theorem mapRound_reordered (lib : Library) (k t : Ty) (p : Int) :
    ∀ (kvs kvs2 : List (Value × Value)), ReorderedPairs kvs kvs2 →
      (∀ kv ∈ kvs, (∀ v2 q, Reordered kv.1 v2 → determinate lib kv.1 q = true →
          formatPadded lib kv.1 q = formatPadded lib v2 q) ∧
        (∀ v2 q, Reordered kv.2 v2 → determinate lib kv.2 q = true →
          formatPadded lib kv.2 q = formatPadded lib v2 q)) →
      determinatePairs lib (p + paddingIncrement) kvs = true →
      kvs.map (mapRound lib k t p) = kvs2.map (mapRound lib k t p) := by
  intro kvs
  induction kvs with
  | nil => intro kvs2 h _ _; cases h; rfl
  | cons kv rest ih =>
    intro kvs2 h hfix hdet
    cases h with
    | cons _ kv2 _ rest2 hk he hrest =>
      obtain ⟨a, b⟩ := kv
      obtain ⟨a2, b2⟩ := kv2
      simp only [determinatePairs, Bool.and_eq_true] at hdet
      have h1 := (hfix (a, b) (List.mem_cons_self _ _)).1 a2 _ hk hdet.1.1
      have h2 := (hfix (a, b) (List.mem_cons_self _ _)).2 b2 _ he hdet.1.2
      simp only at h1 h2 hk he
      rw [List.map_cons, List.map_cons,
        ih _ hrest (fun x hx => hfix x (List.mem_cons_of_mem _ hx)) hdet.2]
      congr 1
      simp only [mapRound, ← h1, ← h2, ← reordered_annotate hk, ← reordered_annotate he,
        mapIndexFinds, ← reordered_equalsItself a a2 hk]

theorem determinatePairs_perm (lib : Library) (q : Int) {l l2 : List (Value × Value)}
    (h : l.Perm l2) : determinatePairs lib q l = determinatePairs lib q l2 := by
  induction h with
  | nil => rfl
  | cons x _ ih => obtain ⟨a, b⟩ := x; simp only [determinatePairs, ih]
  | swap x y l =>
    obtain ⟨a, b⟩ := x
    obtain ⟨c, d⟩ := y
    simp only [determinatePairs]
    cases determinate lib a q <;> cases determinate lib b q <;> cases determinate lib c q <;>
      cases determinate lib d q <;> rfl
  | trans _ _ ih1 ih2 => exact ih1.trans ih2

theorem formatPadded_map (lib : Library) (k t : Ty) (kvs : List (Value × Value)) (p : Int)
    (hne : kvs ≠ []) :
    formatPadded lib (.map k t (some kvs)) p =
      mapFinish lib k t p (collect (kvs.map (mapRound lib k t p)) []) := by
  cases kvs with
  | nil => exact absurd rfl hne
  | cons kv rest =>
    rw [formatPadded, mapLoop_collect]
    cases collect ((kv :: rest).map (mapRound lib k t p)) [] <;> rfl

theorem mapFinish_sameEnd (lib : Library) (hlib : lib.Lawful) (k t : Ty) (p : Int)
    {r r2 : Loop (List mapEntry)} (h : sameEnd r r2)
    (htie : ∀ es, r = .next es → ∀ a ∈ es, ∀ b ∈ es, a.key = b.key → a = b) :
    mapFinish lib k t p r = mapFinish lib k t p r2 := by
  cases r <;> cases r2 <;> simp only [sameEnd, Loop.Rel] at h
  · rename_i es es2
    simp only [mapFinish, sortSort_perm_ties hlib h (htie es rfl)]
  · simp only [mapFinish, h.1, h.2]
  · simp only [mapFinish, h]

theorem reorderedPairs_length : ∀ (l l2 : List (Value × Value)), ReorderedPairs l l2 →
    l.length = l2.length
  | [], _, h => by cases h; rfl
  | _ :: vs, _, h => by
    cases h with
    | cons _ v2 _ vs2 _ _ ht => simp [reorderedPairs_length vs vs2 ht]

/-- A value whose rendering is fixed by the value alone (`determinate`)
renders to one result whatever the order in which its maps are enumerated. -/
theorem formatPadded_reordered (lib : Library) (hlib : lib.Lawful) :
    ∀ v : Value, ∀ v2 p, Reordered v v2 → determinate lib v p = true →
      formatPadded lib v p = formatPadded lib v2 p := by
  intro v
  induction v using value_induction with
  | array t elems ih =>
    intro v2 p h hdet
    cases h with
    | same => rfl
    | array _ _ elems2 hl =>
      rw [formatPadded, formatPadded, reorderedElems_length _ _ hl,
        arrayLoop_reordered lib t p elems elems2 _ hl ih (by simpa [determinate] using hdet)]
  | slice t elems ih =>
    intro v2 p h hdet
    cases h with
    | same => rfl
    | slice _ _ elems2 hl =>
      cases hl with
      | nil => rfl
      | cons e e2 es es2 he hes =>
        rw [formatPadded, formatPadded,
          sliceLoop_reordered lib t p (e :: es) (e2 :: es2) _
            (ReorderedElems.cons e e2 es es2 he hes) ih (by simpa [determinate] using hdet)]
  | map k t kvs ih =>
    intro v2 p h hdet
    cases h with
    | same => rfl
    | map _ _ _ shuffled kvs2 hperm hpairs =>
      simp only [determinate, Bool.and_eq_true] at hdet
      by_cases hne : kvs = []
      · subst hne
        have h1 : shuffled = [] := List.nil_perm.mp hperm
        subst h1
        cases hpairs
        rfl
      · have hne2 : kvs2 ≠ [] := by
          intro h2
          have hl := (hperm.length_eq).trans (reorderedPairs_length _ _ hpairs)
          rw [h2] at hl
          exact hne (List.length_eq_zero.mp hl)
        rw [formatPadded_map lib k t kvs p hne, formatPadded_map lib k t kvs2 p hne2,
          ← mapRound_reordered lib k t p shuffled kvs2 hpairs
            (fun kv hkv => ih kv (hperm.mem_iff.mpr hkv))
            ((determinatePairs_perm lib _ hperm).symm.trans hdet.1)]
        apply mapFinish_sameEnd lib hlib k t p
          (collect_perm (hperm.map _) hdet.2 [] [] (List.Perm.refl _))
        intro es hes
        obtain ⟨es2, h1, h2⟩ := collect_next _ _ _ hes
        rw [h1] at hdet
        rw [h2, List.nil_append]
        exact allAgree_ties hdet.2
  | ptr t w ih =>
    intro v2 p h hdet
    cases h with
    | same => rfl
    | ptr _ _ w2 hw =>
      rw [formatPadded, formatPadded, ih w2 p hw (by simpa [determinate] using hdet)]
  | struct name fields ih =>
    intro v2 p h hdet
    cases h with
    | same => rfl
    | struct _ _ fields2 hl =>
      rw [formatPadded, formatPadded,
        structLoop_reordered lib p fields fields2 _ hl ih (by simpa [determinate] using hdet)]
  | _ => intro v2 p h _; cases h; rfl

theorem reorderedElems_mem : ∀ (l l2 : List Value), ReorderedElems l l2 →
    ∀ e2 ∈ l2, ∃ e ∈ l, Reordered e e2
  | [], _, h, e2, he2 => by cases h; simp at he2
  | v :: vs, _, h, e2, he2 => by
    cases h with
    | cons _ w _ ws hv hvs =>
      rcases List.mem_cons.mp he2 with rfl | hm
      · exact ⟨v, List.mem_cons_self _ _, hv⟩
      · obtain ⟨e, he, hr⟩ := reorderedElems_mem vs ws hvs e2 hm
        exact ⟨e, List.mem_cons_of_mem _ he, hr⟩

theorem reorderedPairs_mem : ∀ (l l2 : List (Value × Value)), ReorderedPairs l l2 →
    ∀ kv2 ∈ l2, ∃ kv ∈ l, Reordered kv.1 kv2.1 ∧ Reordered kv.2 kv2.2
  | [], _, h, e2, he2 => by cases h; simp at he2
  | v :: vs, _, h, e2, he2 => by
    cases h with
    | cons _ w _ ws hk hv hvs =>
      rcases List.mem_cons.mp he2 with rfl | hm
      · exact ⟨v, List.mem_cons_self _ _, hk, hv⟩
      · obtain ⟨e, he, hr⟩ := reorderedPairs_mem vs ws hvs e2 hm
        exact ⟨e, List.mem_cons_of_mem _ he, hr⟩

theorem reorderedFields_mem : ∀ (l l2 : List (StructField × Value)), ReorderedFields l l2 →
    ∀ fv2 ∈ l2, ∃ fv ∈ l, fv.1 = fv2.1 ∧ Reordered fv.2 fv2.2
  | [], _, h, e2, he2 => by cases h; simp at he2
  | _ :: vs, _, h, e2, he2 => by
    cases h with
    | cons f v w _ ws hv hvs =>
      rcases List.mem_cons.mp he2 with rfl | hm
      · exact ⟨(f, v), List.mem_cons_self _ _, rfl, hv⟩
      · obtain ⟨e, he, hr⟩ := reorderedFields_mem vs ws hvs e2 hm
        exact ⟨e, List.mem_cons_of_mem _ he, hr⟩

/-- The names and number texts of a value are those of the same value in
another call. -/
theorem names_reordered (ok : String → Bool) : ∀ v : Value, ∀ v2, Reordered v v2 →
    Names ok v = true → Names ok v2 = true := by
  intro v
  induction v using value_induction with
  | array t elems ih =>
    intro v2 h hw
    cases h with
    | same => exact hw
    | array _ _ elems2 hl =>
      simp only [Names, allRendered, Bool.and_eq_true, namesNode, allValues_iff] at hw ⊢
      refine ⟨hw.1, fun e2 he2 => ?_⟩
      obtain ⟨e, he, hr⟩ := reorderedElems_mem _ _ hl e2 he2
      exact ih e he e2 hr (hw.2 e he)
  | slice t elems ih =>
    intro v2 h hw
    cases h with
    | same => exact hw
    | slice _ _ elems2 hl =>
      simp only [Names, allRendered, Bool.and_eq_true, namesNode, allValues_iff] at hw ⊢
      refine ⟨hw.1, fun e2 he2 => ?_⟩
      obtain ⟨e, he, hr⟩ := reorderedElems_mem _ _ hl e2 he2
      exact ih e he e2 hr (hw.2 e he)
  | map k t kvs ih =>
    intro v2 h hw
    cases h with
    | same => exact hw
    | map _ _ _ shuffled kvs2 hperm hpairs =>
      simp only [Names, allRendered, Bool.and_eq_true, namesNode, allPairs_iff] at hw ⊢
      refine ⟨hw.1, fun kv2 hkv2 => ?_⟩
      obtain ⟨kv, hkv, hr1, hr2⟩ := reorderedPairs_mem _ _ hpairs kv2 hkv2
      have hm : kv ∈ kvs := hperm.mem_iff.mpr hkv
      exact ⟨(ih kv hm).1 _ hr1 (hw.2 kv hm).1, (ih kv hm).2 _ hr2 (hw.2 kv hm).2⟩
  | ptr t w ih =>
    intro v2 h hw
    cases h with
    | same => exact hw
    | ptr _ _ w2 hr =>
      simp only [Names, allRendered, Bool.and_eq_true, namesNode] at hw ⊢
      exact ⟨hw.1, ih w2 hr hw.2⟩
  | struct name fields ih =>
    intro v2 h hw
    cases h with
    | same => exact hw
    | struct _ _ fields2 hl =>
      simp only [Names, allRendered, Bool.and_eq_true, namesNode, allFields_iff,
        List.all_eq_true] at hw ⊢
      refine ⟨⟨hw.1.1, fun fv2 hfv2 => ?_⟩, fun fv2 hfv2 hpk => ?_⟩
      · obtain ⟨fv, hfv, h1, _⟩ := reorderedFields_mem _ _ hl fv2 hfv2
        rw [← h1]
        exact hw.1.2 fv hfv
      · obtain ⟨fv, hfv, h1, hr⟩ := reorderedFields_mem _ _ hl fv2 hfv2
        exact ih fv hfv _ hr (hw.2 fv hfv (h1 ▸ hpk))
  | _ => intro v2 h hw; cases h; exact hw

/-- Rendering one value in two calls, two spaces deeper in the second. -/
theorem formatPadded_indent_reordered (lib : Library) (hlib : lib.Lawful) (v v2 : Value)
    (hsame : Reordered v v2) (p : Int) (hp : 2 ≤ p) (hdet : determinate lib v p = true)
    (hline : SingleLine v = true) :
    formatPadded lib v2 (p + 2) = (formatPadded lib v p).indent := by
  rw [formatPadded_indent lib hlib v2 (names_reordered lineText v v2 hsame hline) p hp,
    formatPadded_reordered lib hlib v v2 p hsame hdet]

theorem determinateFields_filter (lib : Library) (q : Int) :
    ∀ fields : List (StructField × Value),
      determinateFields lib q (fields.filter exported) = determinateFields lib q fields
  | [] => rfl
  | (f, v) :: rest => by
    by_cases hf : f.PkgPath = ""
    · have hx : exported (f, v) = true := by simp [exported, hf]
      rw [List.filter_cons_of_pos hx]
      simp only [determinateFields, determinateFields_filter lib q rest]
    · have hx : ¬ (exported (f, v) = true) := by simp [exported, hf]
      rw [List.filter_cons_of_neg hx, determinateFields_filter lib q rest]
      simp [determinateFields, hf]

theorem reorderedPairs_refl : ∀ l : List (Value × Value), ReorderedPairs l l
  | [] => ReorderedPairs.nil
  | kv :: rest =>
    ReorderedPairs.cons kv kv rest rest (Reordered.same _) (Reordered.same _)
      (reorderedPairs_refl rest)

/-! ## Type names on the table of types -/

theorem basic_kind_cases (k : Basic) :
    k.Kind ≠ .Array ∧ k.Kind ≠ .Map ∧ k.Kind ≠ .Ptr ∧ k.Kind ≠ .Slice ∧ k.Kind ≠ .Struct ∧
      k.Kind ≠ .Interface := by
  cases k with
  | Integer i => cases i <;> simp [Basic.Kind, IntKind.Kind]
  | Float f => cases f <;> simp [Basic.Kind, FloatKind.Kind]
  | _ => simp [Basic.Kind]

theorem typeNameWithin_leaf (types : Nat → rtype) (depth n : Nat) (k : Kind)
    (hk : (types n).kind = k)
    (h : k ≠ .Array ∧ k ≠ .Map ∧ k ≠ .Ptr ∧ k ≠ .Slice ∧ k ≠ .Struct ∧ k ≠ .Interface) :
    typeNameWithin types (depth + 1) n = some (kindString k) := by
  rw [typeNameWithin, hk]
  cases k <;> simp at h <;> rfl

/-- On a type that unfolds to a finite descriptor `typeName` returns, with
the name the recursion on the descriptor gives. -/
theorem typeNameWithin_describes (types : Nat → rtype) : ∀ (t : Ty) (n depth : Nat),
    describes types n t → t.nesting < depth →
      typeNameWithin types depth n = some (typeName t)
  | .basic k d, n, depth, h, hd => by
    obtain ⟨depth, rfl⟩ : ∃ m, depth = m + 1 := ⟨depth - 1, by omega⟩
    exact typeNameWithin_leaf types depth n _ h (basic_kind_cases k)
  | .chan e, n, depth, h, hd => by
    obtain ⟨depth, rfl⟩ : ∃ m, depth = m + 1 := ⟨depth - 1, by omega⟩
    exact typeNameWithin_leaf types depth n .Chan h (by decide)
  | .func, n, depth, h, hd => by
    obtain ⟨depth, rfl⟩ : ∃ m, depth = m + 1 := ⟨depth - 1, by omega⟩
    exact typeNameWithin_leaf types depth n .Func h (by decide)
  | .interface, n, depth, h, hd => by
    obtain ⟨depth, rfl⟩ : ∃ m, depth = m + 1 := ⟨depth - 1, by omega⟩
    have hk : (types n).kind = .Interface := h
    rw [typeNameWithin, hk]
    rfl
  | .struct name, n, depth, h, hd => by
    obtain ⟨depth, rfl⟩ : ∃ m, depth = m + 1 := ⟨depth - 1, by omega⟩
    obtain ⟨hk, hn⟩ := h
    rw [typeNameWithin, hk]
    simp only [hn]
    rfl
  | .array len e, n, depth, h, hd => by
    obtain ⟨depth, rfl⟩ : ∃ m, depth = m + 1 := ⟨depth - 1, by simp [Ty.nesting] at hd; omega⟩
    obtain ⟨hk, hl, he⟩ := h
    rw [typeNameWithin, hk]
    simp only [typeNameWithin_describes types e _ depth he (by simp [Ty.nesting] at hd; omega), hl]
    rfl
  | .map k e, n, depth, h, hd => by
    obtain ⟨depth, rfl⟩ : ∃ m, depth = m + 1 := ⟨depth - 1, by simp [Ty.nesting] at hd; omega⟩
    obtain ⟨hk, hkey, he⟩ := h
    rw [typeNameWithin, hk]
    simp only [typeNameWithin_describes types k _ depth hkey (by simp [Ty.nesting] at hd; omega),
      typeNameWithin_describes types e _ depth he (by simp [Ty.nesting] at hd; omega)]
    rfl
  | .ptr e, n, depth, h, hd => by
    obtain ⟨depth, rfl⟩ : ∃ m, depth = m + 1 := ⟨depth - 1, by simp [Ty.nesting] at hd; omega⟩
    obtain ⟨hk, he⟩ := h
    rw [typeNameWithin, hk]
    simp only [typeNameWithin_describes types e _ depth he (by simp [Ty.nesting] at hd; omega)]
    rfl
  | .slice e, n, depth, h, hd => by
    obtain ⟨depth, rfl⟩ : ∃ m, depth = m + 1 := ⟨depth - 1, by simp [Ty.nesting] at hd; omega⟩
    obtain ⟨hk, he⟩ := h
    rw [typeNameWithin, hk]
    simp only [typeNameWithin_describes types e _ depth he (by simp [Ty.nesting] at hd; omega)]
    rfl

/-- On a slice, map, pointer or array type whose element type is the type
itself `typeName` does not return at any depth. -/
theorem typeNameWithin_selfElem (types : Nat → rtype) (n : Nat)
    (hk : (types n).kind = .Slice ∨ (types n).kind = .Map ∨ (types n).kind = .Ptr ∨
      (types n).kind = .Array)
    (he : (types n).elem = n) :
    ∀ depth, typeNameWithin types depth n = none
  | 0 => rfl
  | depth + 1 => by
    have ih := typeNameWithin_selfElem types n hk he depth
    rcases hk with hk | hk | hk | hk
    · rw [typeNameWithin, hk]
      simp only [he, ih]
    · rw [typeNameWithin, hk]
      simp only [he, ih]
      cases typeNameWithin types depth (types n).key <;> rfl
    · rw [typeNameWithin, hk]
      simp only [he, ih]
    · rw [typeNameWithin, hk]
      simp only [he, ih]

/-! ## Arrays and slices -/

/-- C1: a slice or array with at least one element, all of whose elements
render, renders at padding `p ≥ 2` as the type name, an opening brace and a
newline, then one line per element in index order (`p` spaces, the optional
annotation, the element rendered at `p + 2`, a comma and a newline), then
`p - 2` spaces and the closing brace. In particular
`Format([]string{"hello","world"})` is the text of the test. -/
theorem C1_sequence_layout (lib : Library) (elemType : Ty) (elems : List Value)
    (p : Int) (hp : 2 ≤ p) (hne : elems ≠ [])
    (hok : ∀ e ∈ elems, Renders lib e (p + 2)) :
    formatPadded lib (.slice elemType (some elems)) p =
        .ret (typeName (.slice elemType) ++ "\x7b\n" ++
          joinLines (elems.map (elemLine lib elemType p)) ++ spaces (p - 2) ++ "\x7d") none
    ∧ formatPadded lib (.array elemType elems) p =
        .ret (typeName (.array elems.length elemType) ++ "\x7b\n" ++
          joinLines (elems.map (elemLine lib elemType p)) ++ spaces (p - 2) ++ "\x7d") none
    ∧ Format lib (.slice (.basic .String false)
          (some [.string false "hello", .string false "world"])) =
        .ret "[]string\x7b\n  \"hello\",\n  \"world\",\n\x7d" none := by
  have hp0 : (0 : Int) ≤ p := by omega
  have hp2 : (0 : Int) ≤ p - paddingIncrement := by simp [paddingIncrement]; omega
  refine ⟨?_, ?_, ?_⟩
  · cases elems with
    | nil => exact absurd rfl hne
    | cons e es =>
      rw [formatPadded, sliceLoop_renders lib elemType hp0 _ _ hok]
      simp only [stringsRepeat_spaces hp2]
      simp [typeName, paddingIncrement, String.append_assoc]
  · rw [formatPadded, arrayLoop_renders lib elemType hp0 _ _ hok]
    simp only [stringsRepeat_spaces hp2]
    simp [typeName, paddingIncrement, String.append_assoc]
  · rfl

/-- Witness of C1: the slice `[]string{"hello","world"}` at padding 2. -/
theorem C1_sequence_layout_witness :
    formatPadded baseLibrary (.slice (.basic .String false)
        (some [.string false "hello", .string false "world"])) 2 =
      .ret (typeName (.slice (.basic .String false)) ++ "\x7b\n" ++
        joinLines ([Value.string false "hello", Value.string false "world"].map
          (elemLine baseLibrary (.basic .String false) 2)) ++ spaces (2 - 2) ++ "\x7d") none :=
  (C1_sequence_layout baseLibrary (.basic .String false)
    [.string false "hello", .string false "world"] 2 (by decide) (by simp)
    (by
      intro e he
      simp only [List.mem_cons, List.mem_singleton, List.not_mem_nil, or_false] at he
      rcases he with rfl | rfl
      · exact ⟨_, rfl⟩
      · exact ⟨_, rfl⟩)).1

/-! ## Maps -/

/-- C2: the code at a map with a NaN key. The key and the element of
`map[float64]int{NaN: 1}` both render, as `NaN` and `1`, and the map would be
written with the one line `NaN: 1,`; but `formatMap` gets the element by the
lookup `v.MapIndex(key)`, which does not find a key that is not equal to
itself, and calls `Interface()` on the zero `reflect.Value` it returns: the
call panics. -/
theorem C2_nan_key_panics :
    formatPadded baseLibrary (.float .Float64 false "NaN") 4 = .ret "NaN" none
    ∧ formatPadded baseLibrary (.int .Int false 1) 4 = .ret "1" none
    ∧ formatPadded baseLibrary
        (.map (.basic (.Float .Float64) false) (.basic (.Integer .Int) false)
          (some [(.float .Float64 false "NaN", .int .Int false 1)])) 2 =
      .panic .zeroValue := by
  decide

/-- The layout of a map whose keys are found again: a non-empty map all of
whose keys and elements render and each of whose keys is equal to itself,
written at padding `p ≥ 2`, is the name of the map type, an opening brace and
a newline, one line per entry, `p - 2` spaces and the closing brace; the lines
are those of a permutation of the entries of the map (each entry once) and the
rendered key texts, without annotation, do not decrease from line to line. The
maps of the test come out with `"bar"` before `"foo"` and `(string)"foo"`
before `(int)0` in either order of enumeration. This holds with every routine
of `sort.Sort` that does what the library documents (`lib.Lawful`). -/
theorem map_sorted_layout (lib : Library) (hlib : lib.Lawful) (keyType elemType : Ty)
    (kvs : List (Value × Value)) (p : Int) (hp : 2 ≤ p) (hne : kvs ≠ [])
    (hok : ∀ kv ∈ kvs, Renders lib kv.1 (p + 2) ∧ Renders lib kv.2 (p + 2))
    (hfound : ∀ kv ∈ kvs, equalsItself kv.1 = true) :
    (∃ sorted : List (Value × Value), sorted.Perm kvs ∧
      sorted.Pairwise (keyLE lib p) ∧
      formatPadded lib (.map keyType elemType (some kvs)) p =
        .ret (typeName (.map keyType elemType) ++ "\x7b\n" ++
          joinLines (sorted.map (entryLine lib keyType elemType p)) ++
          spaces (p - 2) ++ "\x7d") none)
    ∧ Format lib (.map (.basic .String false) .interface
          (some [(.string false "foo", .string false "asd"),
                 (.string false "bar", .int .Int false 123)])) =
        .ret "map[string]interface\x7b\x7d\x7b\n  \"bar\": (int)123,\n  \"foo\": (string)\"asd\",\n\x7d" none
    ∧ Format lib (.map (.basic .String false) .interface
          (some [(.string false "bar", .int .Int false 123),
                 (.string false "foo", .string false "asd")])) =
        .ret "map[string]interface\x7b\x7d\x7b\n  \"bar\": (int)123,\n  \"foo\": (string)\"asd\",\n\x7d" none
    ∧ Format lib (.map .interface (.basic .String false)
          (some [(.int .Int false 0, .string false "asd"),
                 (.string false "foo", .string false "bar")])) =
        .ret "map[interface\x7b\x7d]string\x7b\n  (string)\"foo\": \"bar\",\n  (int)0: \"asd\",\n\x7d" none
    ∧ Format lib (.map .interface (.basic .String false)
          (some [(.string false "foo", .string false "bar"),
                 (.int .Int false 0, .string false "asd")])) =
        .ret "map[interface\x7b\x7d]string\x7b\n  (string)\"foo\": \"bar\",\n  (int)0: \"asd\",\n\x7d" none := by
  have hp0 : (0 : Int) ≤ p := by omega
  have hp2 : (0 : Int) ≤ p - paddingIncrement := by simp [paddingIncrement]; omega
  refine ⟨?_, rfl, rfl, rfl, rfl⟩
  obtain ⟨sorted, hperm, hmap⟩ :=
    perm_map_pullback (entryOf lib keyType elemType p)
      (sortSort_perm hlib (kvs.map (entryOf lib keyType elemType p))).symm kvs rfl
  refine ⟨sorted, hperm, ?_, ?_⟩
  · have hs := sortSort_sorted hlib (kvs.map (entryOf lib keyType elemType p))
    rw [← hmap, List.pairwise_map] at hs
    exact hs
  · cases kvs with
    | nil => exact absurd rfl hne
    | cons kv rest =>
      rw [formatPadded, mapLoop_renders lib keyType elemType p _ _ hok hfound]
      simp only [List.nil_append, ← hmap, mapEmit_eq hp0, stringsRepeat_spaces hp2]
      delta entryLine
      simp [List.map_map, Function.comp_def, entryOf, paddingIncrement, String.append_assoc]

/-! ## Structs -/

/-- C3, as stated, fails: two structs of type `foo` whose one field `M`, an
exported one, holds the map `map[interface{}]string{1: "a", int64(1): "b"}`
agree on all exported fields, yet render to two texts when the map is
enumerated in two orders, as it may be in two calls. -/
theorem C3_same_fields_two_texts :
    Reordered
      (.struct "foo" [(⟨"M", "", .map .interface (.basic .String false)⟩,
        .map .interface (.basic .String false)
          (some [(.int .Int false 1, .string false "a"),
                 (.int .Int64 false 1, .string false "b")]))])
      (.struct "foo" [(⟨"M", "", .map .interface (.basic .String false)⟩,
        .map .interface (.basic .String false)
          (some [(.int .Int64 false 1, .string false "b"),
                 (.int .Int false 1, .string false "a")]))])
    ∧ Format baseLibrary
        (.struct "foo" [(⟨"M", "", .map .interface (.basic .String false)⟩,
          .map .interface (.basic .String false)
            (some [(.int .Int false 1, .string false "a"),
                   (.int .Int64 false 1, .string false "b")]))]) =
      .ret ("foo\x7b\n  M: map[interface\x7b\x7d]string\x7b\n    (int)1: \"a\",\n" ++
        "    (int64)1: \"b\",\n  \x7d,\n\x7d") none
    ∧ Format baseLibrary
        (.struct "foo" [(⟨"M", "", .map .interface (.basic .String false)⟩,
          .map .interface (.basic .String false)
            (some [(.int .Int64 false 1, .string false "b"),
                   (.int .Int false 1, .string false "a")]))]) =
      .ret ("foo\x7b\n  M: map[interface\x7b\x7d]string\x7b\n    (int64)1: \"b\",\n" ++
        "    (int)1: \"a\",\n  \x7d,\n\x7d") none :=
  ⟨Reordered.struct _ _ _ (ReorderedFields.cons _ _ _ _ _
      (Reordered.map _ _ _ _ _ (List.Perm.swap _ _ _) (reorderedPairs_refl _))
      ReorderedFields.nil),
    by decide, by decide⟩

/-- C3, amended: a struct with at least one exported field, all of whose
exported fields render, written at padding `p ≥ 2`, is the type name, an
opening brace and a newline, then for each exported field in declaration
order `p` spaces, the field name, a colon and a blank, the optional
annotation, the field value rendered at `p + 2`, a comma and a newline, then
`p - 2` spaces and the closing brace. Unexported fields add nothing: a struct
of the same name whose exported fields are the same fields with the same values
(up to the order in which the maps in them are enumerated) renders to the same
result, when the rendering of the exported fields does not depend on that
order (`determinate`). -/
theorem C3_struct_layout (lib : Library) (hlib : lib.Lawful) (name : String)
    (fields : List (StructField × Value)) (p : Int) (hp : 2 ≤ p)
    (hex : ∃ fv ∈ fields, fv.1.PkgPath = "")
    (hok : ∀ fv ∈ fields, fv.1.PkgPath = "" → Renders lib fv.2 (p + 2)) :
    formatPadded lib (.struct name fields) p =
        .ret (typeName (.struct name) ++ "\x7b\n" ++
          joinLines ((fields.filter exported).map (fieldLine lib p)) ++
          spaces (p - 2) ++ "\x7d") none
    ∧ ∀ fields2 : List (StructField × Value),
        ReorderedFields (fields.filter exported) (fields2.filter exported) →
        determinate lib (.struct name fields) p = true →
        formatPadded lib (.struct name fields2) p =
          formatPadded lib (.struct name fields) p := by
  have hp0 : (0 : Int) ≤ p := by omega
  have hp2 : (0 : Int) ≤ p - paddingIncrement := by simp [paddingIncrement]; omega
  constructor
  · rw [formatPadded_struct_filter]
    have hex2 : ∀ x ∈ fields.filter exported, x.1.PkgPath = "" := by
      intro x hx
      simpa [exported] using (List.mem_filter.mp hx).2
    have hok2 : ∀ x ∈ fields.filter exported, Renders lib x.2 (p + 2) := by
      intro x hx
      exact hok x (List.mem_filter.mp hx).1 (hex2 x hx)
    obtain ⟨fv, hfv, hpk⟩ := hex
    have hmem : fv ∈ fields.filter exported :=
      List.mem_filter.mpr ⟨hfv, by simp [exported, hpk]⟩
    cases hfl : fields.filter exported with
    | nil => rw [hfl] at hmem; simp at hmem
    | cons x rest =>
      rw [hfl] at hex2 hok2
      rw [formatPadded, structLoop_renders lib hp0 x rest _ hex2 hok2]
      simp only [if_true, stringsRepeat_spaces hp2]
      simp [paddingIncrement, String.append_assoc]
  · intro fields2 h hdet
    have hdet2 : determinate lib (.struct name (fields.filter exported)) p = true := by
      simp only [determinate] at hdet ⊢
      rw [determinateFields_filter]
      exact hdet
    rw [formatPadded_struct_filter lib name fields2, formatPadded_struct_filter lib name fields]
    exact (formatPadded_reordered lib hlib _ _ p (Reordered.struct name _ _ h) hdet2).symm

/-- Witness of C3, amended: the struct `foo3{"foo", 123, 321}` of the test,
whose middle field is unexported, at padding 2; and a struct of the same type
with another value in the unexported field. -/
theorem C3_struct_layout_witness :
    formatPadded baseLibrary (.struct "foo3"
        [(⟨"Asd", "", .basic .String false⟩, .string false "foo"),
         (⟨"bar", "prettyformat", .basic (.Integer .Int) false⟩, .int .Int false 123),
         (⟨"Foo", "", .basic (.Integer .Int) false⟩, .int .Int false 321)]) 2 =
      .ret "foo3\x7b\n  Asd: \"foo\",\n  Foo: 321,\n\x7d" none
    ∧ formatPadded baseLibrary (.struct "foo3"
        [(⟨"Asd", "", .basic .String false⟩, .string false "foo"),
         (⟨"bar", "prettyformat", .basic (.Integer .Int) false⟩, .int .Int false 456),
         (⟨"Foo", "", .basic (.Integer .Int) false⟩, .int .Int false 321)]) 2 =
      formatPadded baseLibrary (.struct "foo3"
        [(⟨"Asd", "", .basic .String false⟩, .string false "foo"),
         (⟨"bar", "prettyformat", .basic (.Integer .Int) false⟩, .int .Int false 123),
         (⟨"Foo", "", .basic (.Integer .Int) false⟩, .int .Int false 321)]) 2 :=
  have h := C3_struct_layout baseLibrary baseLibrary_lawful "foo3"
    [(⟨"Asd", "", .basic .String false⟩, .string false "foo"),
     (⟨"bar", "prettyformat", .basic (.Integer .Int) false⟩, .int .Int false 123),
     (⟨"Foo", "", .basic (.Integer .Int) false⟩, .int .Int false 321)] 2 (by decide)
    ⟨_, List.mem_cons_self _ _, rfl⟩
    (by
      intro fv hfv _
      simp only [List.mem_cons, List.mem_singleton, List.not_mem_nil, or_false] at hfv
      rcases hfv with rfl | rfl | rfl
      · exact ⟨_, rfl⟩
      · exact ⟨_, rfl⟩
      · exact ⟨_, rfl⟩)
  ⟨h.1.trans rfl, h.2
    [(⟨"Asd", "", .basic .String false⟩, .string false "foo"),
     (⟨"bar", "prettyformat", .basic (.Integer .Int) false⟩, .int .Int false 456),
     (⟨"Foo", "", .basic (.Integer .Int) false⟩, .int .Int false 321)]
    (ReorderedFields.cons _ _ _ _ _ (Reordered.same _)
      (ReorderedFields.cons _ _ _ _ _ (Reordered.same _) ReorderedFields.nil)) rfl⟩

/-! ## Annotation of interface positions -/

/-- C4: in each child position (slice element, array element, exported struct
field, map key, map element) the rendered child is preceded by `(T)`, `T` the
name of its concrete type, exactly when the declared type of the position is
an interface and the kind of the concrete type is none of array, slice, map
and struct; otherwise nothing precedes it. In a map the key and the element
are rendered into a line when the lookup of the element finds the key, that
is when the key is equal to itself (a key holding a NaN makes `formatMap`
panic, and no child is written). The arrays of the test show
`(string)"hello"`, `(int)1234`, `(int64)12345`; a slice held in an interface
slot is not annotated. -/
theorem C4_annotation_rule (lib : Library) (declared : Ty) (child : Value) (t : Ty)
    (s : String) (declared2 : Ty) (child2 : Value) (t2 : Ty) (s2 : String)
    (fieldName : String) (p : Int) (hp : 2 ≤ p)
    (ht : TypeOf child = some t) (hs : formatPadded lib child (p + 2) = .ret s none)
    (ht2 : TypeOf child2 = some t2)
    (hs2 : formatPadded lib child2 (p + 2) = .ret s2 none) :
    let tag := fun (d : Ty) (c : Ty) =>
      if d.Kind = .Interface ∧
          c.Kind ≠ .Array ∧ c.Kind ≠ .Slice ∧ c.Kind ≠ .Map ∧ c.Kind ≠ .Struct
      then "(" ++ typeName c ++ ")" else ""
    formatPadded lib (.slice declared (some [child])) p =
        .ret ("[]" ++ typeName declared ++ "\x7b\n" ++ spaces p ++ tag declared t ++ s ++ ",\n" ++
          spaces (p - 2) ++ "\x7d") none
    ∧ formatPadded lib (.array declared [child]) p =
        .ret ("[1]" ++ typeName declared ++ "\x7b\n" ++ spaces p ++ tag declared t ++ s ++ ",\n" ++
          spaces (p - 2) ++ "\x7d") none
    ∧ formatPadded lib (.struct "T" [(⟨fieldName, "", declared⟩, child)]) p =
        .ret ("T\x7b\n" ++ spaces p ++ fieldName ++ ": " ++ tag declared t ++ s ++ ",\n" ++
          spaces (p - 2) ++ "\x7d") none
    ∧ (equalsItself child = true →
        formatPadded lib (.map declared declared2 (some [(child, child2)])) p =
          .ret ("map[" ++ typeName declared ++ "]" ++ typeName declared2 ++ "\x7b\n" ++
            spaces p ++ tag declared t ++ s ++ ": " ++ tag declared2 t2 ++ s2 ++ ",\n" ++
            spaces (p - 2) ++ "\x7d") none)
    ∧ Format lib (.array .interface
          [.string false "hello", .int .Int false 1234, .int .Int64 false 12345]) =
        .ret "[3]interface\x7b\x7d\x7b\n  (string)\"hello\",\n  (int)1234,\n  (int64)12345,\n\x7d" none
    ∧ Format lib (.slice .interface (some [.slice (.basic (.Integer .Int) false) (some [])])) =
        .ret "[]interface\x7b\x7d\x7b\n  []int\x7b\x7d,\n\x7d" none := by
  intro tag
  have hp0 : (0 : Int) ≤ p := by omega
  have hp2 : (0 : Int) ≤ p - paddingIncrement := by simp [paddingIncrement]; omega
  have hsi : formatPadded lib child (p + paddingIncrement) = .ret s none := hs
  have hsi2 : formatPadded lib child2 (p + paddingIncrement) = .ret s2 none := hs2
  have ha : ∀ d, annotate d child = some (tag d t) := fun d => by
    rw [annotate_eq ht, typeLabel_eq ht]
  have ha2 : ∀ d, annotate d child2 = some (tag d t2) := fun d => by
    rw [annotate_eq ht2, typeLabel_eq ht2]
  refine ⟨?_, ?_, ?_, ?_, rfl, rfl⟩
  · rw [formatPadded, sliceLoop, hsi]
    simp only [stringsRepeat_spaces hp0, ha, sliceLoop, stringsRepeat_spaces hp2]
    simp [paddingIncrement, String.append_assoc]
  · rw [formatPadded, arrayLoop, hsi]
    simp only [stringsRepeat_spaces hp0, ha, arrayLoop, stringsRepeat_spaces hp2]
    simp [paddingIncrement, String.append_assoc]
    rfl
  · rw [formatPadded, structLoop]
    simp only [ne_eq, not_true_eq_false, if_false, stringsRepeat_spaces hp0, hsi, ha,
      structLoop, if_true, stringsRepeat_spaces hp2]
    simp [typeName, paddingIncrement, String.append_assoc]
  · intro hfound
    have hfound2 : mapIndexFinds child = true := hfound
    rw [formatPadded, mapLoop, hsi]
    simp only [ha, hfound2, hsi2, ha2, mapLoop, List.nil_append]
    simp only [sortSort, List.foldl_cons, List.foldl_nil, sortInsert, List.reverse_cons,
      List.reverse_nil, mapEmit, stringsRepeat_spaces hp0, stringsRepeat_spaces hp2]
    simp [typeName, paddingIncrement, String.append_assoc]

/-- Witness of C4: the string `"hello"` in a slot declared `interface{}` and
the integer 1234 in a slot declared `int`, at padding 2. -/
theorem C4_annotation_rule_witness :
    formatPadded baseLibrary (.slice .interface (some [.string false "hello"])) 2 =
        .ret "[]interface\x7b\x7d\x7b\n  (string)\"hello\",\n\x7d" none
    ∧ formatPadded baseLibrary
        (.map .interface (.basic (.Integer .Int) false)
          (some [(.string false "hello", .int .Int false 1234)])) 2 =
        .ret "map[interface\x7b\x7d]int\x7b\n  (string)\"hello\": 1234,\n\x7d" none :=
  have h := C4_annotation_rule baseLibrary .interface (.string false "hello")
    (.basic .String false) "\"hello\"" (.basic (.Integer .Int) false) (.int .Int false 1234)
    (.basic (.Integer .Int) false) "1234" "F" 2 (by decide) rfl rfl rfl rfl
  ⟨h.1.trans rfl, (h.2.2.2.1 rfl).trans rfl⟩

/-! ## Pointers -/

/-- C7: at any padding a nil pointer renders as `nil` with no error, and a
non-nil pointer whose pointee renders to `s` at the same padding renders as
`&` followed by `s`; `Format(&v)` with `v = 1` is `&1`. -/
theorem C7_pointer (lib : Library) (elem : Ty) (p : Int) :
    formatPadded lib (.ptr elem none) p = .ret "nil" none
    ∧ (∀ (pointee : Value) (s : String), formatPadded lib pointee p = .ret s none →
        formatPadded lib (.ptr elem (some pointee)) p = .ret ("&" ++ s) none)
    ∧ Format lib (.ptr (.basic (.Integer .Int) false) (some (.int .Int false 1))) =
        .ret "&1" none := by
  refine ⟨by rw [formatPadded], ?_, rfl⟩
  intro pointee s hs
  rw [formatPadded, hs]

/-- Witness of C7: a pointer to the slice `[]int{7}` at padding 4; the slice
is indented as it is on its own at padding 4. -/
theorem C7_pointer_witness :
    formatPadded baseLibrary (.ptr (.slice (.basic (.Integer .Int) false))
        (some (.slice (.basic (.Integer .Int) false) (some [.int .Int false 7])))) 4 =
      .ret "&[]int\x7b\n    7,\n  \x7d" none :=
  (C7_pointer baseLibrary (.slice (.basic (.Integer .Int) false)) 4).2.1
    (.slice (.basic (.Integer .Int) false) (some [.int .Int false 7]))
    "[]int\x7b\n    7,\n  \x7d" rfl

/-! ## Empty bodies -/

/-- C8: a struct without exported field renders as its type name followed by
`{}`, with no error and no newline, however many unexported fields it has and
whatever they hold (a function, a channel, an address, the nil interface);
`foo2{dsa: 123}` renders as `foo2{}`. -/
theorem C8_struct_no_exported (lib : Library) (name : String)
    (fields : List (StructField × Value)) (h : ∀ fv ∈ fields, fv.1.PkgPath ≠ "") :
    Format lib (.struct name fields) = .ret (typeName (.struct name) ++ "\x7b\x7d") none
    ∧ Format lib (.struct "foo2"
          [(⟨"dsa", "prettyformat", .basic (.Integer .Int) false⟩, .int .Int false 123)]) =
        .ret "foo2\x7b\x7d" none := by
  refine ⟨?_, rfl⟩
  rw [Format, formatPadded, structLoop_hidden lib _ _ _ h]
  simp [String.append_assoc]

/-- Witness of C8: a struct whose four fields, all unexported, hold a
function, a channel, an address and the nil interface. -/
theorem C8_struct_no_exported_witness :
    Format baseLibrary (.struct "hidden"
        [(⟨"f", "prettyformat", .func⟩, .func),
         (⟨"c", "prettyformat", .chan (.basic (.Integer .Int) false)⟩,
            .chan (.basic (.Integer .Int) false)),
         (⟨"a", "prettyformat", .basic .Uintptr false⟩, .uintptr false 4096),
         (⟨"i", "prettyformat", .interface⟩, .absent)]) =
      .ret "hidden\x7b\x7d" none :=
  (C8_struct_no_exported baseLibrary "hidden"
    [(⟨"f", "prettyformat", .func⟩, .func),
     (⟨"c", "prettyformat", .chan (.basic (.Integer .Int) false)⟩,
        .chan (.basic (.Integer .Int) false)),
     (⟨"a", "prettyformat", .basic .Uintptr false⟩, .uintptr false 4096),
     (⟨"i", "prettyformat", .interface⟩, .absent)]
    (by
      intro fv hfv
      simp only [List.mem_cons, List.mem_singleton, List.not_mem_nil, or_false] at hfv
      rcases hfv with rfl | rfl | rfl | rfl <;> decide)).1.trans rfl

/-- C9: for every element type `T` the nil slice and the empty slice of `T`
both render as `[]`, the name of `T` and `{}`, with no error; for every key
type `K` and element type `V` the nil map and the empty map render as `map[`,
the name of `K`, `]`, the name of `V` and `{}`. `Format([]int{})` is
`[]int{}`. -/
theorem C9_empty_slice_map (lib : Library) (elemType keyType : Ty) :
    Format lib (.slice elemType none) = .ret ("[]" ++ typeName elemType ++ "\x7b\x7d") none
    ∧ Format lib (.slice elemType (some [])) = .ret ("[]" ++ typeName elemType ++ "\x7b\x7d") none
    ∧ Format lib (.map keyType elemType none) =
        .ret ("map[" ++ typeName keyType ++ "]" ++ typeName elemType ++ "\x7b\x7d") none
    ∧ Format lib (.map keyType elemType (some [])) =
        .ret ("map[" ++ typeName keyType ++ "]" ++ typeName elemType ++ "\x7b\x7d") none
    ∧ Format lib (.slice (.basic (.Integer .Int) false) (some [])) = .ret "[]int\x7b\x7d" none := by
  refine ⟨?_, ?_, ?_, ?_, rfl⟩ <;> rw [Format, formatPadded] <;>
    simp [typeName, String.append_assoc]

/-- C10: the code at a zero-length array. `formatArray` writes the newline
before its loop whatever the length, so the array `[0]T{}` renders as `[0]`,
the name of `T`, an opening brace, a newline and the closing brace: the brace
does not follow the header directly, unlike for the empty slice. -/
theorem C10_empty_array_newline (lib : Library) (elemType : Ty) :
    Format lib (.array elemType []) = .ret ("[0]" ++ typeName elemType ++ "\x7b\n\x7d") none
    ∧ Format lib (.array (.basic (.Integer .Int) false) []) = .ret "[0]int\x7b\n\x7d" none
    ∧ Format lib (.array (.basic (.Integer .Int) false) []) ≠ .ret "[0]int\x7b\x7d" none
    ∧ Format lib (.slice (.basic (.Integer .Int) false) (some [])) = .ret "[]int\x7b\x7d" none := by
  refine ⟨?_, rfl, ?_, rfl⟩
  swap
  · intro h
    have h2 : Format lib (.array (.basic (.Integer .Int) false) []) =
        .ret "[0]int\x7b\n\x7d" none := rfl
    rw [h2] at h
    exact absurd h (by decide)
  rw [Format, formatPadded, arrayLoop]
  simp [paddingIncrement, stringsRepeat, repeatString, String.append_assoc]
  rfl

/-! ## Errors of children -/

/-- C5: the code at a pointer whose pointee fails. `formatPtr` returns the
empty text and the nil error where the pointee returned an error, so the error
of a function, channel or address behind a pointer is lost, also inside a
slice; an array, by contrast, hands the error of its element on. -/
theorem C5_pointer_drops_error :
    formatPadded baseLibrary (.chan (.basic (.Integer .Int) false)) 2 =
        .ret "" (some .ErrChanType)
    ∧ formatPadded baseLibrary (.ptr (.chan (.basic (.Integer .Int) false))
          (some (.chan (.basic (.Integer .Int) false)))) 2 = .ret "" none
    ∧ Format baseLibrary (.ptr .func (some .func)) = .ret "" none
    ∧ Format baseLibrary (.slice (.ptr .func) (some [.ptr .func (some .func)])) =
        .ret "[]*func\x7b\n  ,\n\x7d" none
    ∧ Format baseLibrary (.array .func [.func]) = .ret "" (some .ErrFunctionType) := by
  decide

/-! ## Order of enumeration -/

/-- C6, as stated, fails: the two enumerations of the map
`map[interface{}]string{1: "a", int64(1): "b"}`, whose keys both render as
`1`, give two texts; and the two enumerations of
`map[string]interface{}{"a": ch, "b": uintptr(1)}` give two errors. -/
theorem C6_order_dependent :
    Format baseLibrary (.map .interface (.basic .String false)
        (some [(.int .Int false 1, .string false "a"), (.int .Int64 false 1, .string false "b")])) =
      .ret "map[interface\x7b\x7d]string\x7b\n  (int)1: \"a\",\n  (int64)1: \"b\",\n\x7d" none
    ∧ Format baseLibrary (.map .interface (.basic .String false)
        (some [(.int .Int64 false 1, .string false "b"), (.int .Int false 1, .string false "a")])) =
      .ret "map[interface\x7b\x7d]string\x7b\n  (int64)1: \"b\",\n  (int)1: \"a\",\n\x7d" none
    ∧ Format baseLibrary (.map (.basic .String false) .interface
        (some [(.string false "a", .chan (.basic (.Integer .Int) false)),
               (.string false "b", .uintptr false 1)])) =
      .ret "" (some .ErrChanType)
    ∧ Format baseLibrary (.map (.basic .String false) .interface
        (some [(.string false "b", .uintptr false 1),
               (.string false "a", .chan (.basic (.Integer .Int) false))])) =
      .ret "" (some .ErrArbitraryPointerType) := by
  decide

/-- C6, amended: a value renders to one result (the same text, the same
error or the same panic) whatever the order in which its maps, at any depth,
are enumerated, when at every map rendered in it any two entries agree: if
both fail to give a line (a key or an element that returns an error or
panics) they fail alike, and if both give a line and their rendered key texts
are the same, they give the same line. This holds at every padding and with
every routine of `sort.Sort` that does what the library documents
(`lib.Lawful`). Two enumerations of the entries of one map are such a pair of
values. -/
theorem C6_order_free_when_entries_agree (lib : Library) (hlib : lib.Lawful)
    (v v2 : Value) (p : Int) (hsame : Reordered v v2) (hagree : determinate lib v p = true) :
    formatPadded lib v p = formatPadded lib v2 p
    ∧ ∀ (keyType elemType : Ty) (kvs kvs2 : List (Value × Value)), kvs.Perm kvs2 →
        Reordered (.map keyType elemType (some kvs)) (.map keyType elemType (some kvs2)) :=
  ⟨formatPadded_reordered lib hlib v v2 p hsame hagree,
    fun keyType elemType kvs kvs2 hperm =>
      Reordered.map keyType elemType kvs kvs2 kvs2 hperm (reorderedPairs_refl kvs2)⟩

/-- Witness of C6, amended: the map
`map[string]interface{}{"a": map[interface{}]string{0: "asd", "foo": "bar"}, "b": ch}`
with a channel `ch`, whose one failing entry fixes the error, enumerated in
two orders, the map inside it in two orders too. -/
theorem C6_order_free_when_entries_agree_witness :
    formatPadded baseLibrary (.map (.basic .String false) .interface
        (some [(.string false "a", .map .interface (.basic .String false)
                  (some [(.int .Int false 0, .string false "asd"),
                         (.string false "foo", .string false "bar")])),
               (.string false "b", .chan (.basic (.Integer .Int) false))])) 2 =
      formatPadded baseLibrary (.map (.basic .String false) .interface
        (some [(.string false "b", .chan (.basic (.Integer .Int) false)),
               (.string false "a", .map .interface (.basic .String false)
                  (some [(.string false "foo", .string false "bar"),
                         (.int .Int false 0, .string false "asd")]))])) 2 :=
  (C6_order_free_when_entries_agree baseLibrary baseLibrary_lawful
    (.map (.basic .String false) .interface
        (some [(.string false "a", .map .interface (.basic .String false)
                  (some [(.int .Int false 0, .string false "asd"),
                         (.string false "foo", .string false "bar")])),
               (.string false "b", .chan (.basic (.Integer .Int) false))]))
    (.map (.basic .String false) .interface
        (some [(.string false "b", .chan (.basic (.Integer .Int) false)),
               (.string false "a", .map .interface (.basic .String false)
                  (some [(.string false "foo", .string false "bar"),
                         (.int .Int false 0, .string false "asd")]))]))
    2
    (Reordered.map _ _ _
      [(.string false "b", .chan (.basic (.Integer .Int) false)),
       (.string false "a", .map .interface (.basic .String false)
          (some [(.int .Int false 0, .string false "asd"),
                 (.string false "foo", .string false "bar")]))] _
      (List.Perm.swap _ _ _)
      (ReorderedPairs.cons _ _ _ _ (Reordered.same _) (Reordered.same _)
        (ReorderedPairs.cons _ _ _ _ (Reordered.same _)
          (Reordered.map _ _ _ _ _ (List.Perm.swap _ _ _) (reorderedPairs_refl _))
          ReorderedPairs.nil)))
    rfl).1

/-! ## Values that cannot be rendered -/

/-- C11: at every padding a value of kind func gives the empty text and
`ErrFunctionType`, a value of kind chan gives `ErrChanType`, and a value of
kind uintptr or unsafe.Pointer gives `ErrArbitraryPointerType`; the five error
values are pairwise distinct. -/
theorem C11_error_kinds (lib : Library) (p : Int) :
    (∀ (v : Value) (t : Ty), TypeOf v = some t →
      (t.Kind = .Func → formatPadded lib v p = .ret "" (some .ErrFunctionType))
      ∧ (t.Kind = .Chan → formatPadded lib v p = .ret "" (some .ErrChanType))
      ∧ (t.Kind = .Uintptr ∨ t.Kind = .UnsafePointer →
          formatPadded lib v p = .ret "" (some .ErrArbitraryPointerType)))
    ∧ [Error.ErrInvalidType, Error.ErrArbitraryPointerType, Error.ErrFunctionType,
        Error.ErrInterfaceType, Error.ErrChanType].Nodup := by
  refine ⟨?_, by decide⟩
  intro v t ht
  cases v <;> simp only [TypeOf, Option.some.injEq, reduceCtorEq] at ht <;> subst ht
  case int k d n =>
    cases k <;> simp [Ty.Kind, Basic.Kind, IntKind.Kind]
  case float k d x =>
    cases k <;> simp [Ty.Kind, Basic.Kind, FloatKind.Kind]
  all_goals simp [Ty.Kind, Basic.Kind, formatPadded, formatFunc, formatChan, formatUintptr,
    formatUnsafePointer]

/-- Witness of C11: a function, a channel of int, the address 4096 as a
uintptr and as an unsafe.Pointer, at padding 2. -/
theorem C11_error_kinds_witness :
    formatPadded baseLibrary .func 2 = .ret "" (some .ErrFunctionType)
    ∧ formatPadded baseLibrary (.chan (.basic (.Integer .Int) false)) 2 =
        .ret "" (some .ErrChanType)
    ∧ formatPadded baseLibrary (.uintptr false 4096) 2 =
        .ret "" (some .ErrArbitraryPointerType)
    ∧ formatPadded baseLibrary (.unsafePointer false 4096) 2 =
        .ret "" (some .ErrArbitraryPointerType) :=
  ⟨((C11_error_kinds baseLibrary 2).1 .func .func rfl).1 rfl,
   ((C11_error_kinds baseLibrary 2).1 (.chan (.basic (.Integer .Int) false))
      (.chan (.basic (.Integer .Int) false)) rfl).2.1 rfl,
   ((C11_error_kinds baseLibrary 2).1 (.uintptr false 4096) (.basic .Uintptr false) rfl).2.2
      (Or.inl rfl),
   ((C11_error_kinds baseLibrary 2).1 (.unsafePointer false 4096)
      (.basic .UnsafePointer false) rfl).2.2 (Or.inr rfl)⟩

/-- C12: the code at the nil interface. `formatPadded` starts with
`reflect.TypeOf(value).Kind()`; for the nil interface `reflect.TypeOf` is the
nil type and the call of `Kind()` panics, so the case `reflect.Invalid`, which
would return `ErrInvalidType`, is never reached: `Format(nil)` panics, and so
does a container with a nil interface in a slot it renders. -/
theorem C12_nil_interface_panics (lib : Library) :
    Format lib .absent = .panic .nilType
    ∧ Format lib .absent ≠ .ret "" (some .ErrInvalidType)
    ∧ Format lib (.slice .interface (some [.absent])) = .panic .nilType
    ∧ Format lib (.struct "T" [(⟨"F", "", .interface⟩, .absent)]) = .panic .nilType := by
  refine ⟨rfl, ?_, rfl, rfl⟩
  intro h
  have h2 : Format lib .absent = .panic .nilType := rfl
  rw [h2] at h
  exact absurd h (by decide)

/-- C13: the code at a value of a user-defined type. The kind switch sends a
value of `type MyInt int` to `formatInt`, whose assertion `value.(int)` fails
for it, and so for every scalar helper: the call panics at every padding, for
a boolean, an integer of any kind (an int64-kinded duration among them), a
float or complex number and a string of a user-defined type. A typed value
holding a nil interface panics as well. -/
theorem C13_defined_type_panics (lib : Library) (p : Int) :
    (∀ b, formatPadded lib (.bool true b) p = .panic .typeAssertion)
    ∧ (∀ k n, formatPadded lib (.int k true n) p = .panic .typeAssertion)
    ∧ (∀ k x, formatPadded lib (.float k true x) p = .panic .typeAssertion)
    ∧ (∀ x, formatPadded lib (.string true x) p = .panic .typeAssertion)
    ∧ formatPadded lib (.int .Int true 5) 2 = .panic .typeAssertion
    ∧ formatPadded lib (.int .Int64 true 1500000000) 2 = .panic .typeAssertion
    ∧ formatPadded lib (.slice (.basic (.Integer .Int) true) (some [.int .Int true 5])) 2 =
        .panic .typeAssertion
    ∧ formatPadded lib (.slice .interface (some [.absent])) 2 = .panic .nilType := by
  refine ⟨fun b => ?_, fun k n => ?_, fun k x => ?_, fun x => ?_, rfl, rfl, rfl, rfl⟩
  · simp [formatPadded, formatBool]
  · simp [formatPadded, formatInteger]
  · simp [formatPadded, formatFloat]
  · simp [formatPadded, formatString]

/-- C14: when `formatPadded` returns a non-nil error the text it returns with
it is empty, whatever had been written to the buffer before. -/
theorem C14_no_partial_text (lib : Library) (v : Value) (p : Int) (s : String) (e : Error)
    (h : formatPadded lib v p = .ret s (some e)) : s = "" := by
  cases v with
  | absent => simp [formatPadded] at h
  | bool d b => cases d <;> simp [formatPadded, formatBool] at h
  | int k d n => cases d <;> simp [formatPadded, formatInteger] at h
  | uintptr d n => simp [formatPadded, formatUintptr] at h; exact h.1.symm
  | float k d x => cases d <;> simp [formatPadded, formatFloat] at h
  | string d x => cases d <;> simp [formatPadded, formatString] at h
  | unsafePointer d a => simp [formatPadded, formatUnsafePointer] at h; exact h.1.symm
  | chan t => simp [formatPadded, formatChan] at h; exact h.1.symm
  | func => simp [formatPadded, formatFunc] at h; exact h.1.symm
  | array t elems =>
    rw [formatPadded] at h
    split at h
    · simp at h
    · rename_i text err hl
      simp only [Result.ret.injEq] at h
      rw [← h.1]
      exact (arrayLoop_exit lib t p _ _ _ _ hl).1
    · split at h <;> simp at h
  | slice t elems =>
    cases elems with
    | none => simp [formatPadded] at h
    | some l =>
      cases l with
      | nil => simp [formatPadded] at h
      | cons x xs =>
        rw [formatPadded] at h
        split at h
        · simp at h
        · rename_i text err hl
          simp only [Result.ret.injEq] at h
          rw [← h.1]
          exact (sliceLoop_exit lib t p _ _ _ _ hl).1
        · split at h <;> simp at h
  | map k t entries =>
    cases entries with
    | none => simp [formatPadded] at h
    | some l =>
      cases l with
      | nil => simp [formatPadded] at h
      | cons x xs =>
        rw [formatPadded] at h
        split at h
        · simp at h
        · rename_i text err hl
          simp only [Result.ret.injEq] at h
          rw [← h.1]
          exact (mapLoop_exit lib k t p _ _ _ _ hl).1
        · split at h
          · simp at h
          · split at h <;> simp at h
  | ptr t pointee =>
    cases pointee with
    | none => simp [formatPadded] at h
    | some w =>
      rw [formatPadded] at h
      split at h <;> simp at h
  | struct name fields =>
    rw [formatPadded] at h
    split at h
    · simp at h
    · rename_i text err hl
      simp only [Result.ret.injEq] at h
      rw [← h.1]
      exact (structLoop_exit lib p _ _ _ _ hl).1
    · split at h
      · split at h <;> simp at h
      · simp at h

/-- Witness of C14: a slice whose second element is a channel; the first
element has been rendered when the channel fails. -/
theorem C14_no_partial_text_witness :
    formatPadded baseLibrary (.slice .interface
        (some [.int .Int false 1, .chan (.basic (.Integer .Int) false)])) 2 =
      .ret "" (some .ErrChanType) ∧ ("" : String) = "" :=
  ⟨rfl, C14_no_partial_text baseLibrary (.slice .interface
      (some [.int .Int false 1, .chan (.basic (.Integer .Int) false)])) 2 "" .ErrChanType rfl⟩

/-! ## Type names -/

/-- C17, as stated, fails: on the type `type T []T`, whose element type is
`T` itself, `typeName` calls itself on the same type again at every depth and
never returns; likewise on `type Tree map[string]Tree`. The tables hold `T`,
and `Tree` and `string`. -/
theorem C17_self_referential_type :
    (¬ ∃ depth, typeNameWithin (fun _ => ⟨.Slice, "T", 0, 0, 0⟩) depth 0 ≠ none)
    ∧ (¬ ∃ depth, typeNameWithin
        (fun n => if n = 0 then ⟨.Map, "Tree", 0, 1, 0⟩ else ⟨.String, "string", 0, 0, 0⟩)
        depth 0 ≠ none) :=
  ⟨fun ⟨depth, h⟩ => h (typeNameWithin_selfElem _ 0 (Or.inl rfl) rfl depth),
    fun ⟨depth, h⟩ => h (typeNameWithin_selfElem _ 0 (Or.inr (Or.inl rfl)) rfl depth)⟩

/-- C17, amended: on every type that unfolds to a finite descriptor, that is
a type that does not reach itself through its key and element types,
`typeName` returns (at every depth beyond the nesting of the descriptor),
and what it returns is: for an array of length `n` over `e`, `[`, the decimal
text of `n`, `]` and the name of `e`; for a map from `k` to `e`, `map[`, the
name of `k`, `]` and the name of `e`; for a pointer to `e`, `*` and the name
of `e`; for a slice of `e`, `[]` and the name of `e`; for a struct its
declared name, or `(anonymous struct)` when it has none; for an interface
`interface{}`; for every other type the name of its kind, also when the type
is user-defined. The type `[]*foo1` is named `[]*foo1` and
`map[string]interface{}` is named so. -/
theorem C17_typeName_finite_types (types : Nat → rtype) (n : Nat) (t : Ty)
    (h : describes types n t) :
    (∀ depth, t.nesting < depth → typeNameWithin types depth n = some (typeName t))
    ∧ (∀ len e, typeName (.array len e) = "[" ++ toString len ++ "]" ++ typeName e)
    ∧ (∀ k e, typeName (.map k e) = "map[" ++ typeName k ++ "]" ++ typeName e)
    ∧ (∀ e, typeName (.ptr e) = "*" ++ typeName e)
    ∧ (∀ e, typeName (.slice e) = "[]" ++ typeName e)
    ∧ (∀ name, typeName (.struct name) = if name = "" then "(anonymous struct)" else name)
    ∧ typeName .interface = "interface\x7b\x7d"
    ∧ (∀ b d, typeName (.basic b d) = kindString (Ty.basic b d).Kind)
    ∧ (∀ e, typeName (.chan e) = kindString (Ty.chan e).Kind)
    ∧ typeName .func = kindString Ty.func.Kind
    ∧ typeNameWithin (fun _ => ⟨.Int, "MyInt", 0, 0, 0⟩) 1 0 = some "int"
    ∧ typeNameWithin (fun m => if m = 0 then ⟨.Slice, "", 0, 0, 1⟩
        else if m = 1 then ⟨.Ptr, "", 0, 0, 2⟩ else ⟨.Struct, "foo1", 0, 0, 0⟩) 3 0 =
      some "[]*foo1"
    ∧ typeNameWithin (fun m => if m = 0 then ⟨.Map, "", 0, 1, 2⟩
        else if m = 1 then ⟨.String, "string", 0, 0, 0⟩ else ⟨.Interface, "", 0, 0, 0⟩) 2 0 =
      some "map[string]interface\x7b\x7d" := by
  refine ⟨fun depth hd => typeNameWithin_describes types t n depth h hd,
    ?_, ?_, ?_, ?_, ?_, ?_, ?_, ?_, ?_, ?_, ?_, ?_⟩ <;> intros <;> rfl

/-- Witness of C17, amended: the type `[]*foo1` of the test, at the places 0
(the slice), 1 (the pointer) and 2 (the struct) of the table. -/
theorem C17_typeName_finite_types_witness :
    typeNameWithin (fun m => if m = 0 then ⟨.Slice, "", 0, 0, 1⟩
        else if m = 1 then ⟨.Ptr, "", 0, 0, 2⟩ else ⟨.Struct, "foo1", 0, 0, 0⟩) 3 0 =
      some (typeName (.slice (.ptr (.struct "foo1")))) :=
  (C17_typeName_finite_types (fun m => if m = 0 then ⟨.Slice, "", 0, 0, 1⟩
      else if m = 1 then ⟨.Ptr, "", 0, 0, 2⟩ else ⟨.Struct, "foo1", 0, 0, 0⟩) 0
    (.slice (.ptr (.struct "foo1"))) ⟨rfl, rfl, rfl, rfl⟩).1 3 (by decide)

/-! ## The order of map entries -/

/-- C15, as stated, fails: the map `map[interface{}]string{0: "asd",
"foo": "bar"}` of the test is written with the line of `(string)"foo"` before
the line of `(int)0`, although the annotated key `(int)0` is less than the
annotated key `(string)"foo"`; the rendered keys, `"foo"` in quotes and `0`,
are in ascending order. -/
theorem C15_annotated_order_fails :
    Format baseLibrary (.map .interface (.basic .String false)
        (some [(.int .Int false 0, .string false "asd"),
               (.string false "foo", .string false "bar")])) =
      .ret "map[interface\x7b\x7d]string\x7b\n  (string)\"foo\": \"bar\",\n  (int)0: \"asd\",\n\x7d" none
    ∧ stringLess "(int)0".data "(string)\"foo\"".data = true
    ∧ stringLess "\"foo\"".data "0".data = true := by
  decide

/-- C15, amended: for a map whose key type is an interface, all of whose keys
and elements render and each of whose keys is equal to itself (a map with a
key that is not, one holding a NaN, is left out: `formatMap` does not get to
write it), the entries are written in ascending order of the rendered key text
alone, the annotation not being compared: the lines are those of a
permutation of the entries, and of two consecutive lines the rendered key of
the second is not less than that of the first. -/
theorem C15_interface_keys_text_order (lib : Library) (hlib : lib.Lawful) (elemType : Ty)
    (kvs : List (Value × Value)) (p : Int) (hp : 2 ≤ p) (hne : kvs ≠ [])
    (hok : ∀ kv ∈ kvs, Renders lib kv.1 (p + 2) ∧ Renders lib kv.2 (p + 2))
    (hfound : ∀ kv ∈ kvs, equalsItself kv.1 = true) :
    ∃ sorted : List mapEntry,
      sorted.Perm (kvs.map (entryOf lib .interface elemType p)) ∧
      sorted.Chain' (fun a b => stringLess b.key.data a.key.data = false) ∧
      formatPadded lib (.map .interface elemType (some kvs)) p =
        .ret ("map[interface\x7b\x7d]" ++ typeName elemType ++ "\x7b\n" ++
          joinLines (sorted.map (emittedLine p)) ++ spaces (p - 2) ++ "\x7d") none := by
  cases kvs with
  | nil => exact absurd rfl hne
  | cons kv rest =>
    refine ⟨_, sortSort_perm hlib _, ?_, ?_⟩
    · exact List.Pairwise.chain' (sortSort_sorted hlib _)
    · rw [map_layout lib .interface elemType kv rest hp hok hfound]
      simp [typeName, String.append_assoc]

/-- Witness of C15, amended: the map `map[interface{}]string{0: "asd",
"foo": "bar"}` of the test at padding 2. -/
theorem C15_interface_keys_text_order_witness :
    ∃ sorted : List mapEntry,
      sorted.Perm ([(Value.int .Int false 0, Value.string false "asd"),
          (Value.string false "foo", Value.string false "bar")].map
            (entryOf baseLibrary .interface (.basic .String false) 2)) ∧
      sorted.Chain' (fun a b => stringLess b.key.data a.key.data = false) ∧
      formatPadded baseLibrary (.map .interface (.basic .String false)
          (some [(.int .Int false 0, .string false "asd"),
                 (.string false "foo", .string false "bar")])) 2 =
        .ret ("map[interface\x7b\x7d]" ++ typeName (.basic .String false) ++ "\x7b\n" ++
          joinLines (sorted.map (emittedLine 2)) ++ spaces (2 - 2) ++ "\x7d") none :=
  C15_interface_keys_text_order baseLibrary baseLibrary_lawful (.basic .String false)
    [(.int .Int false 0, .string false "asd"), (.string false "foo", .string false "bar")]
    2 (by decide) (by simp)
    (by
      intro kv hkv
      simp only [List.mem_cons, List.mem_singleton, List.not_mem_nil, or_false] at hkv
      rcases hkv with rfl | rfl
      · exact ⟨⟨_, rfl⟩, ⟨_, rfl⟩⟩
      · exact ⟨⟨_, rfl⟩, ⟨_, rfl⟩⟩)
    (by decide)

/-- C16, as stated, fails: `formatMap` calls `sort.Sort`, which the library
documents as not guaranteed to be stable. With the routine of the releases 1.6
to 1.18, which meets what the library documents, the map of seven entries
enumerated as `2, 1, 3, 4, 5, 6, int64(1)` is written with the entry of
`int64(1)` before the entry of `1`, both of rendered key `1`, although `1` was
met first; with an insertion sort the two keep their order. -/
theorem C16_unstable_above_six :
    releaseLibrary.Lawful
    ∧ Format releaseLibrary (.map .interface (.basic .String false)
        (some [(.int .Int false 2, .string false "a"), (.int .Int false 1, .string false "b"),
               (.int .Int false 3, .string false "c"), (.int .Int false 4, .string false "d"),
               (.int .Int false 5, .string false "e"), (.int .Int false 6, .string false "f"),
               (.int .Int64 false 1, .string false "g")])) =
      .ret ("map[interface\x7b\x7d]string\x7b\n  (int64)1: \"g\",\n  (int)1: \"b\",\n  (int)2: \"a\",\n" ++
        "  (int)3: \"c\",\n  (int)4: \"d\",\n  (int)5: \"e\",\n  (int)6: \"f\",\n\x7d") none
    ∧ Format baseLibrary (.map .interface (.basic .String false)
        (some [(.int .Int false 2, .string false "a"), (.int .Int false 1, .string false "b"),
               (.int .Int false 3, .string false "c"), (.int .Int false 4, .string false "d"),
               (.int .Int false 5, .string false "e"), (.int .Int false 6, .string false "f"),
               (.int .Int64 false 1, .string false "g")])) =
      .ret ("map[interface\x7b\x7d]string\x7b\n  (int)1: \"b\",\n  (int64)1: \"g\",\n  (int)2: \"a\",\n" ++
        "  (int)3: \"c\",\n  (int)4: \"d\",\n  (int)5: \"e\",\n  (int)6: \"f\",\n\x7d") none :=
  ⟨releaseLibrary_lawful, by decide, by decide⟩

/-- C16, amended: for a map of at most six entries, all of whose keys and
elements render and each of whose keys is equal to itself (a map with a key
that is not, one holding a NaN, is left out: `formatMap` does not get to write
it), the entries with one and the same rendered key text are
written in the order in which they were enumerated, whatever the library does
on longer slices: the written entries are a permutation of the recorded ones,
in ascending order of key text, and for every text the written entries with
that key are the recorded entries with that key, in the same order. -/
theorem C16_stable_up_to_six (lib : Library) (keyType elemType : Ty)
    (kvs : List (Value × Value)) (p : Int) (hp : 2 ≤ p) (hne : kvs ≠ [])
    (hlen : kvs.length ≤ 6)
    (hok : ∀ kv ∈ kvs, Renders lib kv.1 (p + 2) ∧ Renders lib kv.2 (p + 2))
    (hfound : ∀ kv ∈ kvs, equalsItself kv.1 = true) :
    ∃ sorted : List mapEntry,
      (∀ k : String, sorted.filter (fun e => decide (e.key = k)) =
        (kvs.map (entryOf lib keyType elemType p)).filter (fun e => decide (e.key = k))) ∧
      sorted.Perm (kvs.map (entryOf lib keyType elemType p)) ∧
      sorted.Pairwise (fun a b => stringLess b.key.data a.key.data = false) ∧
      formatPadded lib (.map keyType elemType (some kvs)) p =
        .ret (typeName (.map keyType elemType) ++ "\x7b\n" ++
          joinLines (sorted.map (emittedLine p)) ++ spaces (p - 2) ++ "\x7d") none := by
  cases kvs with
  | nil => exact absurd rfl hne
  | cons kv rest =>
    have hs : sortSort lib ((kv :: rest).map (entryOf lib keyType elemType p)) =
        insertionSort ((kv :: rest).map (entryOf lib keyType elemType p)) := by
      unfold sortSort
      rw [if_pos (by simpa using hlen)]
    refine ⟨_, fun k => insertionSort_stable k _, insertionSort_perm _,
      insertionSort_sorted _, ?_⟩
    rw [map_layout lib keyType elemType kv rest hp hok hfound, hs]

/-- Witness of C16, amended: the map `map[interface{}]string{1: "a",
int64(1): "b"}`, whose two keys render as `1`, at padding 2 with the library
of the releases 1.6 to 1.18. -/
theorem C16_stable_up_to_six_witness :
    ∃ sorted : List mapEntry,
      (∀ k : String, sorted.filter (fun e => decide (e.key = k)) =
        ([(Value.int .Int false 1, Value.string false "a"),
          (Value.int .Int64 false 1, Value.string false "b")].map
            (entryOf releaseLibrary .interface (.basic .String false) 2)).filter
          (fun e => decide (e.key = k))) ∧
      sorted.Perm ([(Value.int .Int false 1, Value.string false "a"),
          (Value.int .Int64 false 1, Value.string false "b")].map
            (entryOf releaseLibrary .interface (.basic .String false) 2)) ∧
      sorted.Pairwise (fun a b => stringLess b.key.data a.key.data = false) ∧
      formatPadded releaseLibrary (.map .interface (.basic .String false)
          (some [(.int .Int false 1, .string false "a"),
                 (.int .Int64 false 1, .string false "b")])) 2 =
        .ret (typeName (.map .interface (.basic .String false)) ++ "\x7b\n" ++
          joinLines (sorted.map (emittedLine 2)) ++ spaces (2 - 2) ++ "\x7d") none :=
  C16_stable_up_to_six releaseLibrary .interface (.basic .String false)
    [(.int .Int false 1, .string false "a"), (.int .Int64 false 1, .string false "b")]
    2 (by decide) (by simp) (by decide)
    (by
      intro kv hkv
      simp only [List.mem_cons, List.mem_singleton, List.not_mem_nil, or_false] at hkv
      rcases hkv with rfl | rfl
      · exact ⟨⟨_, rfl⟩, ⟨_, rfl⟩⟩
      · exact ⟨⟨_, rfl⟩, ⟨_, rfl⟩⟩)
    (by decide)

/-! ## Indentation -/

/-- C19: under `Format`, which starts `formatPadded` at padding 2, every call
of `formatPadded` gets a padding equal to 2 plus twice the number of arrays,
slices, maps and structs (pointers not counted) around the value, hence at
least 2, so that both counts passed to `strings.Repeat`, the padding and the
padding less 2, are not negative; and no call of `formatPadded` at a padding
of at least 2, that of `Format` among them, ends in the panic of
`strings.Repeat` on a negative count. -/
theorem C19_indentation_never_negative (lib : Library) (root : Value) :
    (∀ (levels : Nat) (w : Value) (q : Int), Nested root levels w q →
      q = 2 + 2 * (levels : Int) ∧ 2 ≤ q ∧ 0 ≤ q - paddingIncrement)
    ∧ (∀ p : Int, 2 ≤ p → formatPadded lib root p ≠ .panic .negativeRepeat)
    ∧ Format lib root ≠ .panic .negativeRepeat := by
  refine ⟨?_, fun p hp => formatPadded_repeat_safe lib root p hp,
    formatPadded_repeat_safe lib root _ (by decide)⟩
  intro levels w q h
  have hq := nested_padding h
  refine ⟨hq, ?_, ?_⟩
  · omega
  · simp only [paddingIncrement]
    omega

/-- Witness of C19: in `[]*int{&v}` the integer behind the pointer is
rendered at padding 4, one level down, the pointer not counting. -/
theorem C19_indentation_never_negative_witness :
    (4 : Int) = 2 + 2 * ((1 : Nat) : Int) ∧ (2 : Int) ≤ 4 ∧ (0 : Int) ≤ 4 - paddingIncrement :=
  (C19_indentation_never_negative baseLibrary
    (.slice (.ptr (.basic (.Integer .Int) false))
      (some [.ptr (.basic (.Integer .Int) false) (some (.int .Int false 1))]))).1
    1 (.int .Int false 1) 4
    (Nested.call 1 (.ptr (.basic (.Integer .Int) false) (some (.int .Int false 1))) 4 0
      (.int .Int false 1) 4
      (Nested.call 0 _ 2 1 _ 4 Nested.top
        (Calls.sliceElem _ _ 2 _ (List.mem_singleton.mpr rfl)))
      (Calls.pointee _ _ 4))

/-! ## Closed output -/

/-- C18, as stated, fails: a string is quoted with its braces as they are, so
`Format("}")` is the closing brace between quotes, with no opening brace;
`Format("}{")` has one of each but closes before it opens; and
`Format([]string{"{"})` has two opening braces and one closing. -/
theorem C18_brace_in_string :
    Format baseLibrary (.string false "\x7d") = .ret "\"\x7d\"" none
    ∧ ¬ Closed "\"\x7d\""
    ∧ Format baseLibrary (.string false "\x7d\x7b") = .ret "\"\x7d\x7b\"" none
    ∧ ¬ Closed "\"\x7d\x7b\""
    ∧ Format baseLibrary (.slice (.basic .String false) (some [.string false "\x7b"])) =
        .ret "[]string\x7b\n  \"\x7b\",\n\x7d" none
    ∧ ¬ Closed "[]string\x7b\n  \"\x7b\",\n\x7d" :=
  ⟨by decide, fun h => absurd h.1 (by decide), by decide, fun h => absurd (h.2 2) (by decide),
    by decide, fun h => absurd h.1 (by decide)⟩

/-- C18, amended: when in every text written from the value as it stands (a
rendered string, the text of a number, the name of a struct type or of an
exported field) the braces pair up among themselves, as they do when none of
these texts holds a brace, every text `Format` returns without error is a
closed fragment: it has as many closing braces as opening ones and no
beginning of it has more closing braces than opening ones. -/
theorem C18_closed_when_braces_pair (lib : Library) (hlib : lib.Lawful) (v : Value)
    (hpaired : Paired v = true) (s : String)
    (h : Format lib v = .ret s none) : Closed s :=
  closed_of_balanced (formatPadded_balanced lib hlib v
    (by simpa [Paired] using (Bool.and_eq_true _ _ ▸ hpaired).1)
    (by simpa [Paired] using (Bool.and_eq_true _ _ ▸ hpaired).2) _ s h)

/-- Witness of C18, amended: a struct of the instantiated generic type
`Box[struct {}]` holding the string `{}` and a map of the test. -/
theorem C18_closed_when_braces_pair_witness :
    Closed ("Box[struct \x7b\x7d]\x7b\n  Text: \"\x7b\x7d\",\n" ++
      "  Items: map[string]interface\x7b\x7d\x7b\n    \"foo\": foo1\x7b\n" ++
      "      Foo: (string)\"123\",\n    \x7d,\n  \x7d,\n\x7d") :=
  C18_closed_when_braces_pair baseLibrary baseLibrary_lawful
    (.struct "Box[struct \x7b\x7d]"
      [(⟨"Text", "", .basic .String false⟩, .string false "\x7b\x7d"),
       (⟨"Items", "", .map (.basic .String false) .interface⟩,
        .map (.basic .String false) .interface (some [(.string false "foo",
          .struct "foo1" [(⟨"Foo", "", .interface⟩, .string false "123")])]))])
    rfl _ rfl

/-! ## Rendering two spaces deeper -/

/-- C20, as stated, fails across two calls: the map
`map[interface{}]string{int8(7): "x", uint8(7): "y"}`, whose keys both render
as `7`, enumerated in one order for the call at padding 2 and in the other
for the call at padding 4, gives at padding 4 a text that is not the text at
padding 2 with two spaces after every newline; and
`map[string]interface{}{"a": ch, "b": uintptr(1)}` gives the error of the
channel at padding 2 and that of the address at padding 4. -/
theorem C20_two_calls_differ :
    Reordered
      (.map .interface (.basic .String false)
        (some [(.int .Int8 false 7, .string false "x"), (.int .Uint8 false 7, .string false "y")]))
      (.map .interface (.basic .String false)
        (some [(.int .Uint8 false 7, .string false "y"), (.int .Int8 false 7, .string false "x")]))
    ∧ formatPadded baseLibrary (.map .interface (.basic .String false)
        (some [(.int .Int8 false 7, .string false "x"),
               (.int .Uint8 false 7, .string false "y")])) 2 =
      .ret "map[interface\x7b\x7d]string\x7b\n  (int8)7: \"x\",\n  (uint8)7: \"y\",\n\x7d" none
    ∧ formatPadded baseLibrary (.map .interface (.basic .String false)
        (some [(.int .Uint8 false 7, .string false "y"),
               (.int .Int8 false 7, .string false "x")])) 4 =
      .ret "map[interface\x7b\x7d]string\x7b\n    (uint8)7: \"y\",\n    (int8)7: \"x\",\n  \x7d" none
    ∧ indentText "map[interface\x7b\x7d]string\x7b\n  (int8)7: \"x\",\n  (uint8)7: \"y\",\n\x7d" ≠
        "map[interface\x7b\x7d]string\x7b\n    (uint8)7: \"y\",\n    (int8)7: \"x\",\n  \x7d"
    ∧ Reordered
      (.map (.basic .String false) .interface
        (some [(.string false "a", .chan (.basic (.Integer .Int) false)),
               (.string false "b", .uintptr false 1)]))
      (.map (.basic .String false) .interface
        (some [(.string false "b", .uintptr false 1),
               (.string false "a", .chan (.basic (.Integer .Int) false))]))
    ∧ formatPadded baseLibrary (.map (.basic .String false) .interface
        (some [(.string false "a", .chan (.basic (.Integer .Int) false)),
               (.string false "b", .uintptr false 1)])) 2 =
      .ret "" (some .ErrChanType)
    ∧ formatPadded baseLibrary (.map (.basic .String false) .interface
        (some [(.string false "b", .uintptr false 1),
               (.string false "a", .chan (.basic (.Integer .Int) false))])) 4 =
      .ret "" (some .ErrArbitraryPointerType) :=
  ⟨Reordered.map _ _ _ _ _ (List.Perm.swap _ _ _) (reorderedPairs_refl _),
    by decide, by decide, by decide,
    Reordered.map _ _ _ _ _ (List.Perm.swap _ _ _) (reorderedPairs_refl _),
    by decide, by decide⟩

/-- C20, amended: for a value whose rendering does not depend on the order in
which its maps are enumerated (`determinate`: at every map rendered in it two
entries that fail, fail alike, and two entries of the same rendered key text
give the same line) and whose names and number texts hold no newline
(`SingleLine`, which is so of every Go value), and a padding `p ≥ 2`: a call
of `formatPadded` at `p + 2` returns an error exactly when a call at `p`
does, and then the same error; when the call at `p` returns a text, the call
at `p + 2` returns that text with two spaces put in after every newline, and
every text returned at `p + 2` arises so; a panic at one padding is the same
panic at the other. The two calls may enumerate the maps of the value in two
orders (`Reordered`). Maps are covered: indenting the rendered keys does not
change their order. A quoted string holds no newline. -/
theorem C20_indentation_compositional (lib : Library) (hlib : lib.Lawful) (v v2 : Value)
    (hsame : Reordered v v2) (p : Int) (hp : 2 ≤ p)
    (hagree : determinate lib v p = true) (hline : SingleLine v = true) :
    (∀ e : Error, (∃ s, formatPadded lib v2 (p + 2) = .ret s (some e)) ↔
        (∃ s, formatPadded lib v p = .ret s (some e)))
    ∧ (∀ s, formatPadded lib v p = .ret s none →
        formatPadded lib v2 (p + 2) = .ret (indentText s) none)
    ∧ (∀ s2, formatPadded lib v2 (p + 2) = .ret s2 none →
        ∃ s, formatPadded lib v p = .ret s none ∧ s2 = indentText s)
    ∧ (∀ c : Panic, formatPadded lib v2 (p + 2) = .panic c ↔ formatPadded lib v p = .panic c)
    ∧ (∀ x : String, NoNewline (fmtQuote lib.isPrint x).data) := by
  have h := formatPadded_indent_reordered lib hlib v v2 hsame p hp hagree hline
  refine ⟨fun e => ⟨?_, ?_⟩, ?_, ?_, fun c => ⟨?_, ?_⟩, fmtQuote_noNewline lib.isPrint⟩
  · rintro ⟨s, hs⟩
    rw [h] at hs
    cases hf : formatPadded lib v p with
    | panic c => rw [hf] at hs; simp [Result.indent] at hs
    | ret t err =>
      rw [hf] at hs
      simp only [Result.indent, Result.ret.injEq] at hs
      exact ⟨t, by rw [hs.2]⟩
  · rintro ⟨s, hs⟩
    exact ⟨indentText s, by rw [h, hs]; rfl⟩
  · intro s hs
    rw [h, hs]
    rfl
  · intro s2 hs
    rw [h] at hs
    cases hf : formatPadded lib v p with
    | panic c => rw [hf] at hs; simp [Result.indent] at hs
    | ret t err =>
      rw [hf] at hs
      simp only [Result.indent, Result.ret.injEq] at hs
      exact ⟨t, by rw [hs.2], hs.1.symm⟩
  · intro hc
    rw [h] at hc
    cases hf : formatPadded lib v p with
    | panic c2 =>
      rw [hf] at hc
      simpa [Result.indent] using hc
    | ret t err => rw [hf] at hc; simp [Result.indent] at hc
  · intro hc
    rw [h, hc]
    rfl

/-- Witness of C20, amended: the array of the test holding a struct whose
field holds a map, the map enumerated in one order for the call at padding 2
and in the other for the call at padding 4. -/
theorem C20_indentation_compositional_witness :
    formatPadded baseLibrary (.array (.struct "foo1") [.struct "foo1" [(⟨"Foo", "", .interface⟩,
        .map (.basic .String false) .interface
          (some [(.string false "bar", .string false "a\nb"),
                 (.string false "foo", .int .Int false 1)]))]]) 4 =
      .ret (indentText ("[1]foo1\x7b\n  foo1\x7b\n    Foo: map[string]interface\x7b\x7d\x7b\n" ++
        "      \"bar\": (string)\"a\\nb\",\n      \"foo\": (int)1,\n    \x7d,\n  \x7d,\n\x7d")) none :=
  (C20_indentation_compositional baseLibrary baseLibrary_lawful
    (.array (.struct "foo1") [.struct "foo1" [(⟨"Foo", "", .interface⟩,
      .map (.basic .String false) .interface
        (some [(.string false "foo", .int .Int false 1),
               (.string false "bar", .string false "a\nb")]))]])
    (.array (.struct "foo1") [.struct "foo1" [(⟨"Foo", "", .interface⟩,
      .map (.basic .String false) .interface
        (some [(.string false "bar", .string false "a\nb"),
               (.string false "foo", .int .Int false 1)]))]])
    (Reordered.array _ _ _ (ReorderedElems.cons _ _ _ _
      (Reordered.struct _ _ _ (ReorderedFields.cons _ _ _ _ _
        (Reordered.map _ _ _ _ _ (List.Perm.swap _ _ _) (reorderedPairs_refl _))
        ReorderedFields.nil))
      ReorderedElems.nil))
    2 (by decide) rfl rfl).2.1 _ rfl

end PrettyFormat
